import Mathlib

/-!
The polarx_rpc I/O reactor (`plugin/polarx_rpc/server/epoll.h`).

A shallow embedding of `CmtEpoll`: the task type, the work queue, the
per-iteration phases of `CmtEpoll::loop`, `push_work`, `init_thread` and the
thread-pool scaling operations.  Effects on the outside world (calls through
function pointers, virtual calls on callbacks, notifier reads and writes,
thread creation) are recorded as a list of `Event`s, in program order.
Atomics are read and written sequentially: one thread runs an operation
from start to end.
-/

namespace polarx_rpc

/-! ## Constants -/

def MAX_EPOLL_GROUPS : Nat := 128
def MAX_EPOLL_EXTRA_GROUPS : Nat := 32
def MAX_EPOLL_THREADS_PER_GROUP : Nat := 128
def MIN_EPOLL_WAIT_TOTAL_THREADS : Nat := 4
def MAX_EPOLL_WAIT_TOTAL_THREADS : Nat := 128
def MAX_EPOLL_EVENTS_PER_THREAD : Nat := 16
def MAX_EPOLL_TIMEOUT : Nat := 60 * 1000
def MAX_TCP_KEEP_ALIVE : Nat := 7200
def MIN_WORK_QUEUE_CAPACITY : Nat := 128
def MAX_WORK_QUEUE_CAPACITY : Nat := 4096

/-! ## Observable effects -/

/-- A system call made by the reactor, with the arguments that matter. -/
inductive sys_call where
  /-- `fcntl(fd, F_GETFL)`, retried while interrupted. -/
  | fcntl_getfl (fd : Nat)
  /-- `fcntl(fd, F_SETFL, flags)`, retried while interrupted. -/
  | fcntl_setfl (fd flags : Nat)
  /-- `setsockopt(fd, IPPROTO_TCP, TCP_NODELAY, &enable)`, `enable` being the
  source's `on`. -/
  | tcp_nodelay (fd enable : Nat)
  /-- `setsockopt(fd, SOL_SOCKET, SO_KEEPALIVE, &enable)`. -/
  | so_keepalive (fd enable : Nat)
  /-- `setsockopt(fd, IPPROTO_TCP, TCP_KEEPIDLE, &delay)`. -/
  | tcp_keepidle (fd delay : Nat)
  /-- `epoll_ctl(epfd_, EPOLL_CTL_ADD, fd, &event)` with `event.events` and
  `event.data.ptr`. -/
  | epoll_ctl_add (fd events ptr : Nat)
  /-- `socket(AF_INET, SOCK_STREAM, IPPROTO_TCP)`. -/
  | socket
  /-- `inet_pton(AF_INET, "127.0.0.1", ...)`. -/
  | inet_pton
  /-- `connect(fd, 127.0.0.1:port)`. -/
  | connect (fd port : Nat)
  /-- `close(fd)`. -/
  | close (fd : Nat)
  deriving DecidableEq, Repr

/-- One externally visible action of the reactor.  Pointers are machine
words; `0` is `nullptr`. -/
inductive Event where
  /-- The call `run_(run_ctx_)` made by `task_t::call`. -/
  | run (fn ctx : Nat)
  /-- The call `del_(del_ctx_)` made by `task_t::fin`. -/
  | del (fn ctx : Nat)
  /-- A `::read(eventfd_, ...)`. -/
  | eventfd_read
  /-- A `::write(eventfd_, ...)`. -/
  | eventfd_write
  /-- The virtual call `cb->pre_events()`. -/
  | pre_events (cb : Nat)
  /-- The virtual call `cb->events(mask, index, total)` and what it returned. -/
  | events (cb mask index total : Nat) (bret : Bool)
  /-- The statement `delete cb`. -/
  | delete_cb (cb : Nat)
  /-- A detached `std::thread` running
  `loop(group_id_, thread_id, base_thread, affinity, epoll_wait, is_worker)`. -/
  | thread (thread_id : Nat) (base_thread : Bool) (affinity : Int)
      (epoll_wait is_worker : Bool)
  /-- The virtual call `cb->set_fd(fd)`. -/
  | set_fd (cb fd : Nat)
  /-- The virtual call `cb->fd_registered()`. -/
  | fd_registered (cb : Nat)
  /-- A system call. -/
  | sys (c : sys_call)
  deriving DecidableEq, Repr

/-! ## `task_t` -/

/-- Timer/worker task: two function pointers with their contexts. -/
structure task_t where
  run_ctx_ : Nat := 0
  run_ : Nat := 0
  del_ctx_ : Nat := 0
  del_ : Nat := 0
  deriving DecidableEq, Repr

namespace task_t

/-- `explicit operator bool() const { return run_ != nullptr; }` -/
def toBool (t : task_t) : Bool := t.run_ != 0

/-- `call()`: `if (run_ != nullptr) run_(run_ctx_);` -/
def call (t : task_t) : List Event :=
  if t.run_ != 0 then [Event.run t.run_ t.run_ctx_] else []

/-- `fin()`: `if (del_ != nullptr) del_(del_ctx_);` -/
def fin (t : task_t) : List Event :=
  if t.del_ != 0 then [Event.del t.del_ t.del_ctx_] else []

end task_t

/-! ## Work queue -/

/-- Modelled from the spec: `CarrayQueue` (`utility/array_queue.h` is not
among the sources), the bounded ring of tasks.  `items` are the queued
elements, oldest first; `head_` counts the pops made so far, so the tail
index is `head_ + items.length`. -/
structure CarrayQueue (α : Type) where
  capacity_ : Nat
  items : List α := []
  head_ : Nat := 0
  deriving DecidableEq, Repr

namespace CarrayQueue

variable {α : Type}

/-- Modelled from the spec: `push` appends unless the ring is full, and
tells whether it did. -/
def push (q : CarrayQueue α) (v : α) : Bool × CarrayQueue α :=
  if q.items.length < q.capacity_ then (true, { q with items := q.items ++ [v] })
  else (false, q)

/-- Modelled from the spec: `pop(v)` moves the oldest element into `v`; on
an empty ring `v` keeps the value it had. -/
def pop (q : CarrayQueue α) (v : α) : α × CarrayQueue α :=
  match q.items with
  | [] => (v, q)
  | x :: rest => (x, { q with items := rest, head_ := q.head_ + 1 })

def empty (q : CarrayQueue α) : Bool := q.items.isEmpty

def length (q : CarrayQueue α) : Nat := q.items.length

def capacity (q : CarrayQueue α) : Nat := q.capacity_

def head (q : CarrayQueue α) : Nat := q.head_

def tail (q : CarrayQueue α) : Nat := q.head_ + q.items.length

end CarrayQueue

/-! ## Timer heap -/

/-- Modelled from the spec: a timer entry `(task, trigger_time_ms, id, type)`
of `CtimerHeap` (`timer_heap.h` is not among the sources). -/
structure timer_entry where
  task : task_t
  trigger_time : Int
  id : Int := 0
  type : Nat := 0
  deriving DecidableEq, Repr

/-- Modelled from the spec: `CtimerHeap` (`timer_heap.h` is not among the
sources), the min-heap of timer entries keyed by trigger time.  `entries`
are the entries held, in any order; `next_id` is the id the next push
hands out. -/
structure CtimerHeap where
  entries : List timer_entry := []
  next_id : Int := 0
  deriving DecidableEq, Repr

namespace CtimerHeap

/-- Modelled from the spec: the entry with the earliest trigger time (the
first such entry when several share it). -/
def earliest : List timer_entry → Option timer_entry
  | [] => none
  | e :: rest =>
    match earliest rest with
    | none => some e
    | some m => if e.trigger_time ≤ m.trigger_time then some e else some m

/-- Modelled from the spec: `peak(time)`, the spec's `peek_earliest`: the
earliest trigger time, when the heap is not empty. -/
def peak (h : CtimerHeap) : Option Int :=
  (earliest h.entries).map (fun e => e.trigger_time)

/-- Modelled from the spec: `push(task, time, id)` adds an entry and hands
out its id. -/
def push (h : CtimerHeap) (task : task_t) (trigger_time : Int) : Int × CtimerHeap :=
  (h.next_id,
   { entries := h.entries ++ [{ task := task, trigger_time := trigger_time, id := h.next_id }],
     next_id := h.next_id + 1 })

/-- Modelled from the spec: `pop(now, task, id, type)`, the spec's
`pop_due`: takes out the earliest entry when its trigger time is `≤ now`. -/
def pop (h : CtimerHeap) (now : Int) : Option (timer_entry × CtimerHeap) :=
  match earliest h.entries with
  | none => none
  | some m =>
    if m.trigger_time ≤ now then some (m, { h with entries := h.entries.erase m })
    else none

end CtimerHeap

/-! ## Extra context -/

/-- Modelled from the spec: `reusable_session_t` (`epoll_group_ctx.h` is not
among the sources), a reusable session: `ptr` is the address of the object,
`start_time_ms` the time it was created. -/
structure reusable_session_t where
  ptr : Nat
  start_time_ms : Int
  deriving DecidableEq, Repr

/-- Modelled from the spec: `epoll_group_ctx_t` (`epoll_group_ctx.h` is not
among the sources): the bounded FIFO pool of reusable sessions, oldest
first. -/
structure epoll_group_ctx_t where
  reusable_sessions : List reusable_session_t := []
  deriving DecidableEq, Repr

/-! ## Group state -/

/-- The fields of `CmtEpoll` that the modelled operations read or write,
with the initial values given by the constructor.  `global_thread_count`
is the process-wide counter behind `CmtEpoll::global_thread_count()`. -/
structure CmtEpoll where
  eventfd_ : Nat := 0
  timer_heap_ : CtimerHeap := {}
  work_queue_ : CarrayQueue task_t := { capacity_ := MIN_WORK_QUEUE_CAPACITY }
  wait_cnt_ : Int := 0
  loop_cnt_ : Int := 0
  last_cleanup_ : Int := 0
  with_affinity_ : Bool := true
  cpus_ : List Int := []
  base_thread_count_ : Int := 0
  stall_count_ : Int := 0
  worker_count_ : Int := 0
  tasker_count_ : Int := 0
  last_scale_time_ : Int := 0
  last_tasker_time_ : Int := 0
  session_count_ : Int := 0
  last_head_ : Nat := 0
  last_loop_ : Int := 0
  global_thread_count : Int := 0
  extra_ctx_ : epoll_group_ctx_t := {}
  deriving DecidableEq, Repr

/-! ## `CmtEpoll::loop`, drain phase (lines 325-344) -/

/-- The inner `while (true)` of `loop`: pop one task; `if (!t) break;`
otherwise `t.call(); t.fin();` and repeat.  Returns the calls made and the
queue left behind.  `fuel` bounds the number of iterations; one more than
the queue length always suffices, since every iteration that does not
break removes one element.  The queue-wait histogram sample taken under
`enable_perf_hist` is left out. -/
def drain_work_loop : Nat → CarrayQueue task_t → List Event × CarrayQueue task_t
  | 0, q => ([], q)
  | fuel + 1, q =>
    let (t, q1) := q.pop {}
    if !t.toBool then ([], q1)
    else
      let (tr, q2) := drain_work_loop fuel q1
      (t.call ++ t.fin ++ tr, q2)

/-- The drain phase on a group. -/
def drain_work (g : CmtEpoll) : List Event × CmtEpoll :=
  let (tr, q) := drain_work_loop (g.work_queue_.items.length + 1) g.work_queue_
  (tr, { g with work_queue_ := q })

/-! ## `push_work` (lines 861-874) -/

/-- `push_work(task)`: the result, the group afterwards, and the notifier
writes made. -/
def push_work (g : CmtEpoll) (task : task_t) : Bool × CmtEpoll × List Event :=
  let (bret, q) := g.work_queue_.push task
  if !bret then (false, { g with work_queue_ := q }, [])
  else
    /- `wait_cnt_.fetch_add(0, acq_rel)` -/
    let waiting := g.wait_cnt_
    let g1 := { g with work_queue_ := q, wait_cnt_ := g.wait_cnt_ + 0 }
    if waiting > 0 then (true, g1, [Event.eventfd_write])
    else (true, g1, [])

/-! ## `CmtEpoll::loop`, handling one batch of events (lines 424-470) -/

/-- An `epoll_event`: the event mask and the 64-bit `epoll_data_t` union.
`data.ptr` is the whole word, `data.fd` its low 32 bits. -/
structure epoll_event where
  events : Nat
  data : Nat
  deriving DecidableEq, Repr

namespace epoll_event

/-- The union member `data.fd`. -/
def fd (e : epoll_event) : Nat := e.data % 2 ^ 32

/-- The union member `data.ptr`. -/
def ptr (e : epoll_event) : Nat := e.data

end epoll_event

/-- The first `for` over the batch (lines 424-439): a notifier event is
read from `eventfd_`, every other event gets `cb->pre_events()` and is
counted in `total`.  Takes the events `events[i..n)` and the running
`total`; returns the calls made and the final `total`. -/
def pre_events_loop (eventfd_ : Nat) : List epoll_event → Nat → List Event × Nat
  | [], total => ([], total)
  | e :: rest, total =>
    if e.fd = eventfd_ then
      let (tr, total1) := pre_events_loop eventfd_ rest total
      (Event.eventfd_read :: tr, total1)
    else
      let (tr, total1) := pre_events_loop eventfd_ rest (total + 1)
      (Event.pre_events e.ptr :: tr, total1)

/-- The timer tasks collected under the timer lock are run outside it
(lines 453-457): `t.call(); t.fin();` for each, in vector order. -/
def run_timer_tasks (timer_tasks : List task_t) : List Event :=
  timer_tasks.flatMap (fun t => t.call ++ t.fin)

/-- The dispatch `for` (lines 460-470).  `cb_events cb mask index total` is
what the callback's `events` returns for that call.  Takes the events
`events[i..n)` and the running `index`. -/
def dispatch_loop (eventfd_ : Nat) (cb_events : Nat → Nat → Nat → Nat → Bool)
    (total : Nat) : List epoll_event → Nat → List Event
  | [], _ => []
  | e :: rest, index =>
    if e.fd = eventfd_ then
      dispatch_loop eventfd_ cb_events total rest index
    else
      let bret := cb_events e.ptr e.events index total
      let tr := dispatch_loop eventfd_ cb_events total rest (index + 1)
      if !bret then
        Event.events e.ptr e.events index total bret :: Event.delete_cb e.ptr :: tr
      else
        Event.events e.ptr e.events index total bret :: tr

/-- Lines 424-470 of one loop iteration for the batch `events[0..n)`:
`pre_events` pass, timer tasks (the vector `timer_tasks` this thread popped
from the heap; empty when it did not get the timer lock), dispatch pass. -/
def handle_batch (g : CmtEpoll) (batch : List epoll_event)
    (timer_tasks : List task_t) (cb_events : Nat → Nat → Nat → Nat → Bool) :
    List Event :=
  let (tr, total) := pre_events_loop g.eventfd_ batch 0
  tr ++ run_timer_tasks timer_tasks ++ dispatch_loop g.eventfd_ cb_events total batch 0

/-! ## 32-bit arithmetic

The configuration variables (`server_variables.h` is not among the
sources) are `uint32`, as the casts of the source show.  A sum or product
with an `uint32` operand is taken modulo `2^32`. -/

/-- The value of a sum or product of `uint32` operands: the mathematical
value modulo `2^32`. -/
def wrap_uint32 (x : Nat) : Nat := x % 4294967296

/-- `static_cast<int>` of a 32-bit unsigned value, given by the mathematical
value `x` it holds modulo `2^32`: `x` itself below `2^31`, and from `2^31` on
the value of `x` modulo `2^32` in `[-2^31, 2^31)`.  Used for an `uint32`
and for the `uint32` sum of an `int` and an `uint32`, which are never below
`-2^31`. -/
def static_cast_int (x : Int) : Int :=
  if x < 2147483648 then x else (x + 2147483648) % 4294967296 - 2147483648

/-! ## Thread-pool scaling (lines 908-1149)

The configuration variables are parameters named as in the source.  The
parameter `epoll_group_thread_scale_thresh` of the functions below stands
for the value of `static_cast<int>(epoll_group_thread_scale_thresh)`, which
the code clamps itself; the statements that start from the variable apply
`static_cast_int` to it.  `epoll_group_dynamic_threads` is the `uint32`
variable; `base_thread_count_ + epoll_group_dynamic_threads` is a 32-bit sum,
cast to `int`.  Thread counts, session counts and queue lengths are `int`s
far below `2^31` and are written on `Int`.  The `assert`s are not modelled.
`now` is the value returned by `Ctime::steady_ms()`.  Log messages are left
out. -/

/-- The clamp applied to `thresh` at the top of `try_scale_thread_pool`
and of the worker path of `shrink_thread_pool`. -/
def scale_thresh (epoll_group_thread_scale_thresh : Int) (base_thread_count_ : Int) : Int :=
  let thresh := epoll_group_thread_scale_thresh
  if thresh < 0 then 0
  else if thresh >= base_thread_count_ then base_thread_count_ - 1
  else thresh

/-- `prefer_thread_count = static_cast<int>(base_thread_count_ + epoll_group_dynamic_threads)`. -/
def prefer_thread_count (epoll_group_dynamic_threads : Nat) (base_thread_count_ : Int) : Int :=
  static_cast_int (base_thread_count_ + epoll_group_dynamic_threads)

/-- The two statements `++worker_count_; ++global_thread_count();`. -/
def add_worker (g : CmtEpoll) : CmtEpoll :=
  { g with worker_count_ := g.worker_count_ + 1,
           global_thread_count := g.global_thread_count + 1 }

/-- The dynamic worker thread started after them:
`std::thread(&CmtEpoll::loop, this, group_id_, 999, false, -1, true, true)`. -/
def worker_thread : Event := Event.thread 999 false (-1) true true

/-- The `do { ... } while (worker_count_ < prefer_thread_count)` of
`try_scale_thread_pool`.  `fuel` bounds the number of iterations. -/
def scale_to_prefer (prefer : Int) : Nat → CmtEpoll → CmtEpoll × List Event
  | 0, g => (g, [])
  | fuel + 1, g =>
    let g1 := add_worker g
    if g1.worker_count_ < prefer then
      let (g2, tr) := scale_to_prefer prefer fuel g1
      (g2, worker_thread :: tr)
    else (g1, [worker_thread])

/-- The part of `try_scale_thread_pool` under `scale_lock_` (lines 1033-1072). -/
def try_scale_locked (thresh prefer : Int) (g : CmtEpoll) : CmtEpoll × List Event :=
  let stalled := g.stall_count_
  let workers := g.worker_count_
  if workers >= g.session_count_ + g.base_thread_count_ then (g, [])
  else if stalled > workers - g.base_thread_count_ + thresh then
    (add_worker g, [worker_thread])
  else if workers < prefer then
    scale_to_prefer prefer (prefer - workers).toNat g
  else (g, [])

/-- `try_scale_thread_pool(wait_type)`: the group afterwards and the
threads started. -/
def try_scale_thread_pool (epoll_group_thread_scale_thresh : Int)
    (epoll_group_dynamic_threads : Nat) (now : Int) (g : CmtEpoll) :
    CmtEpoll × List Event :=
  let thresh := scale_thresh epoll_group_thread_scale_thresh g.base_thread_count_
  let stalled := g.stall_count_
  let workers := g.worker_count_
  let prefer := prefer_thread_count epoll_group_dynamic_threads g.base_thread_count_
  if stalled > workers - g.base_thread_count_ + thresh then
    try_scale_locked thresh prefer { g with last_scale_time_ := now }
  else if workers >= prefer then
    if stalled > workers.tdiv 4 then ({ g with last_scale_time_ := now }, [])
    else (g, [])
  else try_scale_locked thresh prefer g

/-- `force_scale_thread_pool()`. -/
def force_scale_thread_pool (now : Int) (g : CmtEpoll) : CmtEpoll × List Event :=
  let g1 := { g with last_scale_time_ := now }
  if g1.worker_count_ >= g1.session_count_ + g1.base_thread_count_ then (g1, [])
  else (add_worker g1, [worker_thread])

/-- `balance_tasker()`.  The result is `none` when the division
`(pending - workers - taskers) / multiply` is reached with `multiply = 0`. -/
def balance_tasker (epoll_group_tasker_multiply epoll_group_tasker_extend_step : Nat)
    (enable_epoll_in_tasker : Bool) (now : Int) (g : CmtEpoll) :
    Option (CmtEpoll × List Event) :=
  let pending := g.work_queue_.length
  let workers := g.worker_count_
  let taskers := g.tasker_count_
  let multiply := epoll_group_tasker_multiply
  let multiply_low := if multiply / 2 < 1 then 1 else multiply / 2
  if pending * 2 > g.work_queue_.capacity ∨
      (pending : Int) > (multiply_low : Int) * (workers + taskers) then
    let g1 := { g with last_tasker_time_ := now }
    if pending * 2 ≤ g.work_queue_.capacity ∧
        (pending : Int) ≤ (multiply : Int) * (workers + taskers) then
      some (g1, [])
    else
      let sessions := g1.session_count_
      if workers + taskers < sessions ∧ workers + taskers < (pending : Int) then
        if multiply = 0 then none
        else
          let extend := ((pending : Int) - workers - taskers).toNat / multiply
          let extend := if extend = 0 then 1 else extend
          let extend :=
            if extend > epoll_group_tasker_extend_step then epoll_group_tasker_extend_step
            else extend
          some ({ g1 with tasker_count_ := g1.tasker_count_ + extend,
                          global_thread_count := g1.global_thread_count + extend },
                List.replicate extend (Event.thread 999 false (-1) enable_epoll_in_tasker false))
      else some (g1, [])
  else some (g, [])

/-- `shrink_thread_pool(is_worker)`: the result and the group afterwards. -/
def shrink_thread_pool (epoll_group_thread_scale_thresh : Int)
    (epoll_group_dynamic_threads epoll_group_dynamic_threads_shrink_time : Nat)
    (now : Int) (g : CmtEpoll) (is_worker : Bool) : Bool × CmtEpoll :=
  if !is_worker then
    if now - g.last_tasker_time_ ≤ (epoll_group_dynamic_threads_shrink_time : Int) then
      (false, g)
    else
      (true, { g with tasker_count_ := g.tasker_count_ - 1,
                      global_thread_count := g.global_thread_count - 1 })
  else
    let prefer := prefer_thread_count epoll_group_dynamic_threads g.base_thread_count_
    let thresh := scale_thresh epoll_group_thread_scale_thresh g.base_thread_count_
    let stalled := g.stall_count_
    let workers := g.worker_count_
    if stalled < workers - g.base_thread_count_ + thresh ∧
        now - g.last_scale_time_ > (epoll_group_dynamic_threads_shrink_time : Int) ∧
        workers > prefer then
      let stalled := g.stall_count_
      if g.worker_count_ > prefer ∧ stalled < prefer - 1 then
        (true, { g with worker_count_ := g.worker_count_ - 1,
                        global_thread_count := g.global_thread_count - 1 })
      else (false, g)
    else (false, g)

/-! ## `init_thread` (lines 542-576) -/

/-- Modelled from the spec: `CcpuInfo::cpu_info_t` (`utility/cpuinfo.h` is
not among the sources), a per-core affinity descriptor built from three
integers, the first being the processor index. -/
structure cpu_info_t where
  processor : Int
  core : Int := 0
  physical : Int := 0
  deriving DecidableEq, Repr

/-- The `for` over `thread_id` in `init_thread`, for the `n` thread ids from
`thread_id` on.  Carries `epoll_wait_threads`, `with_affinity_` and `cpus_`;
returns their final values and the threads started.  `none` when
`thread_id % epoll_wait_gap` is evaluated with `epoll_wait_gap = 0`. -/
def init_thread_loop (affinities : List cpu_info_t) (base_idx epoll_wait_gap : Nat) :
    Nat → Nat → Int → Bool → List Int → Option (Bool × List Int × List Event)
  | 0, _, _, with_affinity, cpus => some (with_affinity, cpus, [])
  | n + 1, thread_id, epoll_wait_threads, with_affinity, cpus =>
    let affinity : Int :=
      match affinities[base_idx + thread_id]? with
      | some a => a.processor
      | none => -1
    if epoll_wait_gap = 0 then none
    else
      let hit : Bool := thread_id % epoll_wait_gap == 0
      let epoll_wait_threads1 := if hit then epoll_wait_threads - 1 else epoll_wait_threads
      let is_epoll_wait : Bool := hit && decide (epoll_wait_threads1 ≥ 0)
      let th := Event.thread thread_id true affinity is_epoll_wait true
      let with_affinity1 := if affinity < 0 then false else with_affinity
      let cpus1 :=
        if affinity < 0 then cpus
        else if affinity ∈ cpus then cpus
        else cpus ++ [affinity]
      match init_thread_loop affinities base_idx epoll_wait_gap n (thread_id + 1)
          epoll_wait_threads1 with_affinity1 cpus1 with
      | none => none
      | some (w, c, tr) => some (w, c, th :: tr)

/-- `init_thread(group_id, threads, affinities, base_idx, epoll_wait_threads,
epoll_wait_gap)`. -/
def init_thread (g : CmtEpoll) (threads : Nat) (affinities : List cpu_info_t)
    (base_idx : Nat) (epoll_wait_threads : Int) (epoll_wait_gap : Nat) :
    Option (CmtEpoll × List Event) :=
  let g1 := { g with base_thread_count_ := (threads : Int),
                     worker_count_ := (threads : Int),
                     global_thread_count := g.global_thread_count + (threads : Int) }
  match init_thread_loop affinities base_idx epoll_wait_gap threads 0 epoll_wait_threads
      g1.with_affinity_ g1.cpus_ with
  | none => none
  | some (w, c, tr) => some ({ g1 with with_affinity_ := w, cpus_ := c }, tr)

/-! ## Watchdog (lines 884-906) -/

/-- `worker_stall_since_last_check()`: the result and the group afterwards. -/
def worker_stall_since_last_check (g : CmtEpoll) : Bool × CmtEpoll :=
  let head := g.work_queue_.head
  if head ≠ g.last_head_ then (false, { g with last_head_ := head })
  else
    let tail := g.work_queue_.tail
    if head ≠ tail then (true, g)
    else
      let loop := g.loop_cnt_
      let waits := g.wait_cnt_
      if waits > 0 then (false, { g with last_loop_ := loop })
      else if loop ≠ g.last_loop_ then (false, { g with last_loop_ := loop })
      else (true, g)

/-! ## Timers (lines 358-392, 441-458, 843-859)

Trigger times and `Ctime::steady_ms()` are `int64_t`.  A sum or difference
of two of them that is not representable is a signed overflow, which C++
leaves undefined: `push_trigger` has no result there.  In `wait_timeout` the
difference is written with `wrap_int64`; the statements about it are for
differences that are representable. -/

/-- The value of an integer as an `int64_t` after wrap-around. -/
def wrap_int64 (x : Int) : Int := (x + 2 ^ 63) % 2 ^ 64 - 2 ^ 63

/-- The result of an `int64_t` addition or subtraction whose mathematical
value is `x`: `x` when it is representable, `none` (signed overflow,
undefined behaviour) when it is not. -/
def int64_checked (x : Int) : Option Int :=
  if -9223372036854775808 ≤ x ∧ x ≤ 9223372036854775807 then some x else none

/-- `push_trigger(task, trigger_time)`: the group afterwards and the
notifier writes made; `none` when `trigger_time + 1` or `last_time -
trigger_time` overflows.  The timer lock is taken with a blocking spin. -/
def push_trigger (g : CmtEpoll) (task : task_t) (trigger_time : Int) :
    Option (CmtEpoll × List Event) :=
  let last_time :=
    match g.timer_heap_.peak with
    | some t => some t
    | none => int64_checked (trigger_time + 1)
  match last_time with
  | none => none
  | some last_time =>
    let g1 := { g with timer_heap_ := (g.timer_heap_.push task trigger_time).2 }
    match int64_checked (last_time - trigger_time) with
    | none => none
    | some diff =>
      if diff ≥ 0 then some (g1, [Event.eventfd_write])
      else some (g1, [])

/-- The timeout handed to the wait (lines 358-392).  `epoll_timeout` is the
`uint32` configuration variable, `try_lock` tells whether this thread got
the timer lock, `now_time` is `Ctime::steady_ms()`. -/
def wait_timeout (epoll_timeout : Nat) (try_lock : Bool) (timer_heap_ : CtimerHeap)
    (now_time : Int) : Nat :=
  let timeout :=
    if epoll_timeout ≤ 0 then 1
    else if epoll_timeout > MAX_EPOLL_TIMEOUT then MAX_EPOLL_TIMEOUT
    else epoll_timeout
  if try_lock then
    match timer_heap_.peak with
    | some next_trigger =>
      if wrap_int64 (next_trigger - now_time) > 0 then
        /- `static_cast<uint32>(next_trigger - now_time)` -/
        min timeout ((wrap_int64 (next_trigger - now_time)).toNat % 2 ^ 32)
      else 0
    | none => timeout
  else timeout

/-- The `while (timer_heap_.pop(now_time, task, id, type))` of line 449:
the entries popped, in pop order, and the heap left.  `fuel` bounds the
number of pops; the number of entries always suffices. -/
def pop_due_loop (now_time : Int) : Nat → CtimerHeap → List timer_entry × CtimerHeap
  | 0, h => ([], h)
  | fuel + 1, h =>
    match h.pop now_time with
    | none => ([], h)
    | some (e, h1) =>
      let (popped, h2) := pop_due_loop now_time fuel h1
      (e :: popped, h2)

/-- The run-due-timers phase (lines 441-458): under the timer lock the due
entries are moved to `timer_tasks`; after the unlock each is run and
finalized.  Without the lock nothing is done. -/
def run_due_timers (g : CmtEpoll) (try_lock : Bool) (now_time : Int) :
    List Event × CmtEpoll :=
  if try_lock then
    let (popped, h) := pop_due_loop now_time g.timer_heap_.entries.length g.timer_heap_
    let timer_tasks := popped.map (fun e => e.task)
    (run_timer_tasks timer_tasks, { g with timer_heap_ := h })
  else ([], g)

/-! ## `get_instance` (lines 599-729)

The configuration variables are `uint32` parameters; `cores` is an `int`
that is not negative, converted to `uint32` where it meets one.  The sums
and the product of lines 630-640 are taken modulo `2^32`; the counts that
are clamped to 128 before they are used are exact. -/

/-- `threads` (lines 606-610). -/
def get_instance_threads (epoll_threads_per_group : Nat) : Nat :=
  if epoll_threads_per_group ≤ 0 then 1
  else if epoll_threads_per_group > MAX_EPOLL_THREADS_PER_GROUP then
    MAX_EPOLL_THREADS_PER_GROUP
  else epoll_threads_per_group

/-- `CPU_SETSIZE` of `<sched.h>`. -/
def CPU_SETSIZE : Nat := 1024

/-- `cores` (lines 615-629): `get_core_number()`, replaced under
`auto_cpu_affinity` by the number of cores in the affinity mask when
`pthread_getaffinity_np` succeeds (`affinity = some cpu`). -/
def usable_cores (core_number : Nat) (auto_cpu_affinity : Bool)
    (affinity : Option (Nat → Bool)) : Nat :=
  if auto_cpu_affinity then
    match affinity with
    | some cpu => ((List.range CPU_SETSIZE).filter cpu).length
    | none => core_number
  else core_number

/-- The group count of automatic mode before the extra groups (lines
630-635).  `none` when a division by zero is reached. -/
def auto_base_groups (threads cores min_auto_epoll_groups : Nat) : Option Nat :=
  if threads = 0 then none
  else
    let groups := wrap_uint32 (cores / threads + (if cores % threads = 0 then 0 else 1))
    if groups < min_auto_epoll_groups then
      if groups = 0 then none
      else
        some (wrap_uint32 (wrap_uint32 (min_auto_epoll_groups / groups +
          (if min_auto_epoll_groups % groups = 0 then 0 else 1)) * groups))
    else some groups

/-- `(base_groups, groups)` at line 641, before the clamps to
`MAX_EPOLL_GROUPS`. -/
def get_instance_groups_raw (threads epoll_groups cores min_auto_epoll_groups
    epoll_extra_groups : Nat) : Option (Nat × Nat) :=
  let groups := epoll_groups
  let base_groups := groups
  if groups ≤ 0 then
    match auto_base_groups threads cores min_auto_epoll_groups with
    | none => none
    | some groups =>
      let base_groups := groups
      let extra :=
        if epoll_extra_groups > MAX_EPOLL_EXTRA_GROUPS then MAX_EPOLL_EXTRA_GROUPS
        else epoll_extra_groups
      some (base_groups, wrap_uint32 (groups + extra))
  else some (base_groups, groups)

/-- `(base_groups, groups)` after line 645. -/
def get_instance_groups (threads epoll_groups cores min_auto_epoll_groups
    epoll_extra_groups : Nat) : Option (Nat × Nat) :=
  (get_instance_groups_raw threads epoll_groups cores min_auto_epoll_groups
      epoll_extra_groups).map
    (fun r =>
      (if r.1 > MAX_EPOLL_GROUPS then MAX_EPOLL_GROUPS else r.1,
       if r.2 > MAX_EPOLL_GROUPS then MAX_EPOLL_GROUPS else r.2))

/-- `total_epoll_wait_threads` (lines 682-694). -/
def total_epoll_wait_threads (max_epoll_wait_total_threads groups threads : Nat) : Nat :=
  let total :=
    if max_epoll_wait_total_threads = 0 then groups * threads
    else if max_epoll_wait_total_threads < MIN_EPOLL_WAIT_TOTAL_THREADS then
      MIN_EPOLL_WAIT_TOTAL_THREADS
    else if max_epoll_wait_total_threads > MAX_EPOLL_WAIT_TOTAL_THREADS then
      MAX_EPOLL_WAIT_TOTAL_THREADS
    else max_epoll_wait_total_threads
  if total < groups then groups else total

/-- The `while` of lines 698-701, from the current value of
`epoll_wait_threads_per_group`.  `fuel` bounds the number of rounds. -/
def epoll_wait_threads_loop (threads groups total : Nat) : Nat → Nat → Nat
  | 0, per_group => per_group
  | fuel + 1, per_group =>
    if per_group < threads ∧ (per_group + 1) * groups ≤ total then
      epoll_wait_threads_loop threads groups total fuel (per_group + 1)
    else per_group

/-- `epoll_wait_threads_per_group` (lines 696-701). -/
def epoll_wait_threads_per_group (threads groups total : Nat) : Nat :=
  epoll_wait_threads_loop threads groups total threads 1

/-- `epoll_wait_threads_gap` (line 702). -/
def epoll_wait_threads_gap (threads per_group : Nat) : Nat := threads / per_group

/-! ## The affinity list of `get_instance` (lines 647-680) -/

/-- The `for` of lines 654-664: one descriptor per core `i < CPU_SETSIZE`
that is in the affinity mask `cpu`, or that has an entry in `info_map` when
`force_all_cores` is set; the entry of `info_map` when there is one, else
`{i, 0, 0}`.  `info_map` is the result of `CcpuInfo::get_cpu_info()`. -/
def enumerate_affinities (force_all_cores : Bool) (info_map : Nat → Option cpu_info_t)
    (cpu : Nat → Bool) : List cpu_info_t :=
  (List.range CPU_SETSIZE).filterMap (fun i =>
    if cpu i || (force_all_cores && (info_map i).isSome) then
      match info_map i with
      | none => some { processor := (i : Int), core := 0, physical := 0 }
      | some info => some info
    else none)

/-- Lines 665-677: when `base_groups * threads` exceeds the number of
descriptors, the list is repeated `base_groups * threads / size` times if
that quotient exceeds 1.  `none` when the quotient is taken with an empty
list. -/
def duplicate_affinities (affinities : List cpu_info_t) (base_groups threads : Nat) :
    Option (List cpu_info_t) :=
  if base_groups * threads > affinities.length then
    if affinities.length = 0 then none
    else
      let duplicates := base_groups * threads / affinities.length
      if duplicates > 1 then
        some ((List.replicate duplicates affinities).flatten)
      else some affinities
  else some affinities

/-- The affinity list built by `get_instance` (lines 647-680).  `affinity` is
the mask returned by `pthread_getaffinity_np`, `none` when that call fails;
`lt` is `operator<` of `cpu_info_t` (`utility/cpuinfo.h` is not among the
sources), by which `std::sort` orders the list. -/
def get_instance_affinities (auto_cpu_affinity force_all_cores : Bool)
    (info_map : Nat → Option cpu_info_t) (affinity : Option (Nat → Bool))
    (lt : cpu_info_t → cpu_info_t → Bool) (base_groups threads : Nat) :
    Option (List cpu_info_t) :=
  if auto_cpu_affinity then
    match affinity with
    | some cpu =>
      (duplicate_affinities (enumerate_affinities force_all_cores info_map cpu)
          base_groups threads).map
        (fun l => l.insertionSort (fun a b => lt b a = false))
    | none => some []
  else some []

/-! ## Descriptor registration (lines 219-274, 734-758, 781-802)

The result of a system call is supplied by the environment: `sys_ret.ok v`
for a call that succeeds with value `v`, `sys_ret.err e` for a call that
fails and sets `errno` to `e`.  The code is read as compiled for Linux:
`TCP_KEEPIDLE` is defined, `TCP_KEEPALIVE` is not. -/

/-- The outcome of a system call. -/
inductive sys_ret where
  | ok (value : Nat)
  | err (errno : Nat)
  deriving DecidableEq, Repr

/-- `O_NONBLOCK` of `<fcntl.h>`. -/
def O_NONBLOCK : Nat := 2048

/-- `ECONNREFUSED` of `<errno.h>`. -/
def ECONNREFUSED : Nat := 111

/-- `EADDRINUSE` of `<errno.h>`. -/
def EADDRINUSE : Nat := 98

/-- The outcomes of the system calls `add_fd` can make, each the outcome of
the first call that is not interrupted (`EINTR`). -/
structure add_fd_env where
  fcntl_getfl : sys_ret
  fcntl_setfl : sys_ret
  tcp_nodelay : sys_ret
  so_keepalive : sys_ret
  tcp_keepidle : sys_ret
  epoll_ctl : sys_ret
  deriving DecidableEq, Repr

/-- `nonblock(fd, set)`: the result (0 or `-errno`) and the calls made. -/
def nonblock (env : add_fd_env) (fd set : Nat) : Int × List Event :=
  match env.fcntl_getfl with
  | sys_ret.err e => (-(e : Int), [Event.sys (sys_call.fcntl_getfl fd)])
  | sys_ret.ok r =>
    /- `!!(r & O_NONBLOCK) == !!set` -/
    if (decide (r &&& O_NONBLOCK ≠ 0)) = (decide (set ≠ 0)) then
      (0, [Event.sys (sys_call.fcntl_getfl fd)])
    else
      let flags := if set ≠ 0 then r ||| O_NONBLOCK else r - (r &&& O_NONBLOCK)
      match env.fcntl_setfl with
      | sys_ret.err e =>
        (-(e : Int), [Event.sys (sys_call.fcntl_getfl fd), Event.sys (sys_call.fcntl_setfl fd flags)])
      | sys_ret.ok _ =>
        (0, [Event.sys (sys_call.fcntl_getfl fd), Event.sys (sys_call.fcntl_setfl fd flags)])

/-- `nodelay(fd, on)`. -/
def nodelay (env : add_fd_env) (fd enable : Nat) : Int × List Event :=
  match env.tcp_nodelay with
  | sys_ret.err e => (-(e : Int), [Event.sys (sys_call.tcp_nodelay fd enable)])
  | sys_ret.ok _ => (0, [Event.sys (sys_call.tcp_nodelay fd enable)])

/-- `keepalive(fd, on, delay)`. -/
def keepalive (env : add_fd_env) (fd enable delay : Nat) : Int × List Event :=
  match env.so_keepalive with
  | sys_ret.err e => (-(e : Int), [Event.sys (sys_call.so_keepalive fd enable)])
  | sys_ret.ok _ =>
    if enable ≠ 0 then
      match env.tcp_keepidle with
      | sys_ret.err e =>
        (-(e : Int),
         [Event.sys (sys_call.so_keepalive fd enable), Event.sys (sys_call.tcp_keepidle fd delay)])
      | sys_ret.ok _ =>
        (0,
         [Event.sys (sys_call.so_keepalive fd enable), Event.sys (sys_call.tcp_keepidle fd delay)])
    else (0, [Event.sys (sys_call.so_keepalive fd enable)])

/-- `add_fd(fd, events, cb, tcp)`: the result and the calls made.
`tcp_keep_alive` is the configuration variable. -/
def add_fd (env : add_fd_env) (tcp_keep_alive : Nat) (fd events cb : Nat) (tcp : Bool) :
    Int × List Event :=
  let r1 := nonblock env fd 1
  if r1.1 ≠ 0 then r1
  else
    let r2 := if tcp then nodelay env fd 1 else (0, [])
    if r2.1 ≠ 0 then (r2.1, r1.2 ++ r2.2)
    else
      let tmp := if tcp_keep_alive > MAX_TCP_KEEP_ALIVE then MAX_TCP_KEEP_ALIVE else tcp_keep_alive
      let r3 := if tcp ∧ tmp > 0 then keepalive env fd 1 tmp else (0, [])
      if r3.1 ≠ 0 then (r3.1, r1.2 ++ r2.2 ++ r3.2)
      else
        let tr := r1.2 ++ r2.2 ++ r3.2 ++
          [Event.set_fd cb fd, Event.sys (sys_call.epoll_ctl_add fd events cb)]
        match env.epoll_ctl with
        | sys_ret.err e => (-(e : Int), tr)
        | sys_ret.ok _ => (0, tr ++ [Event.fd_registered cb])

/-- The environment of `check_port`: the value of `errno` on entry and the
outcomes of its system calls.  `socket` succeeds with the new descriptor,
`inet_pton` with its return value. -/
structure check_port_env where
  errno : Nat
  socket : sys_ret
  inet_pton : sys_ret
  connect : sys_ret
  deriving DecidableEq, Repr

/-- `check_port(port)`: the result and the calls made. -/
def check_port (env : check_port_env) (port : Nat) : Int × List Event :=
  match env.socket with
  | sys_ret.err e => (-(e : Int), [Event.sys sys_call.socket])
  | sys_ret.ok fd =>
    if fd ≤ 0 then (-(env.errno : Int), [Event.sys sys_call.socket])
    else
      let pton : Option Nat :=
        match env.inet_pton with
        | sys_ret.ok 1 => none
        | sys_ret.ok _ => some env.errno
        | sys_ret.err e => some e
      match pton with
      | some err =>
        (-(err : Int),
         [Event.sys sys_call.socket, Event.sys sys_call.inet_pton, Event.sys (sys_call.close fd)])
      | none =>
        match env.connect with
        | sys_ret.ok _ =>
          (-(EADDRINUSE : Int),
           [Event.sys sys_call.socket, Event.sys sys_call.inet_pton,
            Event.sys (sys_call.connect fd port), Event.sys (sys_call.close fd)])
        | sys_ret.err err =>
          (if ECONNREFUSED = err then 0 else -(err : Int),
           [Event.sys sys_call.socket, Event.sys sys_call.inet_pton,
            Event.sys (sys_call.connect fd port), Event.sys (sys_call.close fd)])

/-! ## Drain phase with a run action that raises

`run_` has type `void (*)(void *)`: a run action cannot return an error, it
can only raise.  `CmtEpoll::loop` has no handler, so an exception raised by
`t.call()` leaves the loop at that point. -/

/-- The drain loop of lines 325-344 when `raises fn ctx` tells whether the
call `fn(ctx)` raises: the calls made, the queue left, and whether the loop
was left by an exception. -/
def drain_work_loop_raising (raises : Nat → Nat → Bool) :
    Nat → CarrayQueue task_t → List Event × CarrayQueue task_t × Bool
  | 0, q => ([], q, false)
  | fuel + 1, q =>
    let (t, q1) := q.pop {}
    if !t.toBool then ([], q1, false)
    else if raises t.run_ t.run_ctx_ then (t.call, q1, true)
    else
      let (tr, q2, raised) := drain_work_loop_raising raises fuel q1
      (t.call ++ t.fin ++ tr, q2, raised)

/-! ## Extra-context cleanup (lines 472-499) -/

/-- The `for` of lines 480-497 on the pool, with `i` rounds left and the
current value of `first`: pop a session (stop when the pool is empty), drop
it when it is older than `shared_session_lifetime`, else put it back and stop
when it is the first one that was put back. -/
def cleanup_loop (shared_session_lifetime : Nat) (now_time : Int) :
    Nat → List reusable_session_t → Nat → List reusable_session_t
  | 0, pool, _ => pool
  | i + 1, pool, first =>
    match pool with
    | [] => pool
    | s :: rest =>
      if now_time - s.start_time_ms > (shared_session_lifetime : Int) then
        cleanup_loop shared_session_lifetime now_time i rest first
      else
        if first = 0 then
          cleanup_loop shared_session_lifetime now_time i (rest ++ [s]) s.ptr
        else if s.ptr = first then rest ++ [s]
        else cleanup_loop shared_session_lifetime now_time i (rest ++ [s]) first

/-- The cleanup of lines 472-499 by one thread.
`BUFFERED_REUSABLE_SESSION_COUNT` is the constant of `epoll_group_ctx_t`. -/
def extra_ctx_cleanup (epoll_group_ctx_refresh_time shared_session_lifetime
    BUFFERED_REUSABLE_SESSION_COUNT : Nat) (now_time : Int) (g : CmtEpoll) : CmtEpoll :=
  let last_time := g.last_cleanup_
  if now_time - last_time > (epoll_group_ctx_refresh_time : Int) then
    { g with
      last_cleanup_ := now_time,
      extra_ctx_ :=
        { reusable_sessions :=
            cleanup_loop shared_session_lifetime now_time BUFFERED_REUSABLE_SESSION_COUNT
              g.extra_ctx_.reusable_sessions 0 } }
  else g

/-! ## Vocabulary of the statements -/

/-- The events of a batch that are not the notifier event, in batch order:
those whose `data.fd` differs from `eventfd_`. -/
def non_notifier (eventfd_ : Nat) (batch : List epoll_event) : List epoll_event :=
  batch.filter (fun e => e.fd != eventfd_)

/-- Calls into a callback object: `pre_events` and `events`. -/
def Event.is_callback_call : Event → Bool
  | Event.pre_events _ => true
  | Event.events _ _ _ _ _ => true
  | _ => false

/-- The spec's `clamp(x, lo, hi)`: `x` raised to at least `lo`, then lowered to
at most `hi`. -/
def clamp (x lo hi : Int) : Int :=
  if x < lo then lo else if hi < x then hi else x

/-- The shrink checks of lines 346-349 made one after the other by dynamic
worker threads, one call `shrink_thread_pool(true)` at each of the times
`nows`; a call that returns true ends the calling thread. -/
def shrink_checks (epoll_group_thread_scale_thresh : Int)
    (epoll_group_dynamic_threads epoll_group_dynamic_threads_shrink_time : Nat) :
    List Int → CmtEpoll → CmtEpoll
  | [], g => g
  | now :: nows, g =>
    shrink_checks epoll_group_thread_scale_thresh epoll_group_dynamic_threads
      epoll_group_dynamic_threads_shrink_time nows
      (shrink_thread_pool epoll_group_thread_scale_thresh epoll_group_dynamic_threads
        epoll_group_dynamic_threads_shrink_time now g true).2

/-- The scale-out cap of the spec:
`worker_count + tasker_count ≤ session_count + base_thread_count`. -/
def scale_cap (g : CmtEpoll) : Bool :=
  decide (g.worker_count_ + g.tasker_count_ ≤ g.session_count_ + g.base_thread_count_)

/-- The spec's number of taskers to add:
`min(step, ceil((pending − workers − taskers) / M))`. -/
def tasker_extend_ceil (step M pending : Nat) (workers taskers : Int) : Nat :=
  min step ((((pending : Int) - workers - taskers).toNat + M - 1) / M)

/-- The number of taskers the code adds:
`min(step, max(1, floor((pending − workers − taskers) / M)))`. -/
def tasker_extend_floor (step M pending : Nat) (workers taskers : Int) : Nat :=
  min step (max 1 (((pending : Int) - workers - taskers).toNat / M))

/-- The spec's stall condition: the head has not moved, the queue is not
empty, no thread is waiting, and `loop_cnt` has not advanced, all four. -/
def stall_all_four (g : CmtEpoll) : Bool :=
  decide (g.work_queue_.head = g.last_head_) &&
  decide (g.work_queue_.head ≠ g.work_queue_.tail) &&
  decide (¬ g.wait_cnt_ > 0) &&
  decide (g.loop_cnt_ = g.last_loop_)

/-- The spec's wait timeout: `c = clamp(epoll_timeout, 1, 60000)` when the
thread has no timer lock or the heap is empty, else
`min(c, max(0, e - now))` for the earliest trigger `e`. -/
def wait_timeout_spec (epoll_timeout : Nat) (try_lock : Bool) (earliest : Option Int)
    (now : Int) : Int :=
  let c := clamp epoll_timeout 1 60000
  if try_lock then
    match earliest with
    | some e => min c (max 0 (e - now))
    | none => c
  else c

/-- The spec's `ceil(a / b)`. -/
def ceil_div (a b : Nat) : Nat := (a + b - 1) / b

/-- The spec's group count:
`min(128, base_groups + min(epoll_extra_groups, 32))`. -/
def groups_spec (base_groups epoll_extra_groups : Nat) : Nat :=
  min 128 (base_groups + min epoll_extra_groups 32)

/-- The thread ids that `init_thread` starts as multiplexer waiters
(`epoll_wait = true`), in start order. -/
def epoll_waiters : List Event → List Nat
  | [] => []
  | Event.thread thread_id _ _ true _ :: rest => thread_id :: epoll_waiters rest
  | _ :: rest => epoll_waiters rest

/-- A system call succeeded. -/
def sys_ret.is_ok : sys_ret → Bool
  | sys_ret.ok _ => true
  | sys_ret.err _ => false

/-- The `errno` of a failed system call. -/
def sys_ret.errno_of : sys_ret → Option Nat
  | sys_ret.ok _ => none
  | sys_ret.err e => some e

/-- Every failing system call of the environment sets a positive `errno`. -/
def add_fd_env.errno_positive (env : add_fd_env) : Bool :=
  [env.fcntl_getfl, env.fcntl_setfl, env.tcp_nodelay, env.so_keepalive, env.tcp_keepidle,
    env.epoll_ctl].all (fun r => decide (r ≠ sys_ret.err 0))

/-- The spec's first step, setting non-blocking: the `errno` it fails with.
The flags are read, and written only when `O_NONBLOCK` is not set yet. -/
def set_nonblocking_errno (env : add_fd_env) : Option Nat :=
  match env.fcntl_getfl with
  | sys_ret.err e => some e
  | sys_ret.ok r => if r &&& O_NONBLOCK ≠ 0 then none else env.fcntl_setfl.errno_of

/-- The spec's keepalive step, `SO_KEEPALIVE` then the idle time: the
`errno` it fails with. -/
def enable_keepalive_errno (env : add_fd_env) : Option Nat :=
  match env.so_keepalive with
  | sys_ret.err e => some e
  | sys_ret.ok _ => env.tcp_keepidle.errno_of

/-- The steps of the spec's `add_fd` that come before the registration, in
order, each with the `errno` it fails with: set non-blocking; for a TCP
descriptor disable Nagle; for a TCP descriptor with `tcp_keep_alive > 0`
enable keepalive. -/
def add_fd_option_steps (env : add_fd_env) (tcp_keep_alive : Nat) (tcp : Bool) :
    List (Option Nat) :=
  [set_nonblocking_errno env] ++
  (if tcp then [env.tcp_nodelay.errno_of] else []) ++
  (if tcp ∧ tcp_keep_alive > 0 then [enable_keepalive_errno env] else [])

/-- The steps of the spec's `add_fd`, in order, each with the `errno` it
fails with: the steps before the registration, then the registration with
the multiplexer. -/
def add_fd_steps (env : add_fd_env) (tcp_keep_alive : Nat) (tcp : Bool) : List (Option Nat) :=
  add_fd_option_steps env tcp_keep_alive tcp ++ [env.epoll_ctl.errno_of]

/-- The `errno` of the first step of the spec's `add_fd` that fails. -/
def add_fd_failing_errno (env : add_fd_env) (tcp_keep_alive : Nat) (tcp : Bool) : Option Nat :=
  ((add_fd_steps env tcp_keep_alive tcp).find? (fun r => r.isSome)).join

/-- The calls of the spec's first step: read the flags, and set
`O_NONBLOCK` when the read succeeds and the flag is not set. -/
def set_nonblocking_calls (env : add_fd_env) (fd : Nat) : List Event :=
  Event.sys (sys_call.fcntl_getfl fd) ::
  match env.fcntl_getfl with
  | sys_ret.err _ => []
  | sys_ret.ok r =>
    if r &&& O_NONBLOCK ≠ 0 then []
    else [Event.sys (sys_call.fcntl_setfl fd (r ||| O_NONBLOCK))]

/-- The calls of the spec's keepalive step: `SO_KEEPALIVE`, and when it
succeeds the idle time. -/
def enable_keepalive_calls (env : add_fd_env) (fd idle : Nat) : List Event :=
  Event.sys (sys_call.so_keepalive fd 1) ::
  (if env.so_keepalive.is_ok then [Event.sys (sys_call.tcp_keepidle fd idle)] else [])

/-- The calls the spec's `add_fd` makes, step by step: set non-blocking; for
a TCP descriptor disable Nagle; for a TCP descriptor with `tcp_keep_alive >
0` enable keepalive with idle time `min(tcp_keep_alive, 7200)`; then
`cb.set_fd(fd)` and the registration with the multiplexer, and
`cb.fd_registered()` when it succeeds.  A step that fails is the last. -/
def add_fd_calls (env : add_fd_env) (tcp_keep_alive fd events cb : Nat) (tcp : Bool) :
    List Event :=
  let c1 := set_nonblocking_calls env fd
  let c2 := if tcp then [Event.sys (sys_call.tcp_nodelay fd 1)] else []
  let c3 :=
    if tcp ∧ tcp_keep_alive > 0 then
      enable_keepalive_calls env fd (min tcp_keep_alive MAX_TCP_KEEP_ALIVE)
    else []
  let c4 := [Event.set_fd cb fd, Event.sys (sys_call.epoll_ctl_add fd events cb)] ++
    (if env.epoll_ctl.is_ok then [Event.fd_registered cb] else [])
  if (set_nonblocking_errno env).isSome then c1
  else if tcp ∧ env.tcp_nodelay.errno_of.isSome then c1 ++ c2
  else if tcp ∧ tcp_keep_alive > 0 ∧ (enable_keepalive_errno env).isSome then c1 ++ c2 ++ c3
  else c1 ++ c2 ++ c3 ++ c4

/-- An event of a batch by the registration it comes from: the notifier,
registered by the constructor with `data.fd = eventfd_`, or a connection,
registered by `add_fd` with `data.ptr = cb`.  `events` is the mask the wait
returns. -/
inductive batch_event where
  | notifier (events : Nat)
  | connection (events : Nat) (cb : Nat)
  deriving DecidableEq, Repr

/-- The `epoll_event` the wait returns for it.  The upper half of the
notifier's union word, which the constructor leaves unset, is taken as 0. -/
def batch_event.returned (eventfd_ : Nat) : batch_event → epoll_event
  | batch_event.notifier events => { events := events, data := eventfd_ }
  | batch_event.connection events cb => { events := events, data := cb }

/-- The events of a batch that are not the notifier event, in batch order,
as the wait returns them. -/
def connection_events : List batch_event → List epoll_event
  | [] => []
  | batch_event.notifier _ :: rest => connection_events rest
  | batch_event.connection events cb :: rest =>
    { events := events, data := cb } :: connection_events rest

/-- The callback calls the spec gives for a batch with K events that are
not the notifier event: `pre_events` on the callback of each, in batch
order, then `events(mask, index, K)` on each, in batch order, with `index`
0, 1, ..., K-1. -/
def batch_callback_calls (cb_events : Nat → Nat → Nat → Nat → Bool)
    (batch : List batch_event) : List Event :=
  (connection_events batch).map (fun e => Event.pre_events e.ptr) ++
  (connection_events batch).enum.map
    (fun ie => Event.events ie.2.ptr ie.2.events ie.1 (connection_events batch).length
      (cb_events ie.2.ptr ie.2.events ie.1 (connection_events batch).length))

/-! ## The drain phase -/

theorem task_t.toBool_eq_true {t : task_t} (h : t.run_ ≠ 0) : t.toBool = true := by
  simp [task_t.toBool, h]

theorem task_t.call_of_ne {t : task_t} (h : t.run_ ≠ 0) :
    t.call = [Event.run t.run_ t.run_ctx_] := by
  simp [task_t.call, h]

/-- When no queued task has a null `run_`, the drain loop handles the whole
queue, oldest first, and leaves it empty. -/
theorem drain_work_loop_all (items : List task_t) :
    ∀ (fuel cap hd : Nat), items.length < fuel → (∀ u ∈ items, u.run_ ≠ 0) →
      drain_work_loop fuel { capacity_ := cap, items := items, head_ := hd } =
        (items.flatMap (fun u => [Event.run u.run_ u.run_ctx_] ++ u.fin),
         { capacity_ := cap, items := [], head_ := hd + items.length }) := by
  induction items with
  | nil =>
    intro fuel cap hd hf _
    cases fuel with
    | zero => simp at hf
    | succ n => simp [drain_work_loop, CarrayQueue.pop, task_t.toBool]
  | cons x rest ih =>
    intro fuel cap hd hf hall
    cases fuel with
    | zero => simp at hf
    | succ n =>
      have hx : x.run_ ≠ 0 := hall x (List.mem_cons_self _ _)
      have hrest : ∀ u ∈ rest, u.run_ ≠ 0 := fun u hu => hall u (List.mem_cons_of_mem _ hu)
      have hlen : rest.length < n := by simpa using hf
      simp [drain_work_loop, CarrayQueue.pop, task_t.toBool_eq_true hx,
        task_t.call_of_ne hx, ih n cap (hd + 1) hlen hrest]
      omega

/-- C1 (amended): for every task with a non-null run pointer that
`push_work` accepted, behind tasks that also have non-null run pointers, the
drain phase calls each queued task's run action once and then its finalize
action once (when that pointer is set), oldest task first, the pushed task
last, and leaves the queue empty. -/
theorem drain_work_runs_then_finalizes (g : CmtEpoll) (t : task_t)
    (hq : ∀ u ∈ g.work_queue_.items, u.run_ ≠ 0) (ht : t.run_ ≠ 0)
    (hpush : (push_work g t).1 = true) :
    (drain_work (push_work g t).2.1).1 =
        (g.work_queue_.items ++ [t]).flatMap
          (fun u => [Event.run u.run_ u.run_ctx_] ++
            (if u.del_ != 0 then [Event.del u.del_ u.del_ctx_] else []))
      ∧ (drain_work (push_work g t).2.1).2.work_queue_.items = [] := by
  have hlt : g.work_queue_.items.length < g.work_queue_.capacity_ := by
    by_contra hge
    simp [push_work, CarrayQueue.push, hge] at hpush
  have hall : ∀ u ∈ g.work_queue_.items ++ [t], u.run_ ≠ 0 := by
    intro u hu
    rcases List.mem_append.mp hu with h | h
    · exact hq u h
    · simpa [List.mem_singleton.mp h] using ht
  have hloop := drain_work_loop_all (g.work_queue_.items ++ [t])
    ((g.work_queue_.items ++ [t]).length + 1) g.work_queue_.capacity_ g.work_queue_.head_
    (Nat.lt_succ_self _) hall
  have hpw : (push_work g t).2.1.work_queue_ =
      { capacity_ := g.work_queue_.capacity_, items := g.work_queue_.items ++ [t],
        head_ := g.work_queue_.head_ } := by
    by_cases hw : g.wait_cnt_ > 0 <;> simp [push_work, CarrayQueue.push, hlt, hw]
  unfold drain_work
  rw [hpw]
  simp only [hloop]
  exact ⟨rfl, trivial⟩

/-- Witness for `drain_work_runs_then_finalizes`: one task queued, one pushed. -/
theorem drain_work_runs_then_finalizes_witness :
    (drain_work (push_work { work_queue_ := { capacity_ := 4, items := [⟨1, 2, 3, 4⟩] } }
        ⟨5, 6, 7, 8⟩).2.1).1 =
      [Event.run 2 1, Event.del 4 3, Event.run 6 5, Event.del 8 7] :=
  (drain_work_runs_then_finalizes
    { work_queue_ := { capacity_ := 4, items := [⟨1, 2, 3, 4⟩] } } ⟨5, 6, 7, 8⟩
    (by decide) (by decide) (by decide)).1

/-- C1 as stated fails: a task with a null run pointer and a finalize
pointer is accepted by `push_work`, and the drain phase then takes it out of
the queue without calling its finalize action; the drain phase ends there,
so a task queued behind it is not run by that drain phase either. -/
theorem drain_work_skips_null_run_task :
    (push_work {} { run_ := 0, del_ := 5, del_ctx_ := 7 }).1 = true ∧
    List.count (Event.del 5 7)
      (drain_work (push_work {} { run_ := 0, del_ := 5, del_ctx_ := 7 }).2.1).1 = 0 ∧
    (drain_work (push_work {} { run_ := 0, del_ := 5, del_ctx_ := 7 }).2.1).2.work_queue_.items
      = [] ∧
    drain_work_loop 3 { capacity_ := 4, items := [⟨0, 0, 7, 5⟩, ⟨1, 2, 3, 4⟩] } =
      ([], { capacity_ := 4, items := [⟨1, 2, 3, 4⟩], head_ := 1 }) := by
  decide

/-! ## One batch of events -/

/-- The `pre_events` pass makes one call per event, in batch order, and adds
the number of non-notifier events to `total`. -/
theorem pre_events_loop_eq (eventfd_ : Nat) (batch : List epoll_event) :
    ∀ total : Nat, pre_events_loop eventfd_ batch total =
      (batch.map (fun e => if e.fd = eventfd_ then Event.eventfd_read
                           else Event.pre_events e.ptr),
       total + (non_notifier eventfd_ batch).length) := by
  induction batch with
  | nil => intro total; simp [pre_events_loop, non_notifier]
  | cons e rest ih =>
    intro total
    by_cases h : e.fd = eventfd_
    · simp [pre_events_loop, h, ih, non_notifier]
    · simp [pre_events_loop, h, ih, non_notifier]
      omega

theorem pre_events_loop_callback_calls (eventfd_ : Nat) (batch : List epoll_event) :
    (batch.map (fun e => if e.fd = eventfd_ then Event.eventfd_read
                         else Event.pre_events e.ptr)).filter Event.is_callback_call =
      (non_notifier eventfd_ batch).map (fun e => Event.pre_events e.ptr) := by
  induction batch with
  | nil => simp [non_notifier]
  | cons e rest ih =>
    have ih1 := ih
    simp only [non_notifier] at ih1 ⊢
    by_cases h : e.fd = eventfd_
    · simp [h, Event.is_callback_call, ih1]
    · simp [h, Event.is_callback_call, ih1]

theorem run_timer_tasks_no_callback (timer_tasks : List task_t) :
    ∀ ev ∈ run_timer_tasks timer_tasks,
      Event.is_callback_call ev = false ∧ ∀ cb, ev ≠ Event.delete_cb cb := by
  intro ev hev
  simp only [run_timer_tasks, List.mem_flatMap, List.mem_append] at hev
  obtain ⟨t, _, h | h⟩ := hev
  · unfold task_t.call at h
    split at h
    · simp at h; subst h; simp [Event.is_callback_call]
    · simp at h
  · unfold task_t.fin at h
    split at h
    · simp at h; subst h; simp [Event.is_callback_call]
    · simp at h

theorem dispatch_loop_callback_calls (eventfd_ : Nat)
    (cb_events : Nat → Nat → Nat → Nat → Bool) (total : Nat) (batch : List epoll_event) :
    ∀ index : Nat,
      (dispatch_loop eventfd_ cb_events total batch index).filter Event.is_callback_call =
        ((non_notifier eventfd_ batch).enumFrom index).map
          (fun ie => Event.events ie.2.ptr ie.2.events ie.1 total
            (cb_events ie.2.ptr ie.2.events ie.1 total)) := by
  induction batch with
  | nil => intro index; simp [dispatch_loop, non_notifier]
  | cons e rest ih =>
    intro index
    have ih0 := ih index
    have ih1 := ih (index + 1)
    simp only [non_notifier] at ih0 ih1 ⊢
    by_cases h : e.fd = eventfd_
    · simp [dispatch_loop, h, ih0]
    · by_cases hb : cb_events e.ptr e.events index total
      · simp [dispatch_loop, h, hb, Event.is_callback_call, ih1, List.enumFrom]
      · simp [dispatch_loop, h, hb, Event.is_callback_call, ih1, List.enumFrom]

/-- Within one batch, the calls made on callbacks are, in this order:
`pre_events()` on the callback of each of the K events whose `data.fd`
differs from `eventfd_`, in batch order, and then `events(mask, index, K)`
on each of them, in batch order, with `index` running through 0, 1, ...,
K-1. -/
theorem handle_batch_callback_calls (g : CmtEpoll) (batch : List epoll_event)
    (timer_tasks : List task_t) (cb_events : Nat → Nat → Nat → Nat → Bool) :
    (handle_batch g batch timer_tasks cb_events).filter Event.is_callback_call =
      (non_notifier g.eventfd_ batch).map (fun e => Event.pre_events e.ptr) ++
      (non_notifier g.eventfd_ batch).enum.map
        (fun ie => Event.events ie.2.ptr ie.2.events ie.1
          (non_notifier g.eventfd_ batch).length
          (cb_events ie.2.ptr ie.2.events ie.1 (non_notifier g.eventfd_ batch).length)) := by
  have htimer : (run_timer_tasks timer_tasks).filter Event.is_callback_call = [] := by
    rw [List.filter_eq_nil_iff]
    intro ev hev
    simp [(run_timer_tasks_no_callback timer_tasks ev hev).1]
  simp only [handle_batch, pre_events_loop_eq, List.filter_append,
    pre_events_loop_callback_calls, htimer, dispatch_loop_callback_calls,
    List.append_nil, Nat.zero_add, List.enum]

/-- When no callback pointer of the batch has its low 32 bits equal to
`eventfd_`, the events the code takes for non-notifier events are the
connection events. -/
theorem non_notifier_returned (eventfd_ : Nat) (heventfd : eventfd_ < 2 ^ 32)
    (batch : List batch_event)
    (halias : ∀ events cb, batch_event.connection events cb ∈ batch → cb % 2 ^ 32 ≠ eventfd_) :
    non_notifier eventfd_ (batch.map (batch_event.returned eventfd_)) =
      connection_events batch := by
  induction batch with
  | nil => rfl
  | cons b rest ih =>
    have ih1 := ih (fun events cb h => halias events cb (List.mem_cons_of_mem _ h))
    simp only [non_notifier] at ih1 ⊢
    cases b with
    | notifier events =>
      have hfd : (batch_event.returned eventfd_ (batch_event.notifier events)).fd = eventfd_ :=
        Nat.mod_eq_of_lt heventfd
      simp [List.filter_cons, hfd, connection_events, ih1]
    | connection events cb =>
      have hfd : (batch_event.returned eventfd_ (batch_event.connection events cb)).fd ≠
          eventfd_ := halias events cb (List.mem_cons_self _ _)
      have hfd1 : ¬ ({ events := events, data := cb } : epoll_event).fd = eventfd_ := hfd
      simp [List.filter_cons, hfd1, connection_events, ih1, batch_event.returned]

/-- When no callback pointer of the batch has its low 32 bits equal to
`eventfd_`, the callback calls of the batch are those of the spec. -/
theorem handle_batch_callback_calls_unaliased (g : CmtEpoll) (batch : List batch_event)
    (timer_tasks : List task_t) (cb_events : Nat → Nat → Nat → Nat → Bool)
    (heventfd : g.eventfd_ < 2 ^ 32)
    (halias : ∀ events cb, batch_event.connection events cb ∈ batch →
      cb % 2 ^ 32 ≠ g.eventfd_) :
    (handle_batch g (batch.map (batch_event.returned g.eventfd_)) timer_tasks
        cb_events).filter Event.is_callback_call =
      batch_callback_calls cb_events batch := by
  rw [handle_batch_callback_calls, non_notifier_returned g.eventfd_ heventfd batch halias]
  rfl

/-- C2, the code at the failing input: with `eventfd_ = 16`, a batch of two
connection events whose callbacks are at `2^32 + 16` and at 4096.  The low
32 bits of the first pointer equal `eventfd_`, so the event is taken for the
notifier: only the second callback gets `pre_events`, and its `events` call
has `total = 1`, where the batch has K = 2 events that are not the notifier
event and the first callback is due `pre_events` and `events(mask, 0, 2)`. -/
theorem handle_batch_skips_aliased_callback :
    handle_batch { eventfd_ := 16 }
        ([batch_event.connection 1 4294967312, batch_event.connection 1 4096].map
          (batch_event.returned 16)) [] (fun _ _ _ _ => true) =
      [Event.eventfd_read, Event.pre_events 4096, Event.events 4096 1 0 1 true] ∧
    batch_callback_calls (fun _ _ _ _ => true)
        [batch_event.connection 1 4294967312, batch_event.connection 1 4096] =
      [Event.pre_events 4294967312, Event.pre_events 4096,
       Event.events 4294967312 1 0 2 true, Event.events 4096 1 1 2 true] := by
  decide

/-- In the dispatch pass a `delete cb` is made exactly for the callbacks
whose `events` call returned false. -/
theorem dispatch_loop_delete_iff (eventfd_ : Nat)
    (cb_events : Nat → Nat → Nat → Nat → Bool) (total : Nat) (batch : List epoll_event)
    (cb : Nat) :
    ∀ index : Nat,
      Event.delete_cb cb ∈ dispatch_loop eventfd_ cb_events total batch index ↔
        ∃ mask i tot, Event.events cb mask i tot false ∈
          dispatch_loop eventfd_ cb_events total batch index := by
  induction batch with
  | nil => intro index; simp [dispatch_loop]
  | cons e rest ih =>
    intro index
    by_cases h : e.fd = eventfd_
    · simpa [dispatch_loop, h] using ih index
    · by_cases hb : cb_events e.ptr e.events index total
      · simp only [dispatch_loop, h, hb, if_false, Bool.not_true, List.mem_cons,
          Event.events.injEq, Bool.false_eq_true, and_false, false_or, reduceCtorEq]
        exact ih (index + 1)
      · simp only [dispatch_loop, h, hb, if_false, Bool.not_false, if_true, List.mem_cons,
          Event.events.injEq, Event.delete_cb.injEq, reduceCtorEq, false_or, and_true]
        constructor
        · rintro (h1 | h1)
          · exact ⟨e.events, index, total, Or.inl ⟨h1, rfl, rfl, rfl⟩⟩
          · obtain ⟨m, i, t, hm⟩ := (ih (index + 1)).mp h1
            exact ⟨m, i, t, Or.inr hm⟩
        · rintro ⟨m, i, t, h1 | h1⟩
          · exact Or.inl h1.1
          · exact Or.inr ((ih (index + 1)).mpr ⟨m, i, t, h1⟩)

/-- Every call or delete of the dispatch pass is on a callback of the batch. -/
theorem dispatch_loop_mem_ptr (eventfd_ : Nat)
    (cb_events : Nat → Nat → Nat → Nat → Bool) (total : Nat) (batch : List epoll_event)
    (cb : Nat) :
    ∀ index : Nat,
      (Event.delete_cb cb ∈ dispatch_loop eventfd_ cb_events total batch index ∨
        ∃ mask i tot b, Event.events cb mask i tot b ∈
          dispatch_loop eventfd_ cb_events total batch index) →
      cb ∈ (non_notifier eventfd_ batch).map epoll_event.ptr := by
  induction batch with
  | nil => intro index; simp [dispatch_loop]
  | cons e rest ih =>
    intro index hmem
    by_cases h : e.fd = eventfd_
    · have := ih index (by simpa [dispatch_loop, h] using hmem)
      simpa [non_notifier, h] using this
    · have hne : (e.fd != eventfd_) = true := by simpa using h
      simp only [non_notifier, List.filter_cons, hne, if_true, List.map_cons, List.mem_cons]
      by_cases hhead : cb = e.ptr
      · exact Or.inl hhead
      · right
        apply ih (index + 1)
        by_cases hb : cb_events e.ptr e.events index total
        · rcases hmem with h1 | ⟨m, i, t, b, h1⟩
          · left; simpa [dispatch_loop, h, hb] using h1
          · right
            refine ⟨m, i, t, b, ?_⟩
            simpa [dispatch_loop, h, hb, hhead] using h1
        · rcases hmem with h1 | ⟨m, i, t, b, h1⟩
          · left; simpa [dispatch_loop, h, hb, hhead] using h1
          · right
            refine ⟨m, i, t, b, ?_⟩
            simpa [dispatch_loop, h, hb, hhead] using h1

theorem dispatch_loop_count_delete (eventfd_ : Nat)
    (cb_events : Nat → Nat → Nat → Nat → Bool) (total : Nat) (batch : List epoll_event)
    (cb : Nat) :
    ∀ index : Nat,
      (dispatch_loop eventfd_ cb_events total batch index).count (Event.delete_cb cb) ≤
        ((non_notifier eventfd_ batch).map epoll_event.ptr).count cb := by
  induction batch with
  | nil => intro index; simp [dispatch_loop]
  | cons e rest ih =>
    intro index
    by_cases h : e.fd = eventfd_
    · simpa [dispatch_loop, non_notifier, h] using ih index
    · have hne : (e.fd != eventfd_) = true := by simpa using h
      have ih1 := ih (index + 1)
      simp only [non_notifier, List.filter_cons, hne, if_true, List.map_cons] at ih1 ⊢
      by_cases hb : cb_events e.ptr e.events index total
      · simp only [dispatch_loop, h, hb, if_false, Bool.not_true, List.count_cons,
          Bool.false_eq_true, reduceCtorEq, beq_iff_eq]
        omega
      · simp only [dispatch_loop, h, hb, if_false, Bool.not_false, if_true, List.count_cons,
          reduceCtorEq, beq_iff_eq, Event.delete_cb.injEq]
        by_cases hc : e.ptr = cb
        · simp [hc]; omega
        · simp [hc]; omega

theorem dispatch_loop_true_not_deleted (eventfd_ : Nat)
    (cb_events : Nat → Nat → Nat → Nat → Bool) (total : Nat) (batch : List epoll_event)
    (cb : Nat) :
    ∀ index : Nat, ((non_notifier eventfd_ batch).map epoll_event.ptr).Nodup →
      (∃ mask i tot, Event.events cb mask i tot true ∈
        dispatch_loop eventfd_ cb_events total batch index) →
      Event.delete_cb cb ∉ dispatch_loop eventfd_ cb_events total batch index := by
  induction batch with
  | nil => intro index; simp [dispatch_loop]
  | cons e rest ih =>
    intro index hnd hcall
    by_cases h : e.fd = eventfd_
    · have hnd1 : ((non_notifier eventfd_ rest).map epoll_event.ptr).Nodup := by
        simpa [non_notifier, h] using hnd
      have := ih index hnd1 (by simpa [dispatch_loop, h] using hcall)
      simpa [dispatch_loop, h] using this
    · have hne : (e.fd != eventfd_) = true := by simpa using h
      simp only [non_notifier, List.filter_cons, hne, if_true, List.map_cons,
        List.nodup_cons] at hnd
      obtain ⟨hnot, hnd1⟩ := hnd
      have hrest_ptr := dispatch_loop_mem_ptr eventfd_ cb_events total rest
      obtain ⟨m, i, t, hcall⟩ := hcall
      by_cases hhead : cb = e.ptr
      · -- the head event is on `cb`: no later event is
        subst hhead
        have hno : ∀ ev, (ev = Event.delete_cb e.ptr ∨ ∃ m i t b, ev = Event.events e.ptr m i t b) →
            ev ∉ dispatch_loop eventfd_ cb_events total rest (index + 1) := by
          intro ev hev hin
          apply hnot
          apply hrest_ptr e.ptr (index + 1)
          rcases hev with rfl | ⟨m, i, t, b, rfl⟩
          · exact Or.inl hin
          · exact Or.inr ⟨m, i, t, b, hin⟩
        by_cases hb : cb_events e.ptr e.events index total
        · simp only [dispatch_loop, h, hb, if_false, Bool.not_true, List.mem_cons,
            reduceCtorEq, false_or, Bool.false_eq_true]
          exact hno _ (Or.inl rfl)
        · exfalso
          simp only [dispatch_loop, h, hb, if_false, Bool.not_false, if_true, List.mem_cons,
            Event.events.injEq, reduceCtorEq, false_or, Bool.true_eq_false, and_false] at hcall
          exact hno _ (Or.inr ⟨m, i, t, true, rfl⟩) hcall
      · have hcall1 : Event.events cb m i t true ∈
            dispatch_loop eventfd_ cb_events total rest (index + 1) := by
          by_cases hb : cb_events e.ptr e.events index total
          · simpa [dispatch_loop, h, hb, hhead] using hcall
          · simpa [dispatch_loop, h, hb, hhead] using hcall
        have := ih (index + 1) hnd1 ⟨m, i, t, hcall1⟩
        by_cases hb : cb_events e.ptr e.events index total
        · simpa [dispatch_loop, h, hb] using this
        · simpa [dispatch_loop, h, hb, hhead] using this

/-- The trace of a batch, split in its three passes. -/
theorem handle_batch_eq (g : CmtEpoll) (batch : List epoll_event)
    (timer_tasks : List task_t) (cb_events : Nat → Nat → Nat → Nat → Bool) :
    handle_batch g batch timer_tasks cb_events =
      batch.map (fun e => if e.fd = g.eventfd_ then Event.eventfd_read
                          else Event.pre_events e.ptr) ++
      run_timer_tasks timer_tasks ++
      dispatch_loop g.eventfd_ cb_events (non_notifier g.eventfd_ batch).length batch 0 := by
  simp [handle_batch, pre_events_loop_eq]

/-- An `events` call or a `delete cb` of a batch belongs to its dispatch pass. -/
theorem handle_batch_mem_iff (g : CmtEpoll) (batch : List epoll_event)
    (timer_tasks : List task_t) (cb_events : Nat → Nat → Nat → Nat → Bool) (ev : Event)
    (hev : (∃ cb, ev = Event.delete_cb cb) ∨ ∃ cb m i t b, ev = Event.events cb m i t b) :
    ev ∈ handle_batch g batch timer_tasks cb_events ↔
      ev ∈ dispatch_loop g.eventfd_ cb_events (non_notifier g.eventfd_ batch).length batch 0 := by
  rw [handle_batch_eq]
  have h1 : ev ∉ batch.map (fun e => if e.fd = g.eventfd_ then Event.eventfd_read
      else Event.pre_events e.ptr) := by
    intro hin
    obtain ⟨e, _, he⟩ := List.mem_map.mp hin
    rcases hev with ⟨cb, rfl⟩ | ⟨cb, m, i, t, b, rfl⟩ <;> split at he <;> simp at he
  have h2 : ev ∉ run_timer_tasks timer_tasks := by
    intro hin
    have := run_timer_tasks_no_callback timer_tasks ev hin
    rcases hev with ⟨cb, rfl⟩ | ⟨cb, m, i, t, b, rfl⟩
    · exact this.2 cb rfl
    · simp [Event.is_callback_call] at this
  simp [List.mem_append, h1, h2]

/-- C3: during the dispatch of a batch the reactor destroys a callback if
and only if an `events` call on it returned false; when the callbacks of the
batch are distinct, a callback whose `events` call returned true is not
destroyed, and no callback is destroyed more than once. -/
theorem handle_batch_delete_iff_events_false (g : CmtEpoll) (batch : List epoll_event)
    (timer_tasks : List task_t) (cb_events : Nat → Nat → Nat → Nat → Bool)
    (hdistinct : ((non_notifier g.eventfd_ batch).map epoll_event.ptr).Nodup) :
    (∀ cb, Event.delete_cb cb ∈ handle_batch g batch timer_tasks cb_events ↔
      ∃ mask index total, Event.events cb mask index total false ∈
        handle_batch g batch timer_tasks cb_events) ∧
    (∀ cb mask index total,
      Event.events cb mask index total true ∈ handle_batch g batch timer_tasks cb_events →
      Event.delete_cb cb ∉ handle_batch g batch timer_tasks cb_events) ∧
    (∀ cb, (handle_batch g batch timer_tasks cb_events).count (Event.delete_cb cb) ≤ 1) := by
  refine ⟨?_, ?_, ?_⟩
  · intro cb
    rw [handle_batch_mem_iff g batch timer_tasks cb_events _ (Or.inl ⟨cb, rfl⟩),
      dispatch_loop_delete_iff]
    constructor
    · rintro ⟨m, i, t, h⟩
      exact ⟨m, i, t, (handle_batch_mem_iff g batch timer_tasks cb_events _
        (Or.inr ⟨cb, m, i, t, false, rfl⟩)).mpr h⟩
    · rintro ⟨m, i, t, h⟩
      exact ⟨m, i, t, (handle_batch_mem_iff g batch timer_tasks cb_events _
        (Or.inr ⟨cb, m, i, t, false, rfl⟩)).mp h⟩
  · intro cb m i t hcall
    rw [handle_batch_mem_iff g batch timer_tasks cb_events _ (Or.inl ⟨cb, rfl⟩)]
    rw [handle_batch_mem_iff g batch timer_tasks cb_events _
      (Or.inr ⟨cb, m, i, t, true, rfl⟩)] at hcall
    exact dispatch_loop_true_not_deleted g.eventfd_ cb_events _ batch cb 0 hdistinct
      ⟨m, i, t, hcall⟩
  · intro cb
    have hpre : (batch.map (fun e => if e.fd = g.eventfd_ then Event.eventfd_read
        else Event.pre_events e.ptr)).count (Event.delete_cb cb) = 0 := by
      rw [List.count_eq_zero]
      intro hin
      obtain ⟨e, _, he⟩ := List.mem_map.mp hin
      split at he <;> simp at he
    have htim : (run_timer_tasks timer_tasks).count (Event.delete_cb cb) = 0 := by
      rw [List.count_eq_zero]
      intro hin
      exact (run_timer_tasks_no_callback timer_tasks _ hin).2 cb rfl
    rw [handle_batch_eq, List.count_append, List.count_append, hpre, htim]
    have h1 := dispatch_loop_count_delete g.eventfd_ cb_events
      (non_notifier g.eventfd_ batch).length batch cb 0
    have h2 := List.nodup_iff_count_le_one.mp hdistinct cb
    omega

/-- Witness for `handle_batch_delete_iff_events_false`: a batch of two
connection events around the notifier event; the first callback returns
false and is the only one destroyed. -/
theorem handle_batch_delete_iff_events_false_witness :
    handle_batch { eventfd_ := 5 } [⟨1, 4096⟩, ⟨1, 5⟩, ⟨4, 8192⟩] [{ run_ := 9 }]
        (fun cb _ _ _ => cb != 4096) =
      [Event.pre_events 4096, Event.eventfd_read, Event.pre_events 8192, Event.run 9 0,
       Event.events 4096 1 0 2 false, Event.delete_cb 4096, Event.events 8192 4 1 2 true] ∧
    (handle_batch { eventfd_ := 5 } [⟨1, 4096⟩, ⟨1, 5⟩, ⟨4, 8192⟩] [{ run_ := 9 }]
        (fun cb _ _ _ => cb != 4096)).count (Event.delete_cb 4096) ≤ 1 :=
  ⟨by decide,
   (handle_batch_delete_iff_events_false { eventfd_ := 5 } [⟨1, 4096⟩, ⟨1, 5⟩, ⟨4, 8192⟩]
      [{ run_ := 9 }] (fun cb _ _ _ => cb != 4096) (by decide)).2.2 4096⟩

/-! ## `push_work` -/

/-- C4: `push_work` returns what the queue's `push` returned.  On a full
queue it returns false, writes nothing to the notifier and leaves the group
as it was; otherwise it returns true, the task is appended to the queue, and
it writes once to the notifier when `wait_cnt_` is positive and not at all
otherwise.  `wait_cnt_` keeps its value in every case. -/
theorem push_work_spec (g : CmtEpoll) (t : task_t) :
    (push_work g t).1 = (g.work_queue_.push t).1 ∧
    (push_work g t).2.1.wait_cnt_ = g.wait_cnt_ ∧
    push_work g t =
      if g.work_queue_.items.length < g.work_queue_.capacity_ then
        (true,
         { g with work_queue_ := { g.work_queue_ with items := g.work_queue_.items ++ [t] } },
         if g.wait_cnt_ > 0 then [Event.eventfd_write] else [])
      else (false, g, []) := by
  by_cases hlt : g.work_queue_.items.length < g.work_queue_.capacity_
  · by_cases hw : g.wait_cnt_ > 0 <;> simp [push_work, CarrayQueue.push, hlt, hw]
  · simp [push_work, CarrayQueue.push, hlt]

/-! ## Thread-pool scaling -/

theorem scale_thresh_eq_clamp (v base : Int) : scale_thresh v base = clamp v 0 (base - 1) := by
  simp only [scale_thresh, clamp]
  split_ifs <;> omega

/-- The cast to `int` never gives more than the value it is applied to. -/
theorem static_cast_int_le (x : Int) : static_cast_int x ≤ x := by
  unfold static_cast_int
  split_ifs <;> omega

/-- Below `2^31` the cast to `int` is exact. -/
theorem static_cast_int_of_lt (x : Int) (h : x < 2147483648) : static_cast_int x = x := by
  unfold static_cast_int
  rw [if_pos h]

theorem prefer_thread_count_le (dyn : Nat) (base : Int) :
    prefer_thread_count dyn base ≤ base + dyn :=
  static_cast_int_le _

/-- Below `2^31` the preferred thread count is `base + dyn`. -/
theorem prefer_thread_count_eq (dyn : Nat) (base : Int) (h : base + dyn < 2147483648) :
    prefer_thread_count dyn base = base + dyn :=
  static_cast_int_of_lt _ h

/-- The `do ... while` that raises `worker_count_` to `prefer` ends after
`prefer - worker_count_` rounds, with `worker_count_ = prefer`. -/
theorem scale_to_prefer_eq (prefer : Int) :
    ∀ (fuel : Nat) (g : CmtEpoll), 0 < fuel → g.worker_count_ + fuel = prefer →
      scale_to_prefer prefer fuel g =
        ({ g with worker_count_ := prefer,
                  global_thread_count := g.global_thread_count + fuel },
         List.replicate fuel worker_thread) := by
  intro fuel
  induction fuel with
  | zero => intro g h; omega
  | succ n ih =>
    intro g _ hw
    by_cases hn : n = 0
    · subst hn
      have h1 : ¬ (g.worker_count_ + 1 < prefer) := by
        have : g.worker_count_ + 1 = prefer := by simpa using hw
        omega
      have h2 : g.worker_count_ + 1 = prefer := by simpa using hw
      simp [scale_to_prefer, add_worker, h1, h2]
    · have hpos : 0 < n := Nat.pos_of_ne_zero hn
      have h1 : g.worker_count_ + 1 < prefer := by
        have : g.worker_count_ + ((n : Int) + 1) = prefer := by simpa using hw
        omega
      have h2 : (add_worker g).worker_count_ + (n : Int) = prefer := by
        have : g.worker_count_ + ((n : Int) + 1) = prefer := by simpa using hw
        simp only [add_worker]
        omega
      have hrec := ih (add_worker g) hpos h2
      simp only [scale_to_prefer]
      have h1x : (add_worker g).worker_count_ < prefer := by simpa [add_worker] using h1
      simp only [h1x, if_true, hrec]
      simp only [add_worker, List.replicate_succ, Prod.mk.injEq, and_true]
      congr 1
      push_cast
      ring

/-- What the locked part of `try_scale_thread_pool` does, case by case. -/
theorem try_scale_locked_eq (thresh prefer : Int) (g : CmtEpoll) :
    try_scale_locked thresh prefer g =
      if g.worker_count_ ≥ g.session_count_ + g.base_thread_count_ then (g, [])
      else if g.stall_count_ > g.worker_count_ - g.base_thread_count_ + thresh then
        (add_worker g, [worker_thread])
      else if g.worker_count_ < prefer then
        ({ g with worker_count_ := prefer,
                  global_thread_count := g.global_thread_count + (prefer - g.worker_count_) },
         List.replicate (prefer - g.worker_count_).toNat worker_thread)
      else (g, []) := by
  unfold try_scale_locked
  by_cases h1 : g.worker_count_ ≥ g.session_count_ + g.base_thread_count_
  · simp [h1]
  · by_cases h2 : g.stall_count_ > g.worker_count_ - g.base_thread_count_ + thresh
    · simp [h1, h2]
    · by_cases h3 : g.worker_count_ < prefer
      · have hpos : 0 < (prefer - g.worker_count_).toNat := by omega
        have hsum : g.worker_count_ + ((prefer - g.worker_count_).toNat : Int) = prefer := by
          omega
        have hcast : ((prefer - g.worker_count_).toNat : Int) = prefer - g.worker_count_ := by
          omega
        simp only [h1, h2, h3, if_true, if_false]
        rw [scale_to_prefer_eq prefer _ g hpos hsum, hcast]
      · simp [h1, h2, h3]

/-- The counters after one `try_scale_thread_pool` call. -/
theorem try_scale_thread_pool_counts (v : Int) (dyn : Nat) (now : Int) (g : CmtEpoll) :
    (try_scale_thread_pool v dyn now g).1.worker_count_ =
      (if g.worker_count_ ≥ g.session_count_ + g.base_thread_count_ then g.worker_count_
       else if g.stall_count_ >
          g.worker_count_ - g.base_thread_count_ + clamp v 0 (g.base_thread_count_ - 1) then
         g.worker_count_ + 1
       else if g.worker_count_ < prefer_thread_count dyn g.base_thread_count_ then
         prefer_thread_count dyn g.base_thread_count_
       else g.worker_count_) ∧
    (try_scale_thread_pool v dyn now g).1.global_thread_count - g.global_thread_count =
      (try_scale_thread_pool v dyn now g).1.worker_count_ - g.worker_count_ ∧
    (try_scale_thread_pool v dyn now g).1.tasker_count_ = g.tasker_count_ ∧
    (try_scale_thread_pool v dyn now g).1.base_thread_count_ = g.base_thread_count_ ∧
    (try_scale_thread_pool v dyn now g).1.session_count_ = g.session_count_ ∧
    (try_scale_thread_pool v dyn now g).2 =
      List.replicate
        ((try_scale_thread_pool v dyn now g).1.worker_count_ - g.worker_count_).toNat
        worker_thread := by
  unfold try_scale_thread_pool
  simp only [try_scale_locked_eq, scale_thresh_eq_clamp]
  generalize clamp v 0 (g.base_thread_count_ - 1) = th
  generalize prefer_thread_count dyn g.base_thread_count_ = pf
  by_cases h1 : g.worker_count_ ≥ g.session_count_ + g.base_thread_count_
  · by_cases h2 : g.stall_count_ > g.worker_count_ - g.base_thread_count_ + th
    · simp [h1, h2]
    · by_cases h3 : g.worker_count_ ≥ pf
      · by_cases h4 : g.stall_count_ > g.worker_count_.tdiv 4 <;> simp [h1, h2, h3, h4]
      · simp [h1, h2, h3]
  · by_cases h2 : g.stall_count_ > g.worker_count_ - g.base_thread_count_ + th
    · simp [h1, h2, add_worker]
    · by_cases h3 : g.worker_count_ ≥ pf
      · have h3x : ¬ (g.worker_count_ < pf) := by omega
        by_cases h4 : g.stall_count_ > g.worker_count_.tdiv 4 <;>
          simp [h1, h2, h3, h3x, h4]
      · have h3x : g.worker_count_ < pf := by omega
        simp [h1, h2, h3, h3x]

/-- What `balance_tasker` changes when it returns: it starts `extend`
tasker threads, `extend` being at most the configured step and positive only
when `workers + taskers` was below both the session count and the queue
length; the worker counters are untouched. -/
theorem balance_tasker_some (multiply step : Nat) (enable : Bool) (now : Int)
    (g : CmtEpoll) (r : CmtEpoll × List Event)
    (h : balance_tasker multiply step enable now g = some r) :
    r.1.worker_count_ = g.worker_count_ ∧
    r.1.base_thread_count_ = g.base_thread_count_ ∧
    r.1.session_count_ = g.session_count_ ∧
    ∃ extend : Nat, extend ≤ step ∧
      r.1.tasker_count_ = g.tasker_count_ + extend ∧
      r.1.global_thread_count = g.global_thread_count + extend ∧
      r.2 = List.replicate extend (Event.thread 999 false (-1) enable false) ∧
      (extend ≠ 0 → g.worker_count_ + g.tasker_count_ < g.session_count_ ∧
        g.worker_count_ + g.tasker_count_ < (g.work_queue_.length : Int)) := by
  unfold balance_tasker at h
  simp only at h
  split_ifs at h
  all_goals cases h
  all_goals first
    | (refine ⟨rfl, rfl, rfl, 0, ?_, ?_, ?_, ?_, ?_⟩ <;> simp <;> done)
    | (refine ⟨rfl, rfl, rfl, _, ?_, rfl, rfl, rfl, fun _ => ?_⟩ <;>
        first | assumption | omega)

theorem balance_tasker_isSome (multiply step : Nat) (enable : Bool) (now : Int)
    (g : CmtEpoll) (hm : multiply ≠ 0) :
    ∃ r, balance_tasker multiply step enable now g = some r := by
  unfold balance_tasker
  simp only [hm, if_false]
  split_ifs <;> exact ⟨_, rfl⟩

/-- The counters after `force_scale_thread_pool`. -/
theorem force_scale_thread_pool_counts (now : Int) (g : CmtEpoll) :
    (force_scale_thread_pool now g).1.worker_count_ =
      (if g.worker_count_ < g.session_count_ + g.base_thread_count_ then g.worker_count_ + 1
       else g.worker_count_) ∧
    (force_scale_thread_pool now g).1.global_thread_count - g.global_thread_count =
      (force_scale_thread_pool now g).1.worker_count_ - g.worker_count_ ∧
    (force_scale_thread_pool now g).1.tasker_count_ = g.tasker_count_ ∧
    (force_scale_thread_pool now g).1.base_thread_count_ = g.base_thread_count_ ∧
    (force_scale_thread_pool now g).1.session_count_ = g.session_count_ ∧
    (force_scale_thread_pool now g).1.last_scale_time_ = now := by
  unfold force_scale_thread_pool
  by_cases h : g.worker_count_ < g.session_count_ + g.base_thread_count_
  · have h' : ¬ (g.worker_count_ ≥ g.session_count_ + g.base_thread_count_) := by omega
    simp [h, h', add_worker]
  · have h' : g.worker_count_ ≥ g.session_count_ + g.base_thread_count_ := by omega
    simp [h, h']

/-- The worker path of `shrink_thread_pool`: when it returns true and what
it does to the group. -/
theorem shrink_thread_pool_worker_eq (v : Int) (dyn shrink_time : Nat) (now : Int)
    (g : CmtEpoll) :
    shrink_thread_pool v dyn shrink_time now g true =
      if g.stall_count_ <
            g.worker_count_ - g.base_thread_count_ + clamp v 0 (g.base_thread_count_ - 1) ∧
          now - g.last_scale_time_ > (shrink_time : Int) ∧
          g.worker_count_ > prefer_thread_count dyn g.base_thread_count_ ∧
          g.stall_count_ < prefer_thread_count dyn g.base_thread_count_ - 1 then
        (true, { g with worker_count_ := g.worker_count_ - 1,
                        global_thread_count := g.global_thread_count - 1 })
      else (false, g) := by
  unfold shrink_thread_pool
  simp only [scale_thresh_eq_clamp, Bool.not_true, Bool.false_eq_true, if_false]
  generalize clamp v 0 (g.base_thread_count_ - 1) = th
  generalize prefer_thread_count dyn g.base_thread_count_ = pf
  by_cases h1 : g.stall_count_ < g.worker_count_ - g.base_thread_count_ + th
  · by_cases h2 : now - g.last_scale_time_ > (shrink_time : Int)
    · by_cases h3 : g.worker_count_ > pf
      · by_cases h4 : g.stall_count_ < pf - 1 <;>
          simp [h1, h2, h3, h4]
      · simp [h1, h2, h3]
    · simp [h1, h2]
  · simp [h1]

/-- The tasker path of `shrink_thread_pool`. -/
theorem shrink_thread_pool_tasker_eq (v : Int) (dyn shrink_time : Nat) (now : Int)
    (g : CmtEpoll) :
    shrink_thread_pool v dyn shrink_time now g false =
      if now - g.last_tasker_time_ ≤ (shrink_time : Int) then (false, g)
      else (true, { g with tasker_count_ := g.tasker_count_ - 1,
                           global_thread_count := g.global_thread_count - 1 }) := by
  simp [shrink_thread_pool]

/-- The thread loop of `init_thread` completes whenever the gap is not zero. -/
theorem init_thread_loop_isSome (affinities : List cpu_info_t) (base_idx gap : Nat)
    (hgap : gap ≠ 0) :
    ∀ (n thread_id : Nat) (ewt : Int) (wa : Bool) (cpus : List Int),
      ∃ r, init_thread_loop affinities base_idx gap n thread_id ewt wa cpus = some r := by
  intro n
  induction n with
  | zero => intro thread_id ewt wa cpus; exact ⟨_, rfl⟩
  | succ n ih =>
    intro thread_id ewt wa cpus
    simp only [init_thread_loop, hgap, if_false]
    obtain ⟨r, hr⟩ := ih (thread_id + 1)
      (if (thread_id % gap == 0) = true then ewt - 1 else ewt)
      (if (match affinities[base_idx + thread_id]? with
            | some a => a.processor
            | none => -1) < 0 then false else wa)
      (if (match affinities[base_idx + thread_id]? with
            | some a => a.processor
            | none => -1) < 0 then cpus
        else if (match affinities[base_idx + thread_id]? with
            | some a => a.processor
            | none => -1) ∈ cpus then cpus
        else cpus ++ [match affinities[base_idx + thread_id]? with
            | some a => a.processor
            | none => -1])
    rw [hr]
    exact ⟨_, rfl⟩

/-- The counters after `init_thread`. -/
theorem init_thread_counts (g : CmtEpoll) (threads : Nat) (affinities : List cpu_info_t)
    (base_idx : Nat) (ewt : Int) (gap : Nat) (r : CmtEpoll × List Event)
    (h : init_thread g threads affinities base_idx ewt gap = some r) :
    r.1.base_thread_count_ = threads ∧ r.1.worker_count_ = threads ∧
    r.1.tasker_count_ = g.tasker_count_ ∧
    r.1.global_thread_count = g.global_thread_count + threads := by
  unfold init_thread at h
  simp only at h
  split at h
  · cases h
  · cases h
    exact ⟨rfl, rfl, rfl, rfl⟩

theorem init_thread_isSome (g : CmtEpoll) (threads : Nat) (affinities : List cpu_info_t)
    (base_idx : Nat) (ewt : Int) (gap : Nat) (hgap : gap ≠ 0) :
    ∃ r, init_thread g threads affinities base_idx ewt gap = some r := by
  obtain ⟨⟨w, c, tr⟩, hr⟩ := init_thread_loop_isSome affinities base_idx gap hgap threads 0 ewt
    g.with_affinity_ g.cpus_
  unfold init_thread
  simp only [hr]
  exact ⟨_, rfl⟩

/-- C6 as stated fails: with 2 base threads, 2 sessions, 2 workers and 2
taskers the cap `worker_count_ + tasker_count_ ≤ session_count_ +
base_thread_count_` holds, and after `try_scale_thread_pool` under stall, or
after `force_scale_thread_pool`, it does not (3 + 2 > 2 + 2); with 3
sessions, no tasker and a queue of 20 tasks it holds before `balance_tasker`
with step 8 and not after (2 + 8 > 3 + 2). -/
theorem scale_cap_broken :
    scale_cap { base_thread_count_ := 2, worker_count_ := 2, tasker_count_ := 2,
                stall_count_ := 3, session_count_ := 2, global_thread_count := 4 } = true ∧
    scale_cap (try_scale_thread_pool 1 2 100
        { base_thread_count_ := 2, worker_count_ := 2, tasker_count_ := 2,
          stall_count_ := 3, session_count_ := 2, global_thread_count := 4 }).1 = false ∧
    scale_cap (force_scale_thread_pool 100
        { base_thread_count_ := 2, worker_count_ := 2, tasker_count_ := 2,
          stall_count_ := 3, session_count_ := 2, global_thread_count := 4 }).1 = false ∧
    scale_cap { base_thread_count_ := 2, worker_count_ := 2, session_count_ := 3,
                global_thread_count := 2,
                work_queue_ := { capacity_ := 128,
                                 items := List.replicate 20 ⟨0, 1, 0, 1⟩ } } = true ∧
    (balance_tasker 2 8 false 100
        { base_thread_count_ := 2, worker_count_ := 2, session_count_ := 3,
          global_thread_count := 2,
          work_queue_ := { capacity_ := 128, items := List.replicate 20 ⟨0, 1, 0, 1⟩ } }).map
      (fun r => (scale_cap r.1, r.1.worker_count_, r.1.tasker_count_, r.1.session_count_))
      = some (false, 2, 8, 3) := by
  decide

/-- C6 (amended): each operation tests its own cap on entry.
`force_scale_thread_pool` keeps `worker_count_ ≤ session_count_ +
base_thread_count_`; `try_scale_thread_pool` leaves `worker_count_` at most
the larger of that cap and `prefer`; `balance_tasker` adds taskers only when
`worker_count_ + tasker_count_ < session_count_`, at most
`epoll_group_tasker_extend_step` of them, and changes no worker; none of the
three changes `session_count_` or `base_thread_count_`. -/
theorem scale_cap_per_operation (v : Int) (dyn multiply step : Nat) (enable : Bool)
    (now : Int) (g : CmtEpoll)
    (hcap : g.worker_count_ ≤ g.session_count_ + g.base_thread_count_) :
    (force_scale_thread_pool now g).1.worker_count_ ≤
      g.session_count_ + g.base_thread_count_ ∧
    (try_scale_thread_pool v dyn now g).1.worker_count_ ≤
      max (g.session_count_ + g.base_thread_count_) (g.base_thread_count_ + dyn) ∧
    (dyn ≤ g.session_count_ →
      (try_scale_thread_pool v dyn now g).1.worker_count_ ≤
        g.session_count_ + g.base_thread_count_) ∧
    (∀ r, balance_tasker multiply step enable now g = some r →
      r.1.worker_count_ = g.worker_count_ ∧
      r.1.worker_count_ + r.1.tasker_count_ ≤
        max (g.worker_count_ + g.tasker_count_) (g.session_count_ - 1 + step)) ∧
    (multiply ≠ 0 → ∃ r, balance_tasker multiply step enable now g = some r) := by
  refine ⟨?_, ?_, ?_, ?_, balance_tasker_isSome multiply step enable now g⟩
  · rw [(force_scale_thread_pool_counts now g).1]
    split_ifs <;> omega
  · rw [(try_scale_thread_pool_counts v dyn now g).1]
    have hpf := prefer_thread_count_le dyn g.base_thread_count_
    split_ifs <;> omega
  · intro hd
    rw [(try_scale_thread_pool_counts v dyn now g).1]
    have hpf := prefer_thread_count_le dyn g.base_thread_count_
    split_ifs <;> omega
  · intro r hr
    obtain ⟨hw, _, _, extend, hle, ht, _, _, hguard⟩ :=
      balance_tasker_some multiply step enable now g r hr
    refine ⟨hw, ?_⟩
    rw [hw, ht]
    by_cases h0 : extend = 0
    · subst h0; simp
    · have := (hguard h0).1
      omega

/-- Witness for `scale_cap_per_operation`: 2 base threads, 3 workers, 4
sessions. -/
theorem scale_cap_per_operation_witness :
    (force_scale_thread_pool 100
        { base_thread_count_ := 2, worker_count_ := 3, session_count_ := 4,
          global_thread_count := 3 }).1.worker_count_ ≤ 4 + 2 :=
  (scale_cap_per_operation 1 2 2 4 false 100
    { base_thread_count_ := 2, worker_count_ := 3, session_count_ := 4,
      global_thread_count := 3 } (by decide)).1

/-- C7 as stated fails: with 3 base threads, 3 workers, 5 sessions and no
stall, `epoll_group_dynamic_threads = 2^31` makes the 32-bit sum cast to
`int` negative, and `try_scale_thread_pool` starts no worker, where `w <
prefer = base + 2^31` would have `worker_count_` become `prefer`; and
`epoll_group_thread_scale_thresh = 2^31` is negative after the cast, so
`thresh` is 0, where `clamp(2^31, 0, base - 1)` is 2: with one stalled
thread a worker is started, where `1 > 3 - 3 + 2` is false. -/
theorem try_scale_wraps :
    prefer_thread_count 2147483648 3 = -2147483645 ∧
    try_scale_thread_pool (static_cast_int 1) 2147483648 100
        { base_thread_count_ := 3, worker_count_ := 3, session_count_ := 5,
          global_thread_count := 3 } =
      ({ base_thread_count_ := 3, worker_count_ := 3, session_count_ := 5,
         global_thread_count := 3 }, []) ∧
    scale_thresh (static_cast_int 2147483648) 3 = 0 ∧
    clamp 2147483648 0 (3 - 1) = 2 ∧
    (try_scale_thread_pool (static_cast_int 2147483648) 0 100
        { base_thread_count_ := 3, worker_count_ := 3, stall_count_ := 1, session_count_ := 5,
          global_thread_count := 3 }).1.worker_count_ = 4 := by
  decide

/-- C7 (amended): the effect of one `try_scale_thread_pool` call, for
`epoll_group_thread_scale_thresh < 2^31` and `base +
epoll_group_dynamic_threads < 2^31` (where the casts to `int` are exact),
with `thresh = clamp(epoll_group_thread_scale_thresh, 0, base - 1)`,
`prefer = base + epoll_group_dynamic_threads` and `w`, `stalled` the values
at entry: `worker_count_` is unchanged if `w ≥ session_count + base`;
otherwise it is `w + 1` if `stalled > w - base + thresh`; otherwise it is
`prefer` if `w < prefer`; otherwise it is unchanged.  `global_thread_count`
moves by the same amount, that many worker threads are started, and
`tasker_count_` is unchanged. -/
theorem try_scale_thread_pool_effect (epoll_group_thread_scale_thresh dyn : Nat) (now : Int)
    (g : CmtEpoll) (hthresh : epoll_group_thread_scale_thresh < 2147483648)
    (hdyn : g.base_thread_count_ + dyn < 2147483648) :
    (try_scale_thread_pool (static_cast_int epoll_group_thread_scale_thresh) dyn now
        g).1.worker_count_ =
      (if g.worker_count_ ≥ g.session_count_ + g.base_thread_count_ then g.worker_count_
       else if g.stall_count_ >
          g.worker_count_ - g.base_thread_count_ +
            clamp epoll_group_thread_scale_thresh 0 (g.base_thread_count_ - 1) then
         g.worker_count_ + 1
       else if g.worker_count_ < g.base_thread_count_ + dyn then g.base_thread_count_ + dyn
       else g.worker_count_) ∧
    (try_scale_thread_pool (static_cast_int epoll_group_thread_scale_thresh) dyn now
        g).1.global_thread_count - g.global_thread_count =
      (try_scale_thread_pool (static_cast_int epoll_group_thread_scale_thresh) dyn now
        g).1.worker_count_ - g.worker_count_ ∧
    (try_scale_thread_pool (static_cast_int epoll_group_thread_scale_thresh) dyn now g).2 =
      List.replicate
        ((try_scale_thread_pool (static_cast_int epoll_group_thread_scale_thresh) dyn now
          g).1.worker_count_ - g.worker_count_).toNat
        worker_thread ∧
    (try_scale_thread_pool (static_cast_int epoll_group_thread_scale_thresh) dyn now
        g).1.tasker_count_ = g.tasker_count_ := by
  have hv : static_cast_int (epoll_group_thread_scale_thresh : Int) =
      epoll_group_thread_scale_thresh :=
    static_cast_int_of_lt _ (by exact_mod_cast hthresh)
  rw [hv]
  obtain ⟨h1, h2, h3, _, _, h6⟩ :=
    try_scale_thread_pool_counts epoll_group_thread_scale_thresh dyn now g
  rw [prefer_thread_count_eq dyn g.base_thread_count_ hdyn] at h1
  exact ⟨h1, h2, h6, h3⟩

/-- Witness for `try_scale_thread_pool_effect`: 2 base threads, 2 workers,
no stall, `epoll_group_dynamic_threads = 2`: the workers are raised to 4. -/
theorem try_scale_thread_pool_effect_witness :
    (try_scale_thread_pool (static_cast_int 1) 2 100
        { base_thread_count_ := 2, worker_count_ := 2, session_count_ := 5,
          global_thread_count := 2 }).1.worker_count_ = 4 :=
  ((try_scale_thread_pool_effect 1 2 100
    { base_thread_count_ := 2, worker_count_ := 2, session_count_ := 5,
      global_thread_count := 2 } (by decide) (by decide)).1).trans (by decide)

/-- C8 as stated fails: with 2 base threads, `prefer = 4`, `thresh = 1`, 3
stalled threads, 2 workers and 3 sessions, one `try_scale_thread_pool` call
leaves `worker_count_` at 3, not 4, having started one thread. -/
theorem try_scale_under_stall_not_four :
    (try_scale_thread_pool 1 2 100
        { base_thread_count_ := 2, worker_count_ := 2, stall_count_ := 3,
          session_count_ := 3, global_thread_count := 2 }).1.worker_count_ = 3 ∧
    ¬ (try_scale_thread_pool 1 2 100
        { base_thread_count_ := 2, worker_count_ := 2, stall_count_ := 3,
          session_count_ := 3, global_thread_count := 2 }).1.worker_count_ = 4 ∧
    (try_scale_thread_pool 1 2 100
        { base_thread_count_ := 2, worker_count_ := 2, stall_count_ := 3,
          session_count_ := 3, global_thread_count := 2 }).2 = [worker_thread] := by
  decide

/-- C8 (amended): with `base_thread_count = 2`, `prefer = 4`
(`epoll_group_dynamic_threads = 2`), `thresh = 1`, `stall_count = 3`,
`worker_count = 2` and `session_count ≥ 3`, a single call to
`try_scale_thread_pool` starts exactly one worker and leaves `worker_count`
equal to 3. -/
theorem try_scale_under_stall_adds_one (now : Int) (g : CmtEpoll)
    (hbase : g.base_thread_count_ = 2) (hstall : g.stall_count_ = 3)
    (hworkers : g.worker_count_ = 2) (hsessions : 3 ≤ g.session_count_) :
    (try_scale_thread_pool 1 2 now g).1.worker_count_ = 3 ∧
    (try_scale_thread_pool 1 2 now g).2 = [worker_thread] := by
  obtain ⟨h1, _, _, _, _, h6⟩ := try_scale_thread_pool_counts 1 2 now g
  have hw : (try_scale_thread_pool 1 2 now g).1.worker_count_ = 3 := by
    rw [h1, hbase, hstall, hworkers]
    have hc : clamp 1 0 (2 - 1) = 1 := by decide
    have hp : prefer_thread_count 2 2 = 4 := by decide
    rw [hc, hp]
    split_ifs <;> omega
  refine ⟨hw, ?_⟩
  rw [h6, hw, hworkers]
  rfl

/-- Witness for `try_scale_under_stall_adds_one`, with 5 sessions. -/
theorem try_scale_under_stall_adds_one_witness :
    (try_scale_thread_pool 1 2 100
        { base_thread_count_ := 2, worker_count_ := 2, stall_count_ := 3,
          session_count_ := 5, global_thread_count := 2 }).1.worker_count_ = 3 :=
  (try_scale_under_stall_adds_one 100
    { base_thread_count_ := 2, worker_count_ := 2, stall_count_ := 3,
      session_count_ := 5, global_thread_count := 2 }
    (by decide) (by decide) (by decide) (by decide)).1

/-- C9 as stated fails: with 3 base threads, 4 workers, no stall and the
shrink time past, `epoll_group_dynamic_threads = 2^32 - 1` makes the 32-bit
sum `3 + (2^32 - 1)` equal to 2, and `shrink_thread_pool(true)` returns true,
where `workers > prefer = base + (2^32 - 1)` is false. -/
theorem shrink_wraps :
    (shrink_thread_pool (static_cast_int 1) 4294967295 10 1000
        { base_thread_count_ := 3, worker_count_ := 4, session_count_ := 5,
          global_thread_count := 4 } true).1 = true ∧
    ¬ ((4 : Int) > 3 + 4294967295) := by
  decide

/-- C9 (amended): for `epoll_group_thread_scale_thresh < 2^31` and `base +
epoll_group_dynamic_threads < 2^31` (where the casts to `int` are exact),
`shrink_thread_pool(true)` returns true if and only if `stalled < workers -
base + thresh`, `now - last_scale_time > shrink_time`, `workers > prefer` and
`stalled < prefer - 1` all hold, with `thresh =
clamp(epoll_group_thread_scale_thresh, 0, base - 1)` and `prefer = base +
epoll_group_dynamic_threads`.  When it returns true `worker_count_` and
`global_thread_count` are each one less and nothing else changes; when it
returns false the group is unchanged; `tasker_count_` is the same in both
cases. -/
theorem shrink_thread_pool_worker_spec (epoll_group_thread_scale_thresh dyn shrink_time : Nat)
    (now : Int) (g : CmtEpoll) (hthresh : epoll_group_thread_scale_thresh < 2147483648)
    (hdyn : g.base_thread_count_ + dyn < 2147483648) :
    ((shrink_thread_pool (static_cast_int epoll_group_thread_scale_thresh) dyn shrink_time now
        g true).1 = true ↔
      (g.stall_count_ <
          g.worker_count_ - g.base_thread_count_ +
            clamp epoll_group_thread_scale_thresh 0 (g.base_thread_count_ - 1) ∧
        now - g.last_scale_time_ > (shrink_time : Int) ∧
        g.worker_count_ > g.base_thread_count_ + dyn ∧
        g.stall_count_ < g.base_thread_count_ + dyn - 1)) ∧
    (shrink_thread_pool (static_cast_int epoll_group_thread_scale_thresh) dyn shrink_time now
        g true).2 =
      (if (shrink_thread_pool (static_cast_int epoll_group_thread_scale_thresh) dyn
          shrink_time now g true).1 then
        { g with worker_count_ := g.worker_count_ - 1,
                 global_thread_count := g.global_thread_count - 1 }
       else g) ∧
    (shrink_thread_pool (static_cast_int epoll_group_thread_scale_thresh) dyn shrink_time now
        g true).2.tasker_count_ = g.tasker_count_ := by
  have hv : static_cast_int (epoll_group_thread_scale_thresh : Int) =
      epoll_group_thread_scale_thresh :=
    static_cast_int_of_lt _ (by exact_mod_cast hthresh)
  rw [hv, shrink_thread_pool_worker_eq, prefer_thread_count_eq dyn g.base_thread_count_ hdyn]
  by_cases h : g.stall_count_ <
        g.worker_count_ - g.base_thread_count_ +
          clamp epoll_group_thread_scale_thresh 0 (g.base_thread_count_ - 1) ∧
      now - g.last_scale_time_ > (shrink_time : Int) ∧
      g.worker_count_ > g.base_thread_count_ + dyn ∧
      g.stall_count_ < g.base_thread_count_ + dyn - 1
  · rw [if_pos h]
    exact ⟨⟨fun _ => h, fun _ => rfl⟩, rfl, rfl⟩
  · rw [if_neg h]
    exact ⟨⟨fun hc => by simp at hc, fun hc => absurd hc h⟩, by simp, rfl⟩

/-- Witness for `shrink_thread_pool_worker_spec`: 2 base threads, 4 workers,
`epoll_group_dynamic_threads = 1`, no stall, shrink time past: the call
returns true. -/
theorem shrink_thread_pool_worker_spec_witness :
    (shrink_thread_pool (static_cast_int 1) 1 10 1000
        { base_thread_count_ := 2, worker_count_ := 4, session_count_ := 5,
          global_thread_count := 4 } true).1 = true :=
  ((shrink_thread_pool_worker_spec 1 1 10 1000
    { base_thread_count_ := 2, worker_count_ := 4, session_count_ := 5,
      global_thread_count := 4 } (by decide) (by decide)).1).mpr (by decide)

theorem clamp_nonneg (v hi : Int) (hhi : 0 ≤ hi) : 0 ≤ clamp v 0 hi := by
  simp only [clamp]
  split_ifs <;> omega

/-- C10 as stated fails: from the 3 workers reached by the stall-driven
scale-up (2 base threads, `prefer = 4`), with no thread stalled any more and
the shrink time long past, `shrink_thread_pool(true)` returns false and the
shrink checks leave `worker_count_` at 3; from 4 workers they leave it at 4.
It does not return to 2. -/
theorem shrink_checks_do_not_reach_base :
    ({ (try_scale_thread_pool 1 2 0
          { base_thread_count_ := 2, worker_count_ := 2, stall_count_ := 3,
            session_count_ := 3, global_thread_count := 2 }).1
        with stall_count_ := 0 } : CmtEpoll).worker_count_ = 3 ∧
    (shrink_thread_pool 1 2 10 1000
        { (try_scale_thread_pool 1 2 0
            { base_thread_count_ := 2, worker_count_ := 2, stall_count_ := 3,
              session_count_ := 3, global_thread_count := 2 }).1
          with stall_count_ := 0 } true).1 = false ∧
    (shrink_checks 1 2 10 [1000, 2000, 3000]
        { (try_scale_thread_pool 1 2 0
            { base_thread_count_ := 2, worker_count_ := 2, stall_count_ := 3,
              session_count_ := 3, global_thread_count := 2 }).1
          with stall_count_ := 0 }).worker_count_ = 3 ∧
    (shrink_checks 1 2 10 [1000, 2000, 3000]
        { base_thread_count_ := 2, worker_count_ := 4, stall_count_ := 0,
          session_count_ := 3, global_thread_count := 4 }).worker_count_ = 4 := by
  decide

/-- C10 (amended): with `base_thread_count = 2` and `prefer = 4`, once
`stall_count = 0` and `now - last_scale_time > shrink_time` at every check,
the shrink checks of the dynamic worker threads bring `worker_count` down to
`prefer = 4` when it is above 4 (one worker per check that returns true) and
leave it unchanged when it is at most 4, as it is after the stall-driven
scale-up. -/
theorem shrink_checks_reach_prefer (v : Int) (shrink_time : Nat) (nows : List Int) :
    ∀ (g : CmtEpoll), g.base_thread_count_ = 2 → g.stall_count_ = 0 →
      (∀ now ∈ nows, now - g.last_scale_time_ > (shrink_time : Int)) →
      (g.worker_count_ - 4).toNat ≤ nows.length →
      (shrink_checks v 2 shrink_time nows g).worker_count_ = min g.worker_count_ 4 := by
  induction nows with
  | nil =>
    intro g _ _ _ hlen
    have : g.worker_count_ ≤ 4 := by simp at hlen; omega
    simp [shrink_checks, this]
  | cons now rest ih =>
    intro g hbase hstall htime hlen
    have hnow := htime now (List.mem_cons_self _ _)
    have hrest : ∀ n ∈ rest, n - g.last_scale_time_ > (shrink_time : Int) :=
      fun n hn => htime n (List.mem_cons_of_mem _ hn)
    have hth : 0 ≤ clamp v 0 (g.base_thread_count_ - 1) :=
      clamp_nonneg v _ (by omega)
    have hp : prefer_thread_count 2 g.base_thread_count_ = 4 := by
      rw [hbase]
      decide
    simp only [shrink_checks]
    rw [shrink_thread_pool_worker_eq, hp]
    by_cases hc : g.stall_count_ <
          g.worker_count_ - g.base_thread_count_ + clamp v 0 (g.base_thread_count_ - 1) ∧
        now - g.last_scale_time_ > (shrink_time : Int) ∧
        g.worker_count_ > 4 ∧
        g.stall_count_ < 4 - 1
    · rw [if_pos hc]
      have hw : g.worker_count_ > 4 := hc.2.2.1
      have hlen' : (g.worker_count_ - 1 - 4).toNat ≤ rest.length := by
        simp only [List.length_cons] at hlen
        omega
      have := ih { g with worker_count_ := g.worker_count_ - 1,
                          global_thread_count := g.global_thread_count - 1 }
        hbase hstall hrest hlen'
      rw [this]
      show min (g.worker_count_ - 1) 4 = min g.worker_count_ 4
      omega
    · rw [if_neg hc]
      have hw : g.worker_count_ ≤ 4 := by
        by_contra hgt
        apply hc
        rw [hbase, hstall] at *
        refine ⟨by omega, hnow, by omega, by omega⟩
      exact ih g hbase hstall hrest (by omega)

/-- Witness for `shrink_checks_reach_prefer`: two checks on the 3 workers
left by the scale-up change nothing. -/
theorem shrink_checks_reach_prefer_witness :
    (shrink_checks 1 2 10 [1000, 2000]
        { base_thread_count_ := 2, worker_count_ := 3, stall_count_ := 0,
          session_count_ := 3, global_thread_count := 3 }).worker_count_ = min 3 4 :=
  shrink_checks_reach_prefer 1 10 [1000, 2000]
    { base_thread_count_ := 2, worker_count_ := 3, stall_count_ := 0,
      session_count_ := 3, global_thread_count := 3 }
    (by decide) (by decide) (by decide) (by decide)

/-! ## Taskers, forced scaling, watchdog -/

/-- C11 as stated fails: with 2 workers, no tasker, 5 queued tasks, 3
sessions, `M = 2` and step 4, `balance_tasker` decides to spawn and starts 1
tasker, where `min(step, ceil((pending - workers - taskers) / M))` is 2. -/
theorem balance_tasker_not_ceil :
    (balance_tasker 2 4 false 100
        { base_thread_count_ := 2, worker_count_ := 2, session_count_ := 3,
          global_thread_count := 2,
          work_queue_ := { capacity_ := 128, items := List.replicate 5 ⟨0, 1, 0, 1⟩ } }).map
      (fun r => (r.2, r.1.tasker_count_, r.1.global_thread_count)) =
      some ([Event.thread 999 false (-1) false false], 1, 3) ∧
    tasker_extend_ceil 4 2 5 2 0 = 2 := by
  decide

/-- C11 (amended): in every state in which `balance_tasker` decides to spawn
(`pending*2 > capacity` or `pending > M*(workers+taskers)`, and
`workers+taskers < min(session_count, pending)`, with `M ≥ 1` and
`step ≥ 1`), it returns, and the number of tasker threads it starts, and the
amount added to `tasker_count_` and to `global_thread_count`, is exactly
`min(step, max(1, floor((pending - workers - taskers) / M)))`;
`worker_count_` is unchanged. -/
theorem balance_tasker_spawn_count (M step : Nat) (enable : Bool) (now : Int)
    (g : CmtEpoll) (hM : 1 ≤ M) (hstep : 1 ≤ step)
    (htrigger : g.work_queue_.length * 2 > g.work_queue_.capacity ∨
      (g.work_queue_.length : Int) > (M : Int) * (g.worker_count_ + g.tasker_count_))
    (hroom : g.worker_count_ + g.tasker_count_ <
      min g.session_count_ (g.work_queue_.length : Int)) :
    (balance_tasker M step enable now g).map
        (fun r => (r.2, r.1.tasker_count_, r.1.global_thread_count, r.1.worker_count_)) =
      some (List.replicate
              (tasker_extend_floor step M g.work_queue_.length g.worker_count_ g.tasker_count_)
              (Event.thread 999 false (-1) enable false),
            g.tasker_count_ +
              tasker_extend_floor step M g.work_queue_.length g.worker_count_ g.tasker_count_,
            g.global_thread_count +
              tasker_extend_floor step M g.work_queue_.length g.worker_count_ g.tasker_count_,
            g.worker_count_) := by
  have hlow1 : (1 : Int) ≤ ((if M / 2 < 1 then 1 else M / 2 : Nat) : Int) := by
    split_ifs <;> omega
  have hlowM : ((if M / 2 < 1 then 1 else M / 2 : Nat) : Int) ≤ (M : Int) := by
    split_ifs <;> omega
  have hs : g.worker_count_ + g.tasker_count_ < g.session_count_ := by
    have := min_le_left g.session_count_ (g.work_queue_.length : Int); omega
  have hp : g.worker_count_ + g.tasker_count_ < (g.work_queue_.length : Int) := by
    have := min_le_right g.session_count_ (g.work_queue_.length : Int); omega
  have h1 : g.work_queue_.length * 2 > g.work_queue_.capacity ∨
      (g.work_queue_.length : Int) >
        ((if M / 2 < 1 then 1 else M / 2 : Nat) : Int) * (g.worker_count_ + g.tasker_count_) := by
    rcases htrigger with h | h
    · exact Or.inl h
    · right
      by_cases hneg : g.worker_count_ + g.tasker_count_ < 0
      · have : ((if M / 2 < 1 then 1 else M / 2 : Nat) : Int) *
            (g.worker_count_ + g.tasker_count_) < 0 :=
          mul_neg_of_pos_of_neg (by omega) hneg
        omega
      · have : ((if M / 2 < 1 then 1 else M / 2 : Nat) : Int) *
            (g.worker_count_ + g.tasker_count_) ≤
              (M : Int) * (g.worker_count_ + g.tasker_count_) :=
          mul_le_mul_of_nonneg_right hlowM (by omega)
        omega
  have h2 : ¬ (g.work_queue_.length * 2 ≤ g.work_queue_.capacity ∧
      (g.work_queue_.length : Int) ≤ (M : Int) * (g.worker_count_ + g.tasker_count_)) := by
    rintro ⟨ha, hb⟩
    rcases htrigger with h | h <;> omega
  have h4 : M ≠ 0 := by omega
  unfold balance_tasker
  simp only [h1, h2, hs, hp, h4, and_self, if_true, if_false, Option.map_some',
    tasker_extend_floor]
  have hext : (if (if ((g.work_queue_.length : Int) - g.worker_count_ -
        g.tasker_count_).toNat / M = 0 then 1
        else ((g.work_queue_.length : Int) - g.worker_count_ - g.tasker_count_).toNat / M) > step
      then step
      else (if ((g.work_queue_.length : Int) - g.worker_count_ - g.tasker_count_).toNat / M = 0
        then 1
        else ((g.work_queue_.length : Int) - g.worker_count_ - g.tasker_count_).toNat / M)) =
      min step (max 1 (((g.work_queue_.length : Int) - g.worker_count_ -
        g.tasker_count_).toNat / M)) := by
    generalize ((g.work_queue_.length : Int) - g.worker_count_ - g.tasker_count_).toNat / M = e
    split_ifs <;> omega
  rw [hext]

/-- Witness for `balance_tasker_spawn_count`: 2 workers, 9 queued tasks, 5
sessions, `M = 2`, step 4: 3 taskers are started. -/
theorem balance_tasker_spawn_count_witness :
    (balance_tasker 2 4 false 100
        { base_thread_count_ := 2, worker_count_ := 2, session_count_ := 5,
          global_thread_count := 2,
          work_queue_ := { capacity_ := 128, items := List.replicate 9 ⟨0, 1, 0, 1⟩ } }).map
      (fun r => (r.2, r.1.tasker_count_, r.1.global_thread_count, r.1.worker_count_)) =
      some (List.replicate 3 (Event.thread 999 false (-1) false false), 3, 5, 2) :=
  (balance_tasker_spawn_count 2 4 false 100
    { base_thread_count_ := 2, worker_count_ := 2, session_count_ := 5,
      global_thread_count := 2,
      work_queue_ := { capacity_ := 128, items := List.replicate 9 ⟨0, 1, 0, 1⟩ } }
    (by decide) (by decide) (by decide) (by decide)).trans (by decide)

/-- C12: `force_scale_thread_pool` honours the cap whatever the stall
count: it adds exactly one worker (counter, global counter and one worker
thread) when `worker_count_ < session_count_ + base_thread_count_` at entry
and none otherwise, so `worker_count_ ≤ session_count_ + base_thread_count_`
is preserved; `last_scale_time_` is `now` in both cases. -/
theorem force_scale_thread_pool_spec (now : Int) (g : CmtEpoll) :
    force_scale_thread_pool now g =
      (if g.worker_count_ < g.session_count_ + g.base_thread_count_ then
        ({ g with last_scale_time_ := now,
                  worker_count_ := g.worker_count_ + 1,
                  global_thread_count := g.global_thread_count + 1 }, [worker_thread])
       else ({ g with last_scale_time_ := now }, [])) ∧
    (force_scale_thread_pool now g).1.last_scale_time_ = now ∧
    (g.worker_count_ ≤ g.session_count_ + g.base_thread_count_ →
      (force_scale_thread_pool now g).1.worker_count_ ≤
        (force_scale_thread_pool now g).1.session_count_ +
          (force_scale_thread_pool now g).1.base_thread_count_) := by
  by_cases h : g.worker_count_ < g.session_count_ + g.base_thread_count_
  · have h' : ¬ (g.worker_count_ ≥ g.session_count_ + g.base_thread_count_) := by omega
    refine ⟨?_, ?_, ?_⟩
    · simp only [force_scale_thread_pool, h, h', if_true, if_false, add_worker]
    · simp only [force_scale_thread_pool, h', if_false, add_worker]
    · intro _
      simp only [force_scale_thread_pool, h', if_false, add_worker]
      omega
  · have h' : g.worker_count_ ≥ g.session_count_ + g.base_thread_count_ := by omega
    refine ⟨?_, ?_, ?_⟩
    · simp only [force_scale_thread_pool, h, h', if_true, if_false]
    · simp only [force_scale_thread_pool, h', if_true]
    · intro hc
      simp only [force_scale_thread_pool, h', if_true]
      exact hc

/-- C13 as stated fails: with the head where the previous call saw it and
one task queued, the watchdog reports a stall although a thread is waiting;
with the queue empty, no waiter and `loop_cnt` unchanged it reports a stall
although the queue is empty. -/
theorem worker_stall_not_all_four :
    (worker_stall_since_last_check
        { work_queue_ := { capacity_ := 4, items := [⟨0, 1, 0, 1⟩] }, wait_cnt_ := 1 }).1 = true ∧
    stall_all_four
        { work_queue_ := { capacity_ := 4, items := [⟨0, 1, 0, 1⟩] }, wait_cnt_ := 1 } = false ∧
    (worker_stall_since_last_check { work_queue_ := { capacity_ := 4 } }).1 = true ∧
    stall_all_four { work_queue_ := { capacity_ := 4 } } = false := by
  decide

/-- C13 (amended): `worker_stall_since_last_check` returns true exactly when
the queue head equals the head recorded by the previous call and either the
queue is non-empty (head != tail), or `wait_cnt` is not positive and
`loop_cnt` equals the value recorded by the previous call; in every other
state it returns false. -/
theorem worker_stall_since_last_check_iff (g : CmtEpoll) :
    (worker_stall_since_last_check g).1 = true ↔
      g.work_queue_.head = g.last_head_ ∧
      (g.work_queue_.head ≠ g.work_queue_.tail ∨
        (¬ g.wait_cnt_ > 0 ∧ g.loop_cnt_ = g.last_loop_)) := by
  unfold worker_stall_since_last_check
  simp only
  split_ifs with h1 h2 h3 h4 <;>
    simp only [Bool.false_eq_true, false_iff, true_iff] <;> tauto

/-! ## Timers -/

theorem wrap_int64_of_range (x : Int) (hlo : -2 ^ 63 ≤ x) (hhi : x < 2 ^ 63) :
    wrap_int64 x = x := by
  unfold wrap_int64
  norm_num at hlo hhi ⊢
  omega

/-- A representable value is the result of the `int64_t` operation. -/
theorem int64_checked_of_range (x : Int) (hlo : -9223372036854775808 ≤ x)
    (hhi : x ≤ 9223372036854775807) : int64_checked x = some x := by
  unfold int64_checked
  rw [if_pos ⟨hlo, hhi⟩]

/-- C15 as stated fails: with an empty heap and the largest 64-bit trigger
time, the sentinel `trigger_time + 1` is a signed overflow, which C++ leaves
undefined: the call has no defined result, and an optimising build need not
make the notifier write. -/
theorem push_trigger_overflows_at_largest :
    push_trigger {} ⟨0, 1, 0, 1⟩ 9223372036854775807 = none ∧
    int64_checked (9223372036854775807 + 1) = none := by
  decide

/-- C15 (amended): when the timer heap is empty before the call,
`push_trigger(task, t)` writes to the notifier (once) for every 64-bit
trigger time `t` below the largest one, `t < 2^63 - 1`, for which the
sentinel `t + 1` is representable; afterwards the heap holds exactly the
task, with trigger time `t`. -/
theorem push_trigger_empty_heap (g : CmtEpoll) (task : task_t) (t : Int)
    (hempty : g.timer_heap_.entries = []) (hlo : -9223372036854775808 ≤ t)
    (hhi : t < 9223372036854775807) :
    ∃ r, push_trigger g task t = some r ∧
      r.2 = [Event.eventfd_write] ∧
      r.1.timer_heap_.entries =
        [{ task := task, trigger_time := t, id := g.timer_heap_.next_id }] ∧
      r.1.timer_heap_.peak = some t := by
  have hpeak : g.timer_heap_.peak = none := by
    simp [CtimerHeap.peak, hempty, CtimerHeap.earliest]
  have h1 : int64_checked (t + 1) = some (t + 1) :=
    int64_checked_of_range _ (by omega) (by omega)
  have h2 : int64_checked (t + 1 - t) = some 1 := by
    have : t + 1 - t = 1 := by omega
    rw [this]
    exact int64_checked_of_range _ (by decide) (by decide)
  unfold push_trigger
  simp only [hpeak, h1, h2]
  refine ⟨_, rfl, by simp, ?_, ?_⟩
  · simp [CtimerHeap.push, hempty]
  · simp [CtimerHeap.push, hempty, CtimerHeap.peak, CtimerHeap.earliest]

/-- Witness for `push_trigger_empty_heap`: the largest trigger time for
which the sentinel is representable. -/
theorem push_trigger_empty_heap_witness :
    ∃ r, push_trigger {} ⟨0, 1, 0, 1⟩ 9223372036854775806 = some r ∧
      r.2 = [Event.eventfd_write] ∧
      r.1.timer_heap_.entries =
        [{ task := ⟨0, 1, 0, 1⟩, trigger_time := 9223372036854775806,
           id := ({} : CmtEpoll).timer_heap_.next_id }] ∧
      r.1.timer_heap_.peak = some 9223372036854775806 :=
  push_trigger_empty_heap {} ⟨0, 1, 0, 1⟩ 9223372036854775806 (by decide) (by decide)
    (by decide)

theorem CtimerHeap.earliest_eq_none (l : List timer_entry) :
    CtimerHeap.earliest l = none ↔ l = [] := by
  cases l with
  | nil => simp [CtimerHeap.earliest]
  | cons e rest =>
    simp only [CtimerHeap.earliest]
    split
    · simp
    · split_ifs <;> simp

/-- The entry `earliest` returns is in the list and no entry triggers
before it. -/
theorem CtimerHeap.earliest_some (l : List timer_entry) :
    ∀ m, CtimerHeap.earliest l = some m →
      m ∈ l ∧ ∀ x ∈ l, m.trigger_time ≤ x.trigger_time := by
  induction l with
  | nil => intro m h; simp [CtimerHeap.earliest] at h
  | cons e rest ih =>
    intro m h
    simp only [CtimerHeap.earliest] at h
    split at h
    · rename_i hnone
      have hnil := (CtimerHeap.earliest_eq_none rest).mp hnone
      cases h
      subst hnil
      simp
    · rename_i m' hsome
      obtain ⟨hm', hmin⟩ := ih m' hsome
      split_ifs at h with hle
      · cases h
        refine ⟨List.mem_cons_self _ _, ?_⟩
        intro x hx
        rcases List.mem_cons.mp hx with rfl | hx
        · exact le_refl _
        · exact le_trans hle (hmin x hx)
      · cases h
        refine ⟨List.mem_cons_of_mem _ hm', ?_⟩
        intro x hx
        rcases List.mem_cons.mp hx with rfl | hx
        · omega
        · exact hmin x hx

/-- The pops of line 449 take out the due entries, earliest first, and
leave the others. -/
theorem pop_due_loop_spec (now : Int) :
    ∀ (fuel : Nat) (h : CtimerHeap), h.entries.length ≤ fuel →
      ((pop_due_loop now fuel h).1).Pairwise (fun a b => a.trigger_time ≤ b.trigger_time) ∧
      ((pop_due_loop now fuel h).1 ++ (pop_due_loop now fuel h).2.entries).Perm h.entries ∧
      (∀ e ∈ (pop_due_loop now fuel h).1, e.trigger_time ≤ now) ∧
      (∀ e ∈ (pop_due_loop now fuel h).2.entries, now < e.trigger_time) := by
  intro fuel
  induction fuel with
  | zero =>
    intro h hlen
    have hnil : h.entries = [] := List.length_eq_zero.mp (Nat.le_zero.mp hlen)
    simp [pop_due_loop, hnil]
  | succ n ih =>
    intro h hlen
    simp only [pop_due_loop, CtimerHeap.pop]
    cases hearl : CtimerHeap.earliest h.entries with
    | none =>
      have hnil := (CtimerHeap.earliest_eq_none _).mp hearl
      simp [hnil]
    | some m =>
      obtain ⟨hmem, hmin⟩ := CtimerHeap.earliest_some _ m hearl
      by_cases hdue : m.trigger_time ≤ now
      · simp only [hdue, if_true]
        have hlen1 : ({ h with entries := h.entries.erase m } : CtimerHeap).entries.length ≤ n := by
          simp only [List.length_erase_of_mem hmem]
          omega
        obtain ⟨hs, hp, hle, hgt⟩ := ih { h with entries := h.entries.erase m } hlen1
        have hperm : (m :: ((pop_due_loop now n { h with entries := h.entries.erase m }).1 ++
            (pop_due_loop now n { h with entries := h.entries.erase m }).2.entries)).Perm
            h.entries :=
          (List.Perm.cons m hp).trans (List.perm_cons_erase hmem).symm
        refine ⟨?_, ?_, ?_, hgt⟩
        · refine List.Pairwise.cons ?_ hs
          intro b hb
          apply hmin
          exact List.mem_of_mem_erase (hp.subset (List.mem_append_left _ hb))
        · simpa using hperm
        · intro e he
          rcases List.mem_cons.mp he with rfl | he
          · exact hdue
          · exact hle e he
      · simp only [hdue, if_false]
        refine ⟨List.Pairwise.nil, by simp, by simp, ?_⟩
        intro e he
        have := hmin e he
        show now < e.trigger_time
        omega

set_option maxRecDepth 100000 in
/-- Three timers armed at 1050, 1010 and 1030 and run at 1060. -/
theorem timers_50_10_30_order :
    ((push_trigger {} ⟨0, 50, 0, 51⟩ 1050).bind (fun r1 =>
      (push_trigger r1.1 ⟨0, 10, 0, 11⟩ 1010).bind (fun r2 =>
        push_trigger r2.1 ⟨0, 30, 0, 31⟩ 1030))).map
        (fun r3 => (run_due_timers r3.1 true 1060).1) =
      some [Event.run 10 0, Event.del 11 0, Event.run 30 0, Event.del 31 0,
        Event.run 50 0, Event.del 51 0] := by
  decide

/-- C16: in the run-due-timers phase the thread that gets the timer lock
takes out of the heap exactly the entries with `trigger_time ≤ now`, leaves
every entry with `trigger_time > now`, and after the unlock runs the removed
tasks in ascending trigger-time order, each as `call` followed by `fin`; a
thread that does not get the lock does nothing.  Timers armed at +50, +10
and +30 ms run in the order 10, 30, 50. -/
theorem run_due_timers_spec (g : CmtEpoll) (now : Int) :
    (∃ popped : List timer_entry,
      (run_due_timers g true now).1 = popped.flatMap (fun e => e.task.call ++ e.task.fin) ∧
      popped.Pairwise (fun a b => a.trigger_time ≤ b.trigger_time) ∧
      popped.Perm (g.timer_heap_.entries.filter (fun e => decide (e.trigger_time ≤ now))) ∧
      (run_due_timers g true now).2.timer_heap_.entries.Perm
        (g.timer_heap_.entries.filter (fun e => decide (now < e.trigger_time)))) ∧
    run_due_timers g false now = ([], g) ∧
    ((push_trigger {} ⟨0, 50, 0, 51⟩ 1050).bind (fun r1 =>
      (push_trigger r1.1 ⟨0, 10, 0, 11⟩ 1010).bind (fun r2 =>
        push_trigger r2.1 ⟨0, 30, 0, 31⟩ 1030))).map
        (fun r3 => (run_due_timers r3.1 true 1060).1) =
      some [Event.run 10 0, Event.del 11 0, Event.run 30 0, Event.del 31 0,
        Event.run 50 0, Event.del 51 0] := by
  refine ⟨?_, by simp [run_due_timers], timers_50_10_30_order⟩
  obtain ⟨hs, hp, hle, hgt⟩ :=
    pop_due_loop_spec now g.timer_heap_.entries.length g.timer_heap_ (le_refl _)
  refine ⟨(pop_due_loop now g.timer_heap_.entries.length g.timer_heap_).1, ?_, hs, ?_, ?_⟩
  · simp [run_due_timers, run_timer_tasks, List.flatMap_map]
  · have h1 := hp.filter (fun e => decide (e.trigger_time ≤ now))
    rw [List.filter_append] at h1
    have h2 : (pop_due_loop now g.timer_heap_.entries.length g.timer_heap_).1.filter
        (fun e => decide (e.trigger_time ≤ now)) =
        (pop_due_loop now g.timer_heap_.entries.length g.timer_heap_).1 := by
      rw [List.filter_eq_self]
      intro e he
      simpa using hle e he
    have h3 : (pop_due_loop now g.timer_heap_.entries.length g.timer_heap_).2.entries.filter
        (fun e => decide (e.trigger_time ≤ now)) = [] := by
      rw [List.filter_eq_nil_iff]
      intro e he
      have := hgt e he
      simp only [decide_eq_true_eq]
      omega
    rw [h2, h3, List.append_nil] at h1
    exact h1
  · have h1 := hp.filter (fun e => decide (now < e.trigger_time))
    rw [List.filter_append] at h1
    have h2 : (pop_due_loop now g.timer_heap_.entries.length g.timer_heap_).1.filter
        (fun e => decide (now < e.trigger_time)) = [] := by
      rw [List.filter_eq_nil_iff]
      intro e he
      have := hle e he
      simp only [decide_eq_true_eq]
      omega
    have h3 : (pop_due_loop now g.timer_heap_.entries.length g.timer_heap_).2.entries.filter
        (fun e => decide (now < e.trigger_time)) =
        (pop_due_loop now g.timer_heap_.entries.length g.timer_heap_).2.entries := by
      rw [List.filter_eq_self]
      intro e he
      simpa using hgt e he
    rw [h2, h3, List.nil_append] at h1
    simpa [run_due_timers] using h1

/-- C17, the code at the failing input: with `epoll_timeout = 1000`, the
timer lock held and the earliest trigger `2^32` ms after `now`, the timeout
handed to the wait is 0, where `min(c, max(0, e - now))` is 1000. -/
theorem wait_timeout_truncates :
    wait_timeout 1000 true { entries := [{ task := {}, trigger_time := 2 ^ 32 }] } 0 = 0 ∧
    wait_timeout_spec 1000 true
      (CtimerHeap.peak { entries := [{ task := {}, trigger_time := 2 ^ 32 }] }) 0 = 1000 := by
  decide

/-- The timeout is the spec's whenever the earliest trigger is less than
`2^32` ms ahead (and the difference is representable in 64 bits), and
whenever the thread has no timer lock. -/
theorem wait_timeout_eq_spec (epoll_timeout : Nat) (try_lock : Bool) (h : CtimerHeap)
    (now : Int)
    (hrange : ∀ e, h.peak = some e → -2 ^ 63 ≤ e - now ∧ e - now < 2 ^ 32) :
    (wait_timeout epoll_timeout try_lock h now : Int) =
      wait_timeout_spec epoll_timeout try_lock h.peak now := by
  unfold wait_timeout wait_timeout_spec clamp MAX_EPOLL_TIMEOUT
  cases try_lock with
  | false =>
    simp only [Bool.false_eq_true, if_false]
    split_ifs <;> omega
  | true =>
    simp only [if_true]
    cases hp : h.peak with
    | none =>
      simp only
      split_ifs <;> omega
    | some e =>
      obtain ⟨hlo, hhi⟩ := hrange e hp
      have hw : wrap_int64 (e - now) = e - now :=
        wrap_int64_of_range _ hlo (by norm_num at hhi ⊢; omega)
      simp only [hw]
      norm_num at hlo hhi ⊢
      split_ifs <;> omega

/-! ## Group construction -/

/-- The code's rounded-up quotient `a / b + (0 == a % b ? 0 : 1)` is the
least `k` with `a ≤ k * b`. -/
theorem div_round_up_spec (a b : Nat) (hb : 0 < b) :
    a ≤ (a / b + (if a % b = 0 then 0 else 1)) * b ∧
    ∀ j, a ≤ j * b → a / b + (if a % b = 0 then 0 else 1) ≤ j := by
  have hdm := Nat.div_add_mod a b
  have hmod := Nat.mod_lt a hb
  constructor
  · split_ifs with h
    · rw [h] at hdm
      rw [Nat.add_zero, Nat.mul_comm]
      omega
    · rw [Nat.add_mul, Nat.one_mul, Nat.mul_comm]
      omega
  · intro j hj
    by_contra hlt
    have hjq : j ≤ a / b + (if a % b = 0 then 0 else 1) - 1 := by omega
    split_ifs at hjq hlt with h
    · have h1 : j + 1 ≤ a / b := by omega
      have h2 : (j + 1) * b ≤ a / b * b := Nat.mul_le_mul_right b h1
      have h3 : a / b * b ≤ a := Nat.div_mul_le_self a b
      rw [Nat.add_mul, Nat.one_mul] at h2
      omega
    · have h1 : j ≤ a / b := by omega
      have h2 : j * b ≤ a / b * b := Nat.mul_le_mul_right b h1
      have h3 : b * (a / b) = a / b * b := Nat.mul_comm _ _
      have h4 : 0 < a % b := Nat.pos_of_ne_zero h
      omega

theorem div_round_up_eq_ceil_div (a b : Nat) (hb : 0 < b) :
    a / b + (if a % b = 0 then 0 else 1) = ceil_div a b := by
  obtain ⟨h1, h2⟩ := div_round_up_spec a b hb
  unfold ceil_div
  apply le_antisymm
  · rw [Nat.le_div_iff_mul_le hb]
    have hdm := Nat.div_add_mod a b
    have hmod := Nat.mod_lt a hb
    split_ifs with h
    · rw [h] at hdm
      rw [Nat.add_zero, Nat.mul_comm]
      omega
    · have h4 : 0 < a % b := Nat.pos_of_ne_zero h
      rw [Nat.add_mul, Nat.one_mul, Nat.mul_comm]
      omega
  · have hlt : (a + b - 1) / b < a / b + (if a % b = 0 then 0 else 1) + 1 := by
      rw [Nat.div_lt_iff_lt_mul hb, Nat.add_mul, Nat.one_mul]
      omega
    omega

/-- C18 as stated fails: with `epoll_groups = 4` and `epoll_extra_groups =
2` four groups are created, where `min(128, base_groups +
min(epoll_extra_groups, 32))` is 6; and in automatic mode with 1 core, 1
thread per group, `min_auto_epoll_groups = 2^32 - 1` and 32 extra groups the
32-bit sum `(2^32 - 1) + 32` is 31, and 31 groups are created, not 128. -/
theorem get_instance_groups_explicit_no_extra :
    get_instance_groups 4 4 8 1 2 = some (4, 4) ∧ groups_spec 4 2 = 6 ∧
    get_instance_groups 1 0 1 4294967295 32 = some (128, 31) ∧
    groups_spec 4294967295 32 = 128 := by
  decide

/-- C18 (amended): in automatic mode (`epoll_groups = 0`) the number of
groups created is `min(128, (base_groups + min(epoll_extra_groups, 32)) mod
2^32)`, `base_groups` being the base group count before the extra groups are
added: that is `min(128, base_groups + min(epoll_extra_groups, 32))` whenever
the sum is below `2^32`; with `epoll_groups > 0` it is `min(128,
epoll_groups)` and no extra group is added.  In both cases the base group
count is clamped to 128 as well. -/
theorem get_instance_groups_eq (threads epoll_groups cores min_auto_epoll_groups
    epoll_extra_groups : Nat) :
    get_instance_groups threads epoll_groups cores min_auto_epoll_groups
        epoll_extra_groups =
      (if epoll_groups = 0 then
        (auto_base_groups threads cores min_auto_epoll_groups).map
          (fun base_groups =>
            (min 128 base_groups,
             min 128 (wrap_uint32 (base_groups + min epoll_extra_groups 32))))
      else some (min 128 epoll_groups, min 128 epoll_groups)) ∧
    (epoll_groups = 0 → ∀ base_groups,
      auto_base_groups threads cores min_auto_epoll_groups = some base_groups →
      base_groups + min epoll_extra_groups 32 < 4294967296 →
      get_instance_groups threads epoll_groups cores min_auto_epoll_groups
          epoll_extra_groups =
        some (min 128 base_groups, groups_spec base_groups epoll_extra_groups)) := by
  have hmain : get_instance_groups threads epoll_groups cores min_auto_epoll_groups
        epoll_extra_groups =
      (if epoll_groups = 0 then
        (auto_base_groups threads cores min_auto_epoll_groups).map
          (fun base_groups =>
            (min 128 base_groups,
             min 128 (wrap_uint32 (base_groups + min epoll_extra_groups 32))))
      else some (min 128 epoll_groups, min 128 epoll_groups)) := by
    unfold get_instance_groups get_instance_groups_raw MAX_EPOLL_GROUPS
      MAX_EPOLL_EXTRA_GROUPS
    by_cases h0 : epoll_groups = 0
    · subst h0
      simp only [le_refl, if_true]
      cases auto_base_groups threads cores min_auto_epoll_groups with
      | none => rfl
      | some b =>
        have hextra : (if epoll_extra_groups > 32 then 32 else epoll_extra_groups) =
            min epoll_extra_groups 32 := by
          split_ifs <;> omega
        simp only [Option.map_some', Option.some.injEq, Prod.mk.injEq, hextra]
        generalize wrap_uint32 (b + min epoll_extra_groups 32) = w
        constructor
        · split_ifs <;> omega
        · split_ifs <;> omega
    · have h1 : ¬ epoll_groups ≤ 0 := by omega
      simp only [h0, h1, if_false, Option.map_some', Option.some.injEq, Prod.mk.injEq]
      constructor <;> split_ifs <;> omega
  refine ⟨hmain, ?_⟩
  intro h0 b hb hsum
  rw [hmain, if_pos h0, hb]
  simp only [Option.map_some', groups_spec, wrap_uint32, Nat.mod_eq_of_lt hsum]

/-- C19 as stated fails: in automatic mode with 2 usable cores, 1 thread per
group and `min_auto_epoll_groups = 2^32 - 1`, the rounded-up count `2^31`
times 2 groups is `2^32`, which is 0 in 32 bits: the base group count is 0,
below 1 and below `min_auto_epoll_groups`. -/
theorem auto_base_groups_wraps :
    auto_base_groups (get_instance_threads 1) 2 4294967295 = some 0 ∧
    (get_instance_groups (get_instance_threads 1) 0 2 4294967295 0).map Prod.fst = some 0 ∧
    ceil_div 2 (get_instance_threads 1) = 2 := by
  decide

/-- C19 (amended): in automatic mode with at least one usable core, `threads
= clamp(epoll_threads_per_group, 1, 128)`, `min_auto_epoll_groups ≥ 1` and
`ceil(usable_cores / threads) + min_auto_epoll_groups ≤ 2^32` (so that the
32-bit product of line 632 does not wrap), no division by zero occurs; the
base group count before the clamp is at least `ceil(usable_cores / threads)`
and at least `min_auto_epoll_groups`, equals `ceil(usable_cores / threads)`
when that is already `≥ min_auto_epoll_groups`, and otherwise is the
smallest multiple of it that is `≥ min_auto_epoll_groups`; after the clamp
`1 ≤ base_groups ≤ 128`. -/
theorem auto_base_groups_spec (epoll_threads_per_group cores min_auto_epoll_groups
    epoll_extra_groups : Nat) (hcores : 1 ≤ cores) (hmin : 1 ≤ min_auto_epoll_groups)
    (hwrap : ceil_div cores (get_instance_threads epoll_threads_per_group) +
      min_auto_epoll_groups ≤ 4294967296) :
    (get_instance_threads epoll_threads_per_group : Int) =
      clamp epoll_threads_per_group 1 128 ∧
    ∃ b, auto_base_groups (get_instance_threads epoll_threads_per_group) cores
        min_auto_epoll_groups = some b ∧
      ceil_div cores (get_instance_threads epoll_threads_per_group) ≤ b ∧
      min_auto_epoll_groups ≤ b ∧
      (min_auto_epoll_groups ≤ ceil_div cores (get_instance_threads epoll_threads_per_group) →
        b = ceil_div cores (get_instance_threads epoll_threads_per_group)) ∧
      (ceil_div cores (get_instance_threads epoll_threads_per_group) < min_auto_epoll_groups →
        ceil_div cores (get_instance_threads epoll_threads_per_group) ∣ b ∧
        ∀ k, ceil_div cores (get_instance_threads epoll_threads_per_group) ∣ k →
          min_auto_epoll_groups ≤ k → b ≤ k) ∧
      (get_instance_groups (get_instance_threads epoll_threads_per_group) 0 cores
          min_auto_epoll_groups epoll_extra_groups).map Prod.fst = some (min 128 b) ∧
      1 ≤ min 128 b ∧ min 128 b ≤ 128 := by
  have hthreads : 1 ≤ get_instance_threads epoll_threads_per_group := by
    unfold get_instance_threads MAX_EPOLL_THREADS_PER_GROUP
    split_ifs <;> omega
  refine ⟨?_, ?_⟩
  · unfold get_instance_threads MAX_EPOLL_THREADS_PER_GROUP clamp
    split_ifs <;> omega
  generalize get_instance_threads epoll_threads_per_group = threads at hthreads hwrap ⊢
  have hceil := div_round_up_eq_ceil_div cores threads hthreads
  obtain ⟨hc1, hc2⟩ := div_round_up_spec cores threads hthreads
  rw [hceil] at hc1 hc2
  have hcpos : 1 ≤ ceil_div cores threads := by
    by_contra h0
    have : ceil_div cores threads = 0 := by omega
    rw [this] at hc1
    omega
  generalize ceil_div cores threads = c at hcpos hceil hwrap ⊢
  obtain ⟨hm1, hm2⟩ := div_round_up_spec min_auto_epoll_groups c hcpos
  have hcw : wrap_uint32 c = c := Nat.mod_eq_of_lt (by omega)
  have hk : 1 ≤ min_auto_epoll_groups / c +
      (if min_auto_epoll_groups % c = 0 then 0 else 1) := by
    by_contra h0
    have h00 : min_auto_epoll_groups / c +
        (if min_auto_epoll_groups % c = 0 then 0 else 1) = 0 :=
      Nat.lt_one_iff.mp (not_le.mp h0)
    rw [h00] at hm1
    omega
  have hprod : (min_auto_epoll_groups / c +
      (if min_auto_epoll_groups % c = 0 then 0 else 1)) * c < min_auto_epoll_groups + c := by
    by_contra hge
    have hstep := hm2 (min_auto_epoll_groups / c +
      (if min_auto_epoll_groups % c = 0 then 0 else 1) - 1) (by
        rw [Nat.sub_mul, Nat.one_mul]
        omega)
    omega
  have hkc : min_auto_epoll_groups / c +
      (if min_auto_epoll_groups % c = 0 then 0 else 1) ≤
      (min_auto_epoll_groups / c +
        (if min_auto_epoll_groups % c = 0 then 0 else 1)) * c :=
    Nat.le_mul_of_pos_right _ hcpos
  have hkw : wrap_uint32 (min_auto_epoll_groups / c +
      (if min_auto_epoll_groups % c = 0 then 0 else 1)) =
      min_auto_epoll_groups / c + (if min_auto_epoll_groups % c = 0 then 0 else 1) :=
    Nat.mod_eq_of_lt (by omega)
  have hpw : wrap_uint32 ((min_auto_epoll_groups / c +
      (if min_auto_epoll_groups % c = 0 then 0 else 1)) * c) =
      (min_auto_epoll_groups / c +
        (if min_auto_epoll_groups % c = 0 then 0 else 1)) * c :=
    Nat.mod_eq_of_lt (by omega)
  have hauto : auto_base_groups threads cores min_auto_epoll_groups =
      if c < min_auto_epoll_groups then
        some ((min_auto_epoll_groups / c +
          (if min_auto_epoll_groups % c = 0 then 0 else 1)) * c)
      else some c := by
    unfold auto_base_groups
    have ht : threads ≠ 0 := by omega
    have hc0 : c ≠ 0 := by omega
    simp only [ht, if_false, hceil, hcw, hc0, hkw, hpw]
  have hraw : ∀ b, (Option.map
      (fun r : Nat × Nat =>
        (if r.1 > MAX_EPOLL_GROUPS then MAX_EPOLL_GROUPS else r.1,
         if r.2 > MAX_EPOLL_GROUPS then MAX_EPOLL_GROUPS else r.2))
      (some (b, wrap_uint32 (b +
        if epoll_extra_groups > MAX_EPOLL_EXTRA_GROUPS then MAX_EPOLL_EXTRA_GROUPS
        else epoll_extra_groups)))).map Prod.fst = some (min 128 b) := by
    intro b
    simp only [Option.map_some', MAX_EPOLL_GROUPS, Option.some.injEq]
    split_ifs <;> omega
  by_cases hlt : c < min_auto_epoll_groups
  · rw [if_pos hlt] at hauto
    refine ⟨_, hauto, ?_, hm1, fun h => absurd h (not_le.mpr hlt),
      fun _ => ⟨Dvd.intro_left _ rfl, ?_⟩, ?_, ?_, ?_⟩
    · calc c = 1 * c := (Nat.one_mul c).symm
        _ ≤ _ := Nat.mul_le_mul_right c hk
    · rintro k ⟨j, rfl⟩ hk'
      rw [Nat.mul_comm c j] at hk' ⊢
      exact Nat.mul_le_mul_right c (hm2 j hk')
    · simp only [get_instance_groups, get_instance_groups_raw, hauto, le_refl, if_true]
      exact hraw _
    · have := le_trans hmin hm1
      omega
    · omega
  · rw [if_neg hlt] at hauto
    refine ⟨c, hauto, le_refl _, by omega, fun _ => rfl, fun h => absurd h hlt, ?_, ?_, ?_⟩
    · simp only [get_instance_groups, get_instance_groups_raw, hauto, le_refl, if_true]
      exact hraw _
    · omega
    · omega

/-- Witness for `auto_base_groups_spec`: 9 usable cores, 4 threads per
group, at least 7 groups: 3 groups are rounded up to 9. -/
theorem auto_base_groups_spec_witness :
    auto_base_groups (get_instance_threads 4) 9 7 = some 9 ∧
    ∃ b, auto_base_groups (get_instance_threads 4) 9 7 = some b ∧
      ceil_div 9 (get_instance_threads 4) ≤ b ∧
      7 ≤ b ∧
      (7 ≤ ceil_div 9 (get_instance_threads 4) → b = ceil_div 9 (get_instance_threads 4)) ∧
      (ceil_div 9 (get_instance_threads 4) < 7 →
        ceil_div 9 (get_instance_threads 4) ∣ b ∧
        ∀ k, ceil_div 9 (get_instance_threads 4) ∣ k → 7 ≤ k → b ≤ k) ∧
      (get_instance_groups (get_instance_threads 4) 0 9 7 0).map Prod.fst = some (min 128 b) ∧
      1 ≤ min 128 b ∧ min 128 b ≤ 128 :=
  ⟨by decide, (auto_base_groups_spec 4 9 7 0 (by decide) (by decide) (by decide)).2⟩

/-- The greedy loop stops at `min(threads, floor(total / groups))`. -/
theorem epoll_wait_threads_loop_eq (threads groups total : Nat) (hg : 0 < groups) :
    ∀ (fuel per_group : Nat), per_group ≤ threads → per_group * groups ≤ total →
      threads - per_group ≤ fuel →
      epoll_wait_threads_loop threads groups total fuel per_group =
        min threads (total / groups) := by
  intro fuel
  induction fuel with
  | zero =>
    intro pg hle hmul hfuel
    have hpg : pg = threads := by omega
    subst hpg
    have : pg ≤ total / groups := (Nat.le_div_iff_mul_le hg).mpr hmul
    simp only [epoll_wait_threads_loop]
    omega
  | succ n ih =>
    intro pg hle hmul hfuel
    simp only [epoll_wait_threads_loop]
    have hdiv : pg ≤ total / groups := (Nat.le_div_iff_mul_le hg).mpr hmul
    by_cases hc : pg < threads ∧ (pg + 1) * groups ≤ total
    · rw [if_pos hc]
      exact ih (pg + 1) (by omega) hc.2 (by omega)
    · rw [if_neg hc]
      by_cases hlt : pg < threads
      · have hgt : ¬ (pg + 1) * groups ≤ total := fun h => hc ⟨hlt, h⟩
        have : total / groups < pg + 1 := by
          rw [Nat.div_lt_iff_lt_mul hg]
          omega
        omega
      · omega

/-- C20: with `groups ≥ 1`, `threads ≥ 1` (so also for `threads` in
`[1, 128]`) and `total` the waiter
budget after clamping and raising (`groups * threads` when
`max_epoll_wait_total_threads = 0`, else `clamp(max_epoll_wait_total_threads,
4, 128)`, then raised to at least `groups`), the greedy loop yields
`epoll_wait_threads_per_group = min(threads, floor(total / groups))`; hence
`1 ≤ per_group ≤ threads`, `per_group * groups ≤ total`, and `per_group =
threads` when `max_epoll_wait_total_threads = 0`. -/
theorem epoll_wait_threads_per_group_spec (max_epoll_wait_total_threads groups threads : Nat)
    (hgroups : 1 ≤ groups) (hthreads : 1 ≤ threads) :
    (total_epoll_wait_threads max_epoll_wait_total_threads groups threads : Int) =
      max (groups : Int)
        (if max_epoll_wait_total_threads = 0 then ((groups * threads : Nat) : Int)
         else clamp max_epoll_wait_total_threads 4 128) ∧
    epoll_wait_threads_per_group threads groups
        (total_epoll_wait_threads max_epoll_wait_total_threads groups threads) =
      min threads
        (total_epoll_wait_threads max_epoll_wait_total_threads groups threads / groups) ∧
    1 ≤ epoll_wait_threads_per_group threads groups
        (total_epoll_wait_threads max_epoll_wait_total_threads groups threads) ∧
    epoll_wait_threads_per_group threads groups
        (total_epoll_wait_threads max_epoll_wait_total_threads groups threads) ≤ threads ∧
    epoll_wait_threads_per_group threads groups
        (total_epoll_wait_threads max_epoll_wait_total_threads groups threads) * groups ≤
      total_epoll_wait_threads max_epoll_wait_total_threads groups threads ∧
    (max_epoll_wait_total_threads = 0 →
      epoll_wait_threads_per_group threads groups
        (total_epoll_wait_threads max_epoll_wait_total_threads groups threads) = threads) := by
  have htotal : groups ≤ total_epoll_wait_threads max_epoll_wait_total_threads groups threads := by
    unfold total_epoll_wait_threads
    simp only
    split_ifs <;> omega
  have heq := epoll_wait_threads_loop_eq threads groups
    (total_epoll_wait_threads max_epoll_wait_total_threads groups threads) hgroups threads 1
    hthreads (by omega) (by omega)
  have hdiv1 : 1 ≤ total_epoll_wait_threads max_epoll_wait_total_threads groups threads / groups :=
    (Nat.le_div_iff_mul_le hgroups).mpr (by omega)
  have hmul : total_epoll_wait_threads max_epoll_wait_total_threads groups threads / groups *
      groups ≤ total_epoll_wait_threads max_epoll_wait_total_threads groups threads :=
    Nat.div_mul_le_self _ _
  refine ⟨?_, heq, ?_, ?_, ?_, ?_⟩
  · unfold total_epoll_wait_threads clamp MIN_EPOLL_WAIT_TOTAL_THREADS
      MAX_EPOLL_WAIT_TOTAL_THREADS
    simp only
    split_ifs <;> omega
  · unfold epoll_wait_threads_per_group
    rw [heq]
    omega
  · unfold epoll_wait_threads_per_group
    rw [heq]
    omega
  · unfold epoll_wait_threads_per_group
    rw [heq]
    exact le_trans (Nat.mul_le_mul_right groups (min_le_right _ _)) hmul
  · intro h0
    unfold epoll_wait_threads_per_group
    rw [heq]
    have ht : total_epoll_wait_threads max_epoll_wait_total_threads groups threads =
        groups * threads := by
      unfold total_epoll_wait_threads
      simp only [h0, if_true]
      have : groups ≤ groups * threads := Nat.le_mul_of_pos_right groups hthreads
      split_ifs <;> omega
    rw [ht, Nat.mul_div_cancel_left threads hgroups]
    omega

/-- Witness for `epoll_wait_threads_per_group_spec`: budget 8 for 3 groups
of 4 threads gives 2 waiters per group. -/
theorem epoll_wait_threads_per_group_spec_witness :
    epoll_wait_threads_per_group 4 3 (total_epoll_wait_threads 8 3 4) = 2 ∧
    epoll_wait_threads_per_group 4 3 (total_epoll_wait_threads 8 3 4) =
      min 4 (total_epoll_wait_threads 8 3 4 / 3) :=
  ⟨by decide,
   (epoll_wait_threads_per_group_spec 8 3 4 (by decide) (by decide)).2.1⟩

/-! ## Waiters among the base threads -/

/-- The threads started by the loop of `init_thread`: one per thread id, and
the waiters among them are the first `epoll_wait_threads` ids from
`thread_id` on that are multiples of the gap. -/
theorem init_thread_loop_waiters (affinities : List cpu_info_t) (base_idx gap : Nat) :
    ∀ (n thread_id : Nat) (ewt : Int) (wa : Bool) (cpus : List Int)
      (r : Bool × List Int × List Event),
      init_thread_loop affinities base_idx gap n thread_id ewt wa cpus = some r →
      r.2.2.length = n ∧
      epoll_waiters r.2.2 =
        ((List.range' thread_id n).filter (fun i => i % gap == 0)).take ewt.toNat := by
  intro n
  induction n with
  | zero =>
    intro thread_id ewt wa cpus r h
    simp only [init_thread_loop, Option.some.injEq] at h
    subst h
    simp [epoll_waiters]
  | succ n ih =>
    intro thread_id ewt wa cpus r h
    simp only [init_thread_loop] at h
    by_cases hgap : gap = 0
    · rw [if_pos hgap] at h
      exact absurd h (by simp)
    rw [if_neg hgap] at h
    split at h
    · exact absurd h (by simp)
    · rename_i w c tr hrec
      simp only [Option.some.injEq] at h
      subst h
      obtain ⟨hlen, hw⟩ := ih _ _ _ _ _ hrec
      refine ⟨by simp [hlen], ?_⟩
      simp only [List.range'_succ, List.filter_cons]
      by_cases hhit : (thread_id % gap == 0) = true
      · simp only [hhit, if_true, Bool.true_and] at hw ⊢
        by_cases hpos : ewt - 1 ≥ 0
        · have htn : ewt.toNat = (ewt - 1).toNat + 1 := by omega
          simp only [hpos, decide_True, epoll_waiters, htn, List.take_succ_cons, hw]
        · have htn : ewt.toNat = 0 := by omega
          have htn1 : (ewt - 1).toNat = 0 := by omega
          simp only [hpos, decide_False, epoll_waiters, htn, List.take_zero]
          rw [hw, htn1, List.take_zero]
      · have hhit' : (thread_id % gap == 0) = false := by simpa using hhit
        simp only [hhit', Bool.false_eq_true, if_false, Bool.false_and, epoll_waiters] at hw ⊢
        exact hw

/-- Among `n` consecutive numbers from `s` on, the first `p` multiples of
`gap` are `a * gap, (a + 1) * gap, ...` when `a * gap` is the first multiple
not below `s` and the range reaches the last of them. -/
theorem filter_multiples_take (gap : Nat) (hgap : 0 < gap) :
    ∀ (n s a p : Nat), s ≤ a * gap → a * gap < s + gap →
      (p ≠ 0 → (a + (p - 1)) * gap < s + n) →
      ((List.range' s n).filter (fun i => i % gap == 0)).take p =
        (List.range' a p).map (fun i => i * gap) := by
  intro n
  induction n with
  | zero =>
    intro s a p hle hlt hreach
    have hp : p = 0 := by
      by_contra hp
      have h1 := hreach hp
      have h2 : a * gap ≤ (a + (p - 1)) * gap := Nat.mul_le_mul_right gap (by omega)
      omega
    subst hp
    simp
  | succ n ih =>
    intro s a p hle hlt hreach
    simp only [List.range'_succ, List.filter_cons]
    by_cases hmod : s % gap = 0
    · have hs : s = a * gap := by
        obtain ⟨k, hk⟩ := Nat.dvd_of_mod_eq_zero hmod
        have h1 : k ≤ a := by
          apply Nat.le_of_mul_le_mul_left _ hgap
          rw [← hk, Nat.mul_comm gap a]; exact hle
        have h2 : a < k + 1 := by
          apply Nat.lt_of_mul_lt_mul_left (a := gap)
          rw [Nat.mul_add, Nat.mul_one, ← hk, Nat.mul_comm gap a]; exact hlt
        have : a = k := by omega
        rw [hk, this, Nat.mul_comm]
      have hbeq : (s % gap == 0) = true := by simp [hmod]
      simp only [hbeq, if_true]
      cases p with
      | zero => simp
      | succ q =>
        have hsucc : (a + 1) * gap = a * gap + gap := by rw [Nat.add_mul, Nat.one_mul]
        have hrec := ih (s + 1) (a + 1) q (by omega) (by omega) (by
          intro hq
          have h1 := hreach (by omega)
          have h2 : a + 1 + (q - 1) = a + (q + 1 - 1) := by omega
          rw [h2]
          omega)
        rw [hs] at hrec
        simp only [List.take_succ_cons, hrec, List.range'_succ, List.map_cons, hs]
    · have hbeq : (s % gap == 0) = false := by simp [hmod]
      have hne : s ≠ a * gap := by
        intro h
        apply hmod
        rw [h]
        exact Nat.mul_mod_left a gap
      simp only [hbeq, Bool.false_eq_true, if_false]
      exact ih (s + 1) a p (by omega) (by omega) (by
        intro hp
        have := hreach hp
        omega)

/-- C21: for every `threads ≥ 1` and `per_group` with `1 ≤ per_group ≤
threads`, and `gap = floor(threads / per_group)`, `init_thread` starts
`threads` base threads and marks exactly `per_group` of them as multiplexer
waiters: the thread indices `0, gap, 2*gap, ..., (per_group-1)*gap`; thread 0
is always a waiter. -/
theorem init_thread_epoll_waiters (g : CmtEpoll) (threads per_group : Nat)
    (affinities : List cpu_info_t) (base_idx : Nat)
    (hper : 1 ≤ per_group) (hle : per_group ≤ threads) :
    ∃ r, init_thread g threads affinities base_idx per_group
        (epoll_wait_threads_gap threads per_group) = some r ∧
      r.2.length = threads ∧
      epoll_waiters r.2 = (List.range per_group).map (fun k => k * (threads / per_group)) ∧
      (epoll_waiters r.2).length = per_group ∧
      0 ∈ epoll_waiters r.2 := by
  have hgap : 0 < threads / per_group := Nat.div_pos hle (by omega)
  obtain ⟨r, hr⟩ := init_thread_isSome g threads affinities base_idx per_group
    (threads / per_group) (by omega)
  have hr' := hr
  unfold init_thread at hr'
  simp only at hr'
  split at hr'
  · exact absurd hr' (by simp)
  · rename_i w c tr hloop
    obtain ⟨hlen, hw⟩ := init_thread_loop_waiters affinities base_idx (threads / per_group)
      threads 0 per_group _ _ _ hloop
    simp only [Option.some.injEq] at hr'
    have htr : r.2 = tr := by rw [← hr']
    have hmul : threads / per_group * per_group ≤ threads := Nat.div_mul_le_self _ _
    have hfm := filter_multiples_take (threads / per_group) hgap threads 0 0 per_group
      (by simp) (by simpa using hgap) (by
        intro _
        have h1 : (per_group - 1 + 1) * (threads / per_group) =
            (per_group - 1) * (threads / per_group) + threads / per_group := by
          rw [Nat.add_mul, Nat.one_mul]
        have h2 : per_group - 1 + 1 = per_group := by omega
        rw [h2, Nat.mul_comm] at h1
        simp only [Nat.zero_add]
        omega)
    have hwait : epoll_waiters r.2 =
        (List.range per_group).map (fun k => k * (threads / per_group)) := by
      rw [htr, hw]
      simp only [Int.toNat_ofNat]
      rw [hfm, List.range_eq_range']
    refine ⟨r, ?_, ?_, hwait, ?_, ?_⟩
    · unfold epoll_wait_threads_gap; exact hr
    · rw [htr]; exact hlen
    · rw [hwait]; simp
    · rw [hwait]
      simp only [List.mem_map, List.mem_range]
      exact ⟨0, by omega, by simp⟩

/-- Witness for `init_thread_epoll_waiters`: 7 threads, 2 waiters, gap 3:
threads 0 and 3 wait. -/
theorem init_thread_epoll_waiters_witness :
    (init_thread {} 7 [] 0 2 (epoll_wait_threads_gap 7 2)).map (fun r => epoll_waiters r.2) =
      some [0, 3] ∧
    ∃ r, init_thread {} 7 [] 0 ((2 : Nat) : Int) (epoll_wait_threads_gap 7 2) = some r ∧
      r.2.length = 7 ∧
      epoll_waiters r.2 = (List.range 2).map (fun k => k * (7 / 2)) ∧
      (epoll_waiters r.2).length = 2 ∧
      0 ∈ epoll_waiters r.2 :=
  ⟨by decide, init_thread_epoll_waiters {} 7 2 [] 0 (by decide) (by decide)⟩

/-! ## Affinity list -/

/-- The length of the list after the duplication step. -/
theorem duplicate_affinities_length (affinities : List cpu_info_t) (base_groups threads : Nat)
    (hne : affinities.length ≠ 0) :
    ∃ l, duplicate_affinities affinities base_groups threads = some l ∧
      l.length =
        if base_groups * threads > affinities.length ∧
            base_groups * threads / affinities.length > 1 then
          base_groups * threads / affinities.length * affinities.length
        else affinities.length := by
  unfold duplicate_affinities
  by_cases h1 : base_groups * threads > affinities.length
  · by_cases h2 : base_groups * threads / affinities.length > 1
    · simp only [h1, h2, hne, if_true, if_false, and_self]
      exact ⟨_, rfl, by simp [List.length_flatten, List.map_replicate, List.sum_replicate]⟩
    · simp only [h1, h2, hne, if_true, if_false, and_false]
      exact ⟨_, rfl, rfl⟩
  · simp only [h1, if_false, false_and]
    exact ⟨_, rfl, rfl⟩

set_option maxRecDepth 100000 in
/-- The affinity list for cores 0, 1 and 2 and 2 base groups of 2 threads. -/
theorem affinities_of_three_cores :
    get_instance_affinities true false (fun _ => none) (some (fun i => decide (i < 3)))
        (fun a b => decide (a.processor < b.processor)) 2 2 =
      some [{ processor := 0 }, { processor := 1 }, { processor := 2 }] := by
  decide

set_option maxRecDepth 100000 in
/-- The group count for cores 0, 1 and 2 with `epoll_threads_per_group = 2`,
`epoll_groups = 0` and `min_auto_epoll_groups = 1`. -/
theorem base_groups_of_three_cores :
    get_instance_groups_raw (get_instance_threads 2) 0
        (usable_cores 8 true (some (fun i => decide (i < 3)))) 1 0 = some (2, 2) := by
  decide

/-- C22, the code at the failing input: the affinity mask holds cores 0, 1
and 2 and `epoll_threads_per_group = 2`, which gives 2 base groups of 2
threads.  The quotient `4 / 3` is 1, so the list is not duplicated and has 3
entries, fewer than `base_groups * threads = 4`; the second thread of group
1 gets affinity -1 and the group loses `with_affinity_`. -/
theorem affinities_not_enough :
    get_instance_groups_raw (get_instance_threads 2) 0
        (usable_cores 8 true (some (fun i => decide (i < 3)))) 1 0 = some (2, 2) ∧
    get_instance_affinities true false (fun _ => none) (some (fun i => decide (i < 3)))
        (fun a b => decide (a.processor < b.processor)) 2 2 =
      some [{ processor := 0 }, { processor := 1 }, { processor := 2 }] ∧
    (init_thread {} 2 [{ processor := 0 }, { processor := 1 }, { processor := 2 }]
        (1 * 2) 1 2).map (fun r => (r.2, r.1.with_affinity_)) =
      some ([Event.thread 0 true 2 true true, Event.thread 1 true (-1) false true], false) :=
  ⟨base_groups_of_three_cores, affinities_of_three_cores, by decide⟩

/-! ## Notifier classification -/

/-- C29, the code at the failing input: with `eventfd_ = 16`, an event whose
payload is the callback pointer `2^32 + 16` is taken for the notifier event:
the notifier is read and the callback gets neither `pre_events` nor
`events`. -/
theorem callback_taken_for_notifier :
    handle_batch { eventfd_ := 16 } [{ events := 1, data := 2 ^ 32 + 16 }] []
        (fun _ _ _ _ => true) = [Event.eventfd_read] ∧
    non_notifier 16 [{ events := 1, data := 2 ^ 32 + 16 }] = [] := by
  decide

/-- Whenever the low 32 bits of the callback pointer differ from
`eventfd_`, the event is handled as a callback event. -/
theorem callback_event_handled (g : CmtEpoll) (mask p : Nat)
    (cb_events : Nat → Nat → Nat → Nat → Bool) (hp : p % 2 ^ 32 ≠ g.eventfd_) :
    handle_batch g [{ events := mask, data := p }] [] cb_events =
      Event.pre_events p :: Event.events p mask 0 1 (cb_events p mask 0 1) ::
        (if cb_events p mask 0 1 then [] else [Event.delete_cb p]) := by
  have hfd : ¬ (({ events := mask, data := p } : epoll_event).fd = g.eventfd_) := hp
  cases hb : cb_events p mask 0 1 <;>
    simp [handle_batch, pre_events_loop, dispatch_loop, run_timer_tasks, hfd, epoll_event.ptr, hb]

/-! ## `check_port` -/

/-- C24, the code at the failing input: `socket` succeeds with descriptor 0
and `errno` is 0 (or 13) on entry.  The descriptor is taken for a failure:
no connect is attempted, the socket is not closed, and the result is
`-errno`, that is 0 (or -13). -/
theorem check_port_descriptor_zero :
    check_port { errno := 0, socket := sys_ret.ok 0, inet_pton := sys_ret.ok 1,
                 connect := sys_ret.ok 0 } 3306 = (0, [Event.sys sys_call.socket]) ∧
    check_port { errno := 13, socket := sys_ret.ok 0, inet_pton := sys_ret.ok 1,
                 connect := sys_ret.err 111 } 3306 = (-13, [Event.sys sys_call.socket]) := by
  decide

/-- With a descriptor other than 0 (and `inet_pton` accepting the literal
address, and a positive `errno` on every failure) `check_port` returns 0
exactly when the connect is refused, `-EADDRINUSE` exactly when it succeeds,
and closes the socket whenever it was created. -/
theorem check_port_positive_descriptor (env : check_port_env) (port : Nat)
    (hfd : env.socket ≠ sys_ret.ok 0) (hpton : env.inet_pton = sys_ret.ok 1)
    (hsock : ∀ e, env.socket = sys_ret.err e → 0 < e)
    (hconn : ∀ e, env.connect = sys_ret.err e → 0 < e) :
    ((check_port env port).1 = 0 ↔
      ∃ fd, env.socket = sys_ret.ok fd ∧ env.connect = sys_ret.err ECONNREFUSED) ∧
    ((check_port env port).1 = -(EADDRINUSE : Int) ↔
      (∃ fd v, env.socket = sys_ret.ok fd ∧ env.connect = sys_ret.ok v) ∨
      env.socket = sys_ret.err EADDRINUSE ∨
      (∃ fd, env.socket = sys_ret.ok fd ∧ env.connect = sys_ret.err EADDRINUSE)) ∧
    (∀ fd, env.socket = sys_ret.ok fd →
      (check_port env port).2 =
        [Event.sys sys_call.socket, Event.sys sys_call.inet_pton,
         Event.sys (sys_call.connect fd port), Event.sys (sys_call.close fd)]) ∧
    (∀ e, env.socket = sys_ret.err e →
      check_port env port = (-(e : Int), [Event.sys sys_call.socket])) ∧
    (∀ fd e, env.socket = sys_ret.ok fd → env.connect = sys_ret.err e → e ≠ ECONNREFUSED →
      (check_port env port).1 = -(e : Int)) := by
  obtain ⟨errno, socket, pton, connect⟩ := env
  simp only at hfd hpton hsock hconn
  subst hpton
  cases socket with
  | err e =>
    have he := hsock e rfl
    simp only [check_port, EADDRINUSE, ECONNREFUSED]
    refine ⟨?_, ?_, ?_, ?_, ?_⟩
    · simp; omega
    · simp; omega
    · simp
    · simp
    · simp
  | ok fd =>
    have hfd0 : ¬ fd ≤ 0 := by
      intro h
      apply hfd
      have : fd = 0 := by omega
      rw [this]
    cases connect with
    | ok v =>
      simp [check_port, hfd0, EADDRINUSE, ECONNREFUSED]
    | err e =>
      have he := hconn e rfl
      by_cases hr : 111 = e
      · subst hr
        simp [check_port, hfd0, EADDRINUSE, ECONNREFUSED]
      · have hr' : e ≠ 111 := fun h => hr h.symm
        simp [check_port, hfd0, EADDRINUSE, ECONNREFUSED, hr, hr']
        omega

/-! ## A run action that raises -/

/-- C25 as stated fails: when the run action of the task taken from the
queue raises, the loop is left at that call; the finalize action of the task
is not called, and a task queued behind it stays in the queue. -/
theorem drain_raising_skips_finalize :
    drain_work_loop_raising (fun _ _ => true) 3
        { capacity_ := 4, items := [⟨1, 2, 3, 4⟩, ⟨5, 6, 7, 8⟩] } =
      ([Event.run 2 1], { capacity_ := 4, items := [⟨5, 6, 7, 8⟩], head_ := 1 }, true) ∧
    List.count (Event.del 4 3)
      (drain_work_loop_raising (fun _ _ => true) 3
        { capacity_ := 4, items := [⟨1, 2, 3, 4⟩, ⟨5, 6, 7, 8⟩] }).1 = 0 := by
  decide

/-- C25 (amended): for every task taken from the work queue (run pointer not
null), when its run action returns, its finalize action is called right
after it, exactly once, and the loop goes on with the rest of the queue;
when its run action raises, the loop is left at that call and the finalize
action is not called. -/
theorem drain_raising_head (raises : Nat → Nat → Bool) (fuel cap hd : Nat) (t : task_t)
    (rest : List task_t) (ht : t.run_ ≠ 0) :
    (raises t.run_ t.run_ctx_ = false →
      drain_work_loop_raising raises (fuel + 1)
          { capacity_ := cap, items := t :: rest, head_ := hd } =
        ([Event.run t.run_ t.run_ctx_] ++ t.fin ++
          (drain_work_loop_raising raises fuel
            { capacity_ := cap, items := rest, head_ := hd + 1 }).1,
         (drain_work_loop_raising raises fuel
            { capacity_ := cap, items := rest, head_ := hd + 1 }).2)) ∧
    (raises t.run_ t.run_ctx_ = true →
      drain_work_loop_raising raises (fuel + 1)
          { capacity_ := cap, items := t :: rest, head_ := hd } =
        ([Event.run t.run_ t.run_ctx_],
         { capacity_ := cap, items := rest, head_ := hd + 1 }, true)) := by
  constructor
  · intro hr
    simp [drain_work_loop_raising, CarrayQueue.pop, task_t.toBool_eq_true ht,
      task_t.call_of_ne ht, hr]
  · intro hr
    simp [drain_work_loop_raising, CarrayQueue.pop, task_t.toBool_eq_true ht,
      task_t.call_of_ne ht, hr]

/-- Witness for `drain_raising_head`: a task whose run action returns. -/
theorem drain_raising_head_witness :
    drain_work_loop_raising (fun _ _ => false) 2
        { capacity_ := 4, items := [⟨1, 2, 3, 4⟩], head_ := 0 } =
      ([Event.run 2 1] ++ task_t.fin ⟨1, 2, 3, 4⟩ ++
        (drain_work_loop_raising (fun _ _ => false) 1
          { capacity_ := 4, items := [], head_ := 0 + 1 }).1,
       (drain_work_loop_raising (fun _ _ => false) 1
          { capacity_ := 4, items := [], head_ := 0 + 1 }).2) :=
  (drain_raising_head (fun _ _ => false) 1 4 0 ⟨1, 2, 3, 4⟩ [] (by decide)).1 rfl

/-! ## Totality of `balance_tasker` -/

/-- C28 as stated fails: with `epoll_group_tasker_multiply = 0`, 2 workers,
3 queued tasks and 5 sessions, `balance_tasker` reaches the division
`(pending - workers - taskers) / multiply` with a zero divisor. -/
theorem balance_tasker_divides_by_zero :
    balance_tasker 0 4 false 100
        { base_thread_count_ := 2, worker_count_ := 2, session_count_ := 5,
          global_thread_count := 2,
          work_queue_ := { capacity_ := 128, items := List.replicate 3 ⟨0, 1, 0, 1⟩ } } =
      none := by
  decide

/-- C28 (amended): `balance_tasker` is total for every
`epoll_group_tasker_multiply ≥ 1`, whatever `pending`, `workers`, `taskers`
and `session_count` are; with `epoll_group_tasker_multiply = 0` it divides
by zero exactly in the states in which it decides to spawn: a non-empty
queue and `workers + taskers` below both `session_count` and `pending`. -/
theorem balance_tasker_total_iff (M step : Nat) (enable : Bool) (now : Int) (g : CmtEpoll) :
    balance_tasker M step enable now g = none ↔
      M = 0 ∧ g.worker_count_ + g.tasker_count_ < g.session_count_ ∧
        g.worker_count_ + g.tasker_count_ < (g.work_queue_.length : Int) ∧
        g.work_queue_.length ≠ 0 := by
  by_cases hM : M = 0
  · subst hM
    unfold balance_tasker
    simp only [Nat.zero_div, Nat.lt_one_iff, if_true, Nat.cast_one, one_mul, CharP.cast_eq_zero,
      zero_mul, true_and]
    by_cases h1 : g.work_queue_.length * 2 > g.work_queue_.capacity ∨
        (g.work_queue_.length : Int) > g.worker_count_ + g.tasker_count_
    · rw [if_pos h1]
      by_cases h2 : g.work_queue_.length * 2 ≤ g.work_queue_.capacity ∧
          (g.work_queue_.length : Int) ≤ 0
      · rw [if_pos h2]
        have h0 : g.work_queue_.length = 0 := by omega
        simp [h0]
      · rw [if_neg h2]
        have h0 : g.work_queue_.length ≠ 0 := by
          intro h0
          apply h2
          rw [h0]
          exact ⟨Nat.zero_le _, le_refl _⟩
        by_cases h3 : g.worker_count_ + g.tasker_count_ < g.session_count_ ∧
            g.worker_count_ + g.tasker_count_ < (g.work_queue_.length : Int)
        · rw [if_pos h3]
          simp [h3.1, h3.2, h0]
        · rw [if_neg h3]
          simp only [reduceCtorEq, false_iff]
          rintro ⟨h4, h5, _⟩
          exact h3 ⟨h4, h5⟩
    · rw [if_neg h1]
      simp only [reduceCtorEq, false_iff]
      rintro ⟨_, h5, _⟩
      exact h1 (Or.inr h5)
  · obtain ⟨r, hr⟩ := balance_tasker_isSome M step enable now g hM
    simp [hr, hM]

/-! ## Thread accounting -/

/-- C30: for a single group, `global_thread_count - (worker_count_ +
tasker_count_)` is unchanged by `init_thread` (run on a group as constructed,
with `worker_count_ = 0`), `try_scale_thread_pool`, `force_scale_thread_pool`,
`balance_tasker` and both paths of `shrink_thread_pool`; each of them
changes `worker_count_ + tasker_count_` by exactly the number of threads it
starts, or by minus one when `shrink_thread_pool` returns true and the
calling thread ends. -/
theorem thread_accounting (v : Int) (dyn shrink_time M step : Nat) (enable : Bool)
    (now : Int) ( is_worker : Bool) (threads : Nat) (affinities : List cpu_info_t)
    (base_idx : Nat) (ewt : Int) (gap : Nat) (g : CmtEpoll) :
    (g.worker_count_ = 0 →
      ∀ r, init_thread g threads affinities base_idx ewt gap = some r →
        r.1.global_thread_count - (r.1.worker_count_ + r.1.tasker_count_) =
          g.global_thread_count - (g.worker_count_ + g.tasker_count_) ∧
        r.1.worker_count_ + r.1.tasker_count_ =
          g.worker_count_ + g.tasker_count_ + r.2.length) ∧
    ((try_scale_thread_pool v dyn now g).1.global_thread_count -
        ((try_scale_thread_pool v dyn now g).1.worker_count_ +
          (try_scale_thread_pool v dyn now g).1.tasker_count_) =
        g.global_thread_count - (g.worker_count_ + g.tasker_count_) ∧
      (try_scale_thread_pool v dyn now g).1.worker_count_ +
          (try_scale_thread_pool v dyn now g).1.tasker_count_ =
        g.worker_count_ + g.tasker_count_ + (try_scale_thread_pool v dyn now g).2.length) ∧
    ((force_scale_thread_pool now g).1.global_thread_count -
        ((force_scale_thread_pool now g).1.worker_count_ +
          (force_scale_thread_pool now g).1.tasker_count_) =
        g.global_thread_count - (g.worker_count_ + g.tasker_count_) ∧
      (force_scale_thread_pool now g).1.worker_count_ +
          (force_scale_thread_pool now g).1.tasker_count_ =
        g.worker_count_ + g.tasker_count_ + (force_scale_thread_pool now g).2.length) ∧
    (∀ r, balance_tasker M step enable now g = some r →
      r.1.global_thread_count - (r.1.worker_count_ + r.1.tasker_count_) =
        g.global_thread_count - (g.worker_count_ + g.tasker_count_) ∧
      r.1.worker_count_ + r.1.tasker_count_ =
        g.worker_count_ + g.tasker_count_ + r.2.length) ∧
    ((shrink_thread_pool v dyn shrink_time now g is_worker).2.global_thread_count -
        ((shrink_thread_pool v dyn shrink_time now g is_worker).2.worker_count_ +
          (shrink_thread_pool v dyn shrink_time now g is_worker).2.tasker_count_) =
        g.global_thread_count - (g.worker_count_ + g.tasker_count_) ∧
      (shrink_thread_pool v dyn shrink_time now g is_worker).2.worker_count_ +
          (shrink_thread_pool v dyn shrink_time now g is_worker).2.tasker_count_ =
        g.worker_count_ + g.tasker_count_ -
          (if (shrink_thread_pool v dyn shrink_time now g is_worker).1 then 1 else 0)) := by
  refine ⟨?_, ?_, ?_, ?_, ?_⟩
  · intro hw r hr
    obtain ⟨_, hw', ht', hg'⟩ := init_thread_counts g threads affinities base_idx ewt gap r hr
    have hlen : r.2.length = threads := by
      unfold init_thread at hr
      simp only at hr
      split at hr
      · exact absurd hr (by simp)
      · rename_i w c tr hloop
        simp only [Option.some.injEq] at hr
        rw [← hr]
        exact (init_thread_loop_waiters affinities base_idx gap threads 0 ewt _ _ _ hloop).1
    rw [hw', ht', hg', hlen, hw]
    constructor <;> omega
  · obtain ⟨hw, hgl, ht, _, _, htr⟩ := try_scale_thread_pool_counts v dyn now g
    have hge : g.worker_count_ ≤ (try_scale_thread_pool v dyn now g).1.worker_count_ := by
      rw [hw]; split_ifs <;> omega
    rw [htr, List.length_replicate, ht]
    constructor <;> omega
  · obtain ⟨hw, hgl, ht, _, _, _⟩ := force_scale_thread_pool_counts now g
    have hlen : ((force_scale_thread_pool now g).2.length : Int) =
        (force_scale_thread_pool now g).1.worker_count_ - g.worker_count_ := by
      rw [hw]
      unfold force_scale_thread_pool
      by_cases h : g.worker_count_ < g.session_count_ + g.base_thread_count_
      · have h' : ¬ (g.worker_count_ ≥ g.session_count_ + g.base_thread_count_) := by omega
        simp [h, h']
      · have h' : g.worker_count_ ≥ g.session_count_ + g.base_thread_count_ := by omega
        simp [h, h']
    rw [ht]
    constructor <;> omega
  · intro r hr
    obtain ⟨hw, _, _, extend, _, ht, hgl, htr, _⟩ := balance_tasker_some M step enable now g r hr
    rw [hw, ht, hgl, htr, List.length_replicate]
    constructor <;> omega
  · cases is_worker with
    | false =>
      rw [shrink_thread_pool_tasker_eq]
      by_cases h : now - g.last_tasker_time_ ≤ (shrink_time : Int)
      · simp only [if_pos h]
        constructor <;> first | omega | simp
      · simp only [if_neg h]
        constructor <;> first | omega | (simp; omega)
    | true =>
      rw [shrink_thread_pool_worker_eq]
      by_cases h : g.stall_count_ <
            g.worker_count_ - g.base_thread_count_ + clamp v 0 (g.base_thread_count_ - 1) ∧
          now - g.last_scale_time_ > (shrink_time : Int) ∧
          g.worker_count_ > prefer_thread_count dyn g.base_thread_count_ ∧
          g.stall_count_ < prefer_thread_count dyn g.base_thread_count_ - 1
      · simp only [if_pos h]
        constructor <;> first | omega | (simp; omega)
      · simp only [if_neg h]
        constructor <;> first | omega | simp

/-! ## `add_fd` -/

/-- The calls `nonblock` makes. -/
theorem nonblock_trace (env : add_fd_env) (fd set : Nat) :
    ∀ e ∈ (nonblock env fd set).2,
      e = Event.sys (sys_call.fcntl_getfl fd) ∨ ∃ fl, e = Event.sys (sys_call.fcntl_setfl fd fl) := by
  intro e he
  unfold nonblock at he
  cases h1 : env.fcntl_getfl with
  | err e1 =>
    rw [h1] at he
    simp only [List.mem_singleton] at he
    exact Or.inl he
  | ok r =>
    rw [h1] at he
    simp only at he
    by_cases h2 : (decide (r &&& O_NONBLOCK ≠ 0)) = (decide (set ≠ 0))
    · rw [if_pos h2] at he
      simp only [List.mem_singleton] at he
      exact Or.inl he
    · rw [if_neg h2] at he
      cases h3 : env.fcntl_setfl <;>
      · rw [h3] at he
        simp only [List.mem_cons, List.mem_singleton, List.not_mem_nil, or_false] at he
        rcases he with he | he
        · exact Or.inl he
        · exact Or.inr ⟨_, he⟩

/-- The call `nodelay` makes. -/
theorem nodelay_trace (env : add_fd_env) (fd enable : Nat) :
    ∀ e ∈ (nodelay env fd enable).2, e = Event.sys (sys_call.tcp_nodelay fd enable) := by
  intro e he
  unfold nodelay at he
  split at he <;> simpa using he

/-- The calls `keepalive` makes. -/
theorem keepalive_trace (env : add_fd_env) (fd enable delay : Nat) :
    ∀ e ∈ (keepalive env fd enable delay).2,
      e = Event.sys (sys_call.so_keepalive fd enable) ∨
      e = Event.sys (sys_call.tcp_keepidle fd delay) := by
  intro e he
  unfold keepalive at he
  split at he
  · simp at he; exact Or.inl he
  · split at he
    · split at he <;> simpa using he
    · simp at he; exact Or.inl he

/-- The result of `nonblock(fd, 1)`. -/
theorem nonblock_ret (env : add_fd_env) (fd : Nat) :
    (nonblock env fd 1).1 =
      match set_nonblocking_errno env with
      | none => 0
      | some e => -(e : Int) := by
  unfold nonblock set_nonblocking_errno
  cases h1 : env.fcntl_getfl with
  | err e => simp
  | ok r =>
    by_cases h2 : r &&& O_NONBLOCK ≠ 0
    · simp [h2]
    · cases h3 : env.fcntl_setfl <;> simp [h2, sys_ret.errno_of]

/-- The result of `nodelay`. -/
theorem nodelay_ret (env : add_fd_env) (fd enable : Nat) :
    (nodelay env fd enable).1 =
      match env.tcp_nodelay.errno_of with
      | none => 0
      | some e => -(e : Int) := by
  unfold nodelay
  cases h1 : env.tcp_nodelay <;> simp [sys_ret.errno_of]

/-- The result of `keepalive(fd, 1, delay)`. -/
theorem keepalive_ret (env : add_fd_env) (fd delay : Nat) :
    (keepalive env fd 1 delay).1 =
      match enable_keepalive_errno env with
      | none => 0
      | some e => -(e : Int) := by
  unfold keepalive enable_keepalive_errno
  cases h1 : env.so_keepalive with
  | err e => simp
  | ok r => cases h2 : env.tcp_keepidle <;> simp [sys_ret.errno_of]

/-- The shape of what `add_fd` does: socket-option calls, then, when they
all succeed, `set_fd`, the registration attempt and, when it succeeds,
`fd_registered`. -/
theorem add_fd_shape (env : add_fd_env) (tcp_keep_alive fd events cb : Nat) (tcp : Bool) :
    ∃ opts : List Event,
      (∀ e ∈ opts,
        e = Event.sys (sys_call.fcntl_getfl fd) ∨
        (∃ fl, e = Event.sys (sys_call.fcntl_setfl fd fl)) ∨
        e = Event.sys (sys_call.tcp_nodelay fd 1) ∨
        e = Event.sys (sys_call.so_keepalive fd 1) ∨
        e = Event.sys (sys_call.tcp_keepidle fd (min tcp_keep_alive MAX_TCP_KEEP_ALIVE))) ∧
      ((∃ r, r ≠ 0 ∧ add_fd env tcp_keep_alive fd events cb tcp = (r, opts)) ∨
       (∃ e, env.epoll_ctl = sys_ret.err e ∧
          add_fd env tcp_keep_alive fd events cb tcp =
            (-(e : Int),
              opts ++ [Event.set_fd cb fd, Event.sys (sys_call.epoll_ctl_add fd events cb)])) ∨
       (∃ v, env.epoll_ctl = sys_ret.ok v ∧
          add_fd env tcp_keep_alive fd events cb tcp =
            (0, opts ++ [Event.set_fd cb fd, Event.sys (sys_call.epoll_ctl_add fd events cb),
              Event.fd_registered cb]))) := by
  have hmin : (if tcp_keep_alive > MAX_TCP_KEEP_ALIVE then MAX_TCP_KEEP_ALIVE else tcp_keep_alive) =
      min tcp_keep_alive MAX_TCP_KEEP_ALIVE := by
    split_ifs with h
    · exact (Nat.min_eq_right (Nat.le_of_lt h)).symm
    · exact (Nat.min_eq_left (not_lt.mp h)).symm
  have m1 := nonblock_trace env fd 1
  have m2 : ∀ e ∈ (if tcp = true then nodelay env fd 1 else (0, [])).2,
      e = Event.sys (sys_call.tcp_nodelay fd 1) := by
    intro e he
    split_ifs at he
    · exact nodelay_trace env fd 1 e he
    · simp at he
  have m3 : ∀ e ∈ (if tcp = true ∧ min tcp_keep_alive MAX_TCP_KEEP_ALIVE > 0 then
        keepalive env fd 1 (min tcp_keep_alive MAX_TCP_KEEP_ALIVE) else (0, [])).2,
      e = Event.sys (sys_call.so_keepalive fd 1) ∨
      e = Event.sys (sys_call.tcp_keepidle fd (min tcp_keep_alive MAX_TCP_KEEP_ALIVE)) := by
    intro e he
    split_ifs at he
    · exact keepalive_trace env fd 1 _ e he
    · simp at he
  unfold add_fd
  simp only [hmin]
  by_cases h1 : (nonblock env fd 1).1 ≠ 0
  · rw [if_pos h1]
    refine ⟨(nonblock env fd 1).2, ?_, Or.inl ⟨_, h1, rfl⟩⟩
    intro e he
    rcases m1 e he with h | h
    · exact Or.inl h
    · exact Or.inr (Or.inl h)
  · rw [if_neg h1]
    by_cases h2 : (if tcp = true then nodelay env fd 1 else (0, [])).1 ≠ 0
    · rw [if_pos h2]
      refine ⟨(nonblock env fd 1).2 ++ (if tcp = true then nodelay env fd 1 else (0, [])).2, ?_,
        Or.inl ⟨_, h2, rfl⟩⟩
      intro e he
      rcases List.mem_append.mp he with he | he
      · rcases m1 e he with h | h
        · exact Or.inl h
        · exact Or.inr (Or.inl h)
      · exact Or.inr (Or.inr (Or.inl (m2 e he)))
    · rw [if_neg h2]
      have hopts : ∀ e ∈ (nonblock env fd 1).2 ++
          (if tcp = true then nodelay env fd 1 else (0, [])).2 ++
          (if tcp = true ∧ min tcp_keep_alive MAX_TCP_KEEP_ALIVE > 0 then
            keepalive env fd 1 (min tcp_keep_alive MAX_TCP_KEEP_ALIVE) else (0, [])).2,
          e = Event.sys (sys_call.fcntl_getfl fd) ∨
          (∃ fl, e = Event.sys (sys_call.fcntl_setfl fd fl)) ∨
          e = Event.sys (sys_call.tcp_nodelay fd 1) ∨
          e = Event.sys (sys_call.so_keepalive fd 1) ∨
          e = Event.sys (sys_call.tcp_keepidle fd (min tcp_keep_alive MAX_TCP_KEEP_ALIVE)) := by
        intro e he
        rcases List.mem_append.mp he with he | he
        · rcases List.mem_append.mp he with he | he
          · rcases m1 e he with h | h
            · exact Or.inl h
            · exact Or.inr (Or.inl h)
          · exact Or.inr (Or.inr (Or.inl (m2 e he)))
        · rcases m3 e he with h | h
          · exact Or.inr (Or.inr (Or.inr (Or.inl h)))
          · exact Or.inr (Or.inr (Or.inr (Or.inr h)))
      by_cases h3 : (if tcp = true ∧ min tcp_keep_alive MAX_TCP_KEEP_ALIVE > 0 then
            keepalive env fd 1 (min tcp_keep_alive MAX_TCP_KEEP_ALIVE) else (0, [])).1 ≠ 0
      · rw [if_pos h3]
        exact ⟨_, hopts, Or.inl ⟨_, h3, rfl⟩⟩
      · rw [if_neg h3]
        refine ⟨_, hopts, Or.inr ?_⟩
        cases h4 : env.epoll_ctl with
        | err e => exact Or.inl ⟨e, rfl, rfl⟩
        | ok v => exact Or.inr ⟨v, rfl, by simp⟩

/-- The result of `add_fd`, step by step. -/
theorem add_fd_ret (env : add_fd_env) (tcp_keep_alive fd events cb : Nat) (tcp : Bool)
    (hpos : env.errno_positive = true) :
    ((add_fd env tcp_keep_alive fd events cb tcp).1 =
      match add_fd_failing_errno env tcp_keep_alive tcp with
      | none => 0
      | some e => -(e : Int)) ∧
    ((add_fd env tcp_keep_alive fd events cb tcp).1 = 0 ↔
      ∀ r ∈ add_fd_steps env tcp_keep_alive tcp, r = none) := by
  have hmin : (if tcp_keep_alive > MAX_TCP_KEEP_ALIVE then MAX_TCP_KEEP_ALIVE else tcp_keep_alive)
      > 0 ↔ tcp_keep_alive > 0 := by
    unfold MAX_TCP_KEEP_ALIVE
    split_ifs <;> omega
  simp only [add_fd_env.errno_positive, List.all_cons, List.all_nil, Bool.and_true,
    Bool.and_eq_true, decide_eq_true_eq] at hpos
  obtain ⟨p1, p2, p3, p4, p5, p6⟩ := hpos
  have q1 : set_nonblocking_errno env ≠ some 0 := by
    unfold set_nonblocking_errno
    cases h : env.fcntl_getfl with
    | err e => rw [h] at p1; simpa using p1
    | ok r =>
      simp only
      split_ifs
      · simp
      · cases h' : env.fcntl_setfl with
        | err e => rw [h'] at p2; simpa [sys_ret.errno_of] using p2
        | ok _ => simp [sys_ret.errno_of]
  have q2 : env.tcp_nodelay.errno_of ≠ some 0 := by
    cases h : env.tcp_nodelay with
    | err e => rw [h] at p3; simpa [sys_ret.errno_of] using p3
    | ok _ => simp [sys_ret.errno_of]
  have q3 : enable_keepalive_errno env ≠ some 0 := by
    unfold enable_keepalive_errno
    cases h : env.so_keepalive with
    | err e => rw [h] at p4; simpa using p4
    | ok r =>
      cases h' : env.tcp_keepidle with
      | err e => rw [h'] at p5; simpa [sys_ret.errno_of] using p5
      | ok _ => simp [sys_ret.errno_of]
  unfold add_fd add_fd_failing_errno add_fd_steps add_fd_option_steps
  simp only [hmin]
  have r1 := nonblock_ret env fd
  have r2 := nodelay_ret env fd 1
  have r3 := keepalive_ret env fd
      (if tcp_keep_alive > MAX_TCP_KEEP_ALIVE then MAX_TCP_KEEP_ALIVE else tcp_keep_alive)
  generalize nonblock env fd 1 = x1 at r1 ⊢
  generalize nodelay env fd 1 = x2 at r2 ⊢
  generalize keepalive env fd 1
      (if tcp_keep_alive > MAX_TCP_KEEP_ALIVE then MAX_TCP_KEEP_ALIVE else tcp_keep_alive) = x3
      at r3 ⊢
  generalize set_nonblocking_errno env = n1 at q1 r1 ⊢
  generalize env.tcp_nodelay.errno_of = n2 at q2 r2 ⊢
  generalize enable_keepalive_errno env = n3 at q3 r3 ⊢
  have q4 : env.epoll_ctl.errno_of ≠ some 0 := by
    cases h : env.epoll_ctl with
    | err e => rw [h] at p6; simpa [sys_ret.errno_of] using p6
    | ok _ => simp [sys_ret.errno_of]
  obtain ⟨a1, t1⟩ := x1
  obtain ⟨a2, t2⟩ := x2
  obtain ⟨a3, t3⟩ := x3
  simp only at r1 r2 r3
  subst r1 r2 r3
  generalize env.epoll_ctl = c at q4 ⊢
  clear p1 p2 p3 p4 p5 p6 hmin
  by_cases hk : tcp_keep_alive > 0 <;> cases tcp <;> cases n1 <;> cases n2 <;> cases n3 <;>
    cases c <;> simp_all [sys_ret.errno_of, Option.join]

/-- The calls of `nonblock(fd, 1)`. -/
theorem nonblock_calls (env : add_fd_env) (fd : Nat) :
    (nonblock env fd 1).2 = set_nonblocking_calls env fd := by
  unfold nonblock set_nonblocking_calls
  cases h1 : env.fcntl_getfl with
  | err e => rfl
  | ok r =>
    by_cases h2 : r &&& O_NONBLOCK ≠ 0
    · simp [h2]
    · cases h3 : env.fcntl_setfl <;> simp [h2]

/-- The call of `nodelay`. -/
theorem nodelay_calls (env : add_fd_env) (fd enable : Nat) :
    (nodelay env fd enable).2 = [Event.sys (sys_call.tcp_nodelay fd enable)] := by
  unfold nodelay
  cases env.tcp_nodelay <;> rfl

/-- The calls of `keepalive(fd, 1, delay)`. -/
theorem keepalive_calls (env : add_fd_env) (fd delay : Nat) :
    (keepalive env fd 1 delay).2 = enable_keepalive_calls env fd delay := by
  unfold keepalive enable_keepalive_calls
  cases h1 : env.so_keepalive with
  | err e => simp [sys_ret.is_ok]
  | ok r => cases h2 : env.tcp_keepidle <;> simp [sys_ret.is_ok]

/-- The calls `add_fd` makes are those of the spec, step by step. -/
theorem add_fd_trace (env : add_fd_env) (tcp_keep_alive fd events cb : Nat) (tcp : Bool)
    (hpos : env.errno_positive = true) :
    (add_fd env tcp_keep_alive fd events cb tcp).2 =
      add_fd_calls env tcp_keep_alive fd events cb tcp := by
  have hmin : (if tcp_keep_alive > MAX_TCP_KEEP_ALIVE then MAX_TCP_KEEP_ALIVE else tcp_keep_alive) =
      min tcp_keep_alive MAX_TCP_KEEP_ALIVE := by
    split_ifs with h
    · exact (Nat.min_eq_right (Nat.le_of_lt h)).symm
    · exact (Nat.min_eq_left (not_lt.mp h)).symm
  have hmin0 : min tcp_keep_alive MAX_TCP_KEEP_ALIVE > 0 ↔ tcp_keep_alive > 0 := by
    unfold MAX_TCP_KEEP_ALIVE
    omega
  simp only [add_fd_env.errno_positive, List.all_cons, List.all_nil, Bool.and_true,
    Bool.and_eq_true, decide_eq_true_eq] at hpos
  obtain ⟨p1, p2, p3, p4, p5, p6⟩ := hpos
  have q1 : set_nonblocking_errno env ≠ some 0 := by
    unfold set_nonblocking_errno
    cases h : env.fcntl_getfl with
    | err e => rw [h] at p1; simpa using p1
    | ok r =>
      simp only
      split_ifs
      · simp
      · cases h' : env.fcntl_setfl with
        | err e => rw [h'] at p2; simpa [sys_ret.errno_of] using p2
        | ok _ => simp [sys_ret.errno_of]
  have q2 : env.tcp_nodelay.errno_of ≠ some 0 := by
    cases h : env.tcp_nodelay with
    | err e => rw [h] at p3; simpa [sys_ret.errno_of] using p3
    | ok _ => simp [sys_ret.errno_of]
  have q3 : enable_keepalive_errno env ≠ some 0 := by
    unfold enable_keepalive_errno
    cases h : env.so_keepalive with
    | err e => rw [h] at p4; simpa using p4
    | ok r =>
      cases h' : env.tcp_keepidle with
      | err e => rw [h'] at p5; simpa [sys_ret.errno_of] using p5
      | ok _ => simp [sys_ret.errno_of]
  unfold add_fd add_fd_calls
  simp only [hmin, hmin0]
  have r1 := nonblock_ret env fd
  have r2 := nodelay_ret env fd 1
  have r3 := keepalive_ret env fd (min tcp_keep_alive MAX_TCP_KEEP_ALIVE)
  have t1 := nonblock_calls env fd
  have t2 := nodelay_calls env fd 1
  have t3 := keepalive_calls env fd (min tcp_keep_alive MAX_TCP_KEEP_ALIVE)
  generalize nonblock env fd 1 = x1 at r1 t1 ⊢
  generalize nodelay env fd 1 = x2 at r2 t2 ⊢
  generalize keepalive env fd 1 (min tcp_keep_alive MAX_TCP_KEEP_ALIVE) = x3 at r3 t3 ⊢
  generalize set_nonblocking_calls env fd = c1 at t1 ⊢
  generalize enable_keepalive_calls env fd (min tcp_keep_alive MAX_TCP_KEEP_ALIVE) = c3 at t3 ⊢
  generalize set_nonblocking_errno env = n1 at q1 r1 ⊢
  generalize env.tcp_nodelay.errno_of = n2 at q2 r2 ⊢
  generalize enable_keepalive_errno env = n3 at q3 r3 ⊢
  obtain ⟨a1, b1⟩ := x1
  obtain ⟨a2, b2⟩ := x2
  obtain ⟨a3, b3⟩ := x3
  simp only at r1 r2 r3 t1 t2 t3
  subst r1 r2 r3 t1 t2 t3
  generalize env.epoll_ctl = c at p6 ⊢
  clear p1 p2 p3 p4 p5 hmin hmin0
  by_cases hk : tcp_keep_alive > 0 <;> cases tcp <;> cases n1 <;> cases n2 <;> cases n3 <;>
    cases c <;> simp_all [sys_ret.is_ok]

/-- The registration in the spec's calls: it is attempted exactly when the
steps before it succeed, and then directly after `cb.set_fd(fd)`, once. -/
theorem add_fd_calls_registration (env : add_fd_env) (tcp_keep_alive fd events cb : Nat)
    (tcp : Bool) :
    ((∀ r ∈ add_fd_option_steps env tcp_keep_alive tcp, r = none) ↔
      Event.sys (sys_call.epoll_ctl_add fd events cb) ∈
        add_fd_calls env tcp_keep_alive fd events cb tcp) ∧
    ((∀ r ∈ add_fd_option_steps env tcp_keep_alive tcp, r = none) →
      ∃ pre post, add_fd_calls env tcp_keep_alive fd events cb tcp =
          pre ++ Event.set_fd cb fd :: Event.sys (sys_call.epoll_ctl_add fd events cb) :: post ∧
        Event.sys (sys_call.epoll_ctl_add fd events cb) ∉ pre ∧
        Event.sys (sys_call.epoll_ctl_add fd events cb) ∉ post) := by
  have m1 : Event.sys (sys_call.epoll_ctl_add fd events cb) ∉ set_nonblocking_calls env fd := by
    unfold set_nonblocking_calls
    cases env.fcntl_getfl with
    | err e => simp
    | ok r => by_cases h : r &&& O_NONBLOCK ≠ 0 <;> simp [h]
  have m3 : Event.sys (sys_call.epoll_ctl_add fd events cb) ∉
      enable_keepalive_calls env fd (min tcp_keep_alive MAX_TCP_KEEP_ALIVE) := by
    unfold enable_keepalive_calls
    cases env.so_keepalive.is_ok <;> simp
  unfold add_fd_calls add_fd_option_steps
  generalize set_nonblocking_calls env fd = c1 at m1 ⊢
  generalize enable_keepalive_calls env fd (min tcp_keep_alive MAX_TCP_KEEP_ALIVE) = c3 at m3 ⊢
  generalize set_nonblocking_errno env = n1
  generalize env.tcp_nodelay.errno_of = n2
  generalize enable_keepalive_errno env = n3
  generalize env.epoll_ctl.is_ok = ok4
  constructor
  · by_cases hk : tcp_keep_alive > 0 <;> cases tcp <;> cases n1 <;> cases n2 <;> cases n3 <;>
      simp_all
  · intro h
    refine ⟨c1 ++ (if tcp = true then [Event.sys (sys_call.tcp_nodelay fd 1)] else []) ++
      (if tcp = true ∧ tcp_keep_alive > 0 then c3 else []),
      (if ok4 = true then [Event.fd_registered cb] else []), ?_, ?_, ?_⟩
    · by_cases hk : tcp_keep_alive > 0 <;> cases tcp <;> cases n1 <;> cases n2 <;>
        cases n3 <;> simp_all
    · by_cases hk : tcp_keep_alive > 0 <;> cases tcp <;> simp_all
    · cases ok4 <;> simp

/-- C23: `add_fd`, with the outcomes of the system calls given by the
environment (a failing call sets a positive `errno`).  It returns 0 exactly
when every step succeeds (set non-blocking; for a TCP descriptor disable
Nagle; for a TCP descriptor with `tcp_keep_alive > 0` enable keepalive;
register with the multiplexer), and on a failure the negated `errno` of the
first failing step.  The calls it makes are exactly those of the steps, in
order, up to the first that fails, the keepalive idle time being
`min(tcp_keep_alive, 7200)`: the registration is attempted exactly when the
steps before it succeed, and then directly after `cb.set_fd(fd)`;
`cb.fd_registered()` is called exactly when the result is 0; and the
callback is never destroyed. -/
theorem add_fd_contract (env : add_fd_env) (tcp_keep_alive fd events cb : Nat) (tcp : Bool)
    (hpos : env.errno_positive = true) :
    ((add_fd env tcp_keep_alive fd events cb tcp).1 = 0 ↔
      ∀ r ∈ add_fd_steps env tcp_keep_alive tcp, r = none) ∧
    ((add_fd env tcp_keep_alive fd events cb tcp).1 =
      match add_fd_failing_errno env tcp_keep_alive tcp with
      | none => 0
      | some e => -(e : Int)) ∧
    (add_fd env tcp_keep_alive fd events cb tcp).2 =
      add_fd_calls env tcp_keep_alive fd events cb tcp ∧
    ((∀ r ∈ add_fd_option_steps env tcp_keep_alive tcp, r = none) ↔
      Event.sys (sys_call.epoll_ctl_add fd events cb) ∈
        (add_fd env tcp_keep_alive fd events cb tcp).2) ∧
    ((∀ r ∈ add_fd_option_steps env tcp_keep_alive tcp, r = none) →
      ∃ pre post, (add_fd env tcp_keep_alive fd events cb tcp).2 =
          pre ++ Event.set_fd cb fd :: Event.sys (sys_call.epoll_ctl_add fd events cb) :: post ∧
        Event.sys (sys_call.epoll_ctl_add fd events cb) ∉ pre ∧
        Event.sys (sys_call.epoll_ctl_add fd events cb) ∉ post) ∧
    (Event.fd_registered cb ∈ (add_fd env tcp_keep_alive fd events cb tcp).2 ↔
      (add_fd env tcp_keep_alive fd events cb tcp).1 = 0) ∧
    (∀ d, Event.sys (sys_call.tcp_keepidle fd d) ∈
        (add_fd env tcp_keep_alive fd events cb tcp).2 →
      d = min tcp_keep_alive MAX_TCP_KEEP_ALIVE) ∧
    (∀ c, Event.delete_cb c ∉ (add_fd env tcp_keep_alive fd events cb tcp).2) := by
  obtain ⟨hret, hiff⟩ := add_fd_ret env tcp_keep_alive fd events cb tcp hpos
  have htrace := add_fd_trace env tcp_keep_alive fd events cb tcp hpos
  obtain ⟨hreg1, hreg2⟩ := add_fd_calls_registration env tcp_keep_alive fd events cb tcp
  refine ⟨hiff, hret, htrace, ?_, ?_, ?_⟩
  · rw [htrace]; exact hreg1
  · rw [htrace]; exact hreg2
  have p6 : env.epoll_ctl ≠ sys_ret.err 0 := by
    simp only [add_fd_env.errno_positive, List.all_cons, List.all_nil, Bool.and_true,
      Bool.and_eq_true, decide_eq_true_eq] at hpos
    exact hpos.2.2.2.2.2
  obtain ⟨opts, hopts, hshape⟩ := add_fd_shape env tcp_keep_alive fd events cb tcp
  have n1 : Event.fd_registered cb ∉ opts := by
    intro h
    rcases hopts _ h with h | ⟨_, h⟩ | h | h | h <;> cases h
  have n3 : ∀ c, Event.delete_cb c ∉ opts := by
    intro c h
    rcases hopts _ h with h | ⟨_, h⟩ | h | h | h <;> cases h
  have n4 : ∀ d, Event.sys (sys_call.tcp_keepidle fd d) ∈ opts →
      d = min tcp_keep_alive MAX_TCP_KEEP_ALIVE := by
    intro d h
    rcases hopts _ h with h | ⟨_, h⟩ | h | h | h <;> cases h
    rfl
  rcases hshape with ⟨r, hr, h⟩ | ⟨e, he, h⟩ | ⟨v, _, h⟩
  · rw [h]
    exact ⟨by simp [n1, hr], n4, n3⟩
  · rw [h]
    have he0 : e ≠ 0 := by
      intro h0
      rw [h0] at he
      exact p6 he
    refine ⟨by simp [n1, he0], ?_, ?_⟩
    · intro d hd
      simp only [List.mem_append, List.mem_cons, List.mem_singleton, List.not_mem_nil,
        or_false, reduceCtorEq, Event.sys.injEq] at hd
      exact n4 d hd
    · intro c hc
      simp only [List.mem_append, List.mem_cons, List.mem_singleton, List.not_mem_nil,
        or_false, reduceCtorEq] at hc
      exact n3 c hc
  · rw [h]
    refine ⟨by simp, ?_, ?_⟩
    · intro d hd
      simp only [List.mem_append, List.mem_cons, List.mem_singleton, List.not_mem_nil,
        or_false, reduceCtorEq, Event.sys.injEq] at hd
      exact n4 d hd
    · intro c hc
      simp only [List.mem_append, List.mem_cons, List.mem_singleton, List.not_mem_nil,
        or_false, reduceCtorEq] at hc
      exact n3 c hc

/-- Witness for `add_fd_contract`: a TCP descriptor whose `TCP_KEEPIDLE`
call fails with `errno` 22, and one for which every call succeeds. -/
theorem add_fd_contract_witness :
    (add_fd ⟨sys_ret.ok 2, sys_ret.ok 0, sys_ret.ok 0, sys_ret.ok 0, sys_ret.err 22,
        sys_ret.ok 0⟩ 9000 5 1 77 true).2 =
      add_fd_calls ⟨sys_ret.ok 2, sys_ret.ok 0, sys_ret.ok 0, sys_ret.ok 0, sys_ret.err 22,
        sys_ret.ok 0⟩ 9000 5 1 77 true ∧
    add_fd ⟨sys_ret.ok 2, sys_ret.ok 0, sys_ret.ok 0, sys_ret.ok 0, sys_ret.err 22,
        sys_ret.ok 0⟩ 9000 5 1 77 true =
      (-22, [Event.sys (sys_call.fcntl_getfl 5), Event.sys (sys_call.fcntl_setfl 5 2050),
        Event.sys (sys_call.tcp_nodelay 5 1), Event.sys (sys_call.so_keepalive 5 1),
        Event.sys (sys_call.tcp_keepidle 5 7200)]) ∧
    add_fd ⟨sys_ret.ok 2, sys_ret.ok 0, sys_ret.ok 0, sys_ret.ok 0, sys_ret.ok 0,
        sys_ret.ok 0⟩ 9000 5 1 77 true =
      (0, [Event.sys (sys_call.fcntl_getfl 5), Event.sys (sys_call.fcntl_setfl 5 2050),
        Event.sys (sys_call.tcp_nodelay 5 1), Event.sys (sys_call.so_keepalive 5 1),
        Event.sys (sys_call.tcp_keepidle 5 7200), Event.set_fd 77 5,
        Event.sys (sys_call.epoll_ctl_add 5 1 77), Event.fd_registered 77]) :=
  ⟨(add_fd_contract ⟨sys_ret.ok 2, sys_ret.ok 0, sys_ret.ok 0, sys_ret.ok 0, sys_ret.err 22,
      sys_ret.ok 0⟩ 9000 5 1 77 true (by decide)).2.2.1, by decide, by decide⟩

/-! ## Extra-context cleanup -/

/-- A pool whose entries are all young is only rotated by the loop. -/
theorem cleanup_loop_young (lifetime : Nat) (now : Int) :
    ∀ (i : Nat) (pool : List reusable_session_t) (first : Nat),
      (∀ s ∈ pool, now - s.start_time_ms ≤ (lifetime : Int)) →
      ∃ k, cleanup_loop lifetime now i pool first = pool.rotate k := by
  intro i
  induction i with
  | zero => intro pool first _; exact ⟨0, by simp [cleanup_loop]⟩
  | succ i ih =>
    intro pool first hy
    cases pool with
    | nil => exact ⟨0, by simp [cleanup_loop]⟩
    | cons s rest =>
      have hs : ¬ now - s.start_time_ms > (lifetime : Int) :=
        not_lt.mpr (hy s (List.mem_cons_self _ _))
      have hy' : ∀ x ∈ rest ++ [s], now - x.start_time_ms ≤ (lifetime : Int) := by
        intro x hx
        apply hy
        simp only [List.mem_append, List.mem_singleton] at hx
        rcases hx with hx | hx
        · exact List.mem_cons_of_mem _ hx
        · rw [hx]; exact List.mem_cons_self _ _
      have hrot : ∀ k, (rest ++ [s]).rotate k = (s :: rest).rotate (k + 1) := by
        intro k
        rw [List.rotate_cons_succ]
      simp only [cleanup_loop, hs, if_false]
      by_cases hf : first = 0
      · obtain ⟨k, hk⟩ := ih (rest ++ [s]) s.ptr hy'
        exact ⟨k + 1, by rw [if_pos hf, hk, hrot]⟩
      · rw [if_neg hf]
        by_cases hp : s.ptr = first
        · exact ⟨1, by rw [if_pos hp, ← hrot 0, List.rotate_zero]⟩
        · obtain ⟨k, hk⟩ := ih (rest ++ [s]) first hy'
          exact ⟨k + 1, by rw [if_neg hp, hk, hrot]⟩

/-- The loop on a pool made of entries not yet looked at followed by the
young entries already put back: what is left is a rotation of the young
entries. -/
theorem cleanup_loop_rotation (lifetime : Nat) (now : Int) :
    ∀ (u : List reusable_session_t) (i : Nat) (y : List reusable_session_t) (first : Nat),
      u.length ≤ i →
      (∀ s ∈ y, now - s.start_time_ms ≤ (lifetime : Int)) →
      (first = 0 ∨ first ∈ y.map (fun s => s.ptr)) →
      ((u ++ y).map (fun s => s.ptr)).Nodup →
      ∃ k, cleanup_loop lifetime now i (u ++ y) first =
        (y ++ u.filter (fun s => decide (now - s.start_time_ms ≤ (lifetime : Int)))).rotate k := by
  intro u
  induction u with
  | nil =>
    intro i y first _ hy _ _
    simpa using cleanup_loop_young lifetime now i y first hy
  | cons s u ih =>
    intro i y first hlen hy hfirst hnd
    cases i with
    | zero => simp at hlen
    | succ i =>
      have hlen' : u.length ≤ i := by simpa using hlen
      have hnd' : ((u ++ y).map (fun s => s.ptr)).Nodup := by
        simp only [List.cons_append, List.map_cons, List.nodup_cons] at hnd
        exact hnd.2
      have hnotin : s.ptr ∉ (u ++ y).map (fun s => s.ptr) := by
        simp only [List.cons_append, List.map_cons, List.nodup_cons] at hnd
        exact hnd.1
      have hnd2 : ((u ++ (y ++ [s])).map (fun s => s.ptr)).Nodup := by
        have hperm : ((u ++ (y ++ [s])).map (fun s => s.ptr)).Perm
            (((s :: u) ++ y).map (fun s => s.ptr)) := by
          apply List.Perm.map
          rw [← List.append_assoc]
          exact (List.perm_append_singleton s (u ++ y))
        exact hperm.nodup_iff.mpr hnd
      simp only [List.cons_append, cleanup_loop]
      by_cases hs : now - s.start_time_ms > (lifetime : Int)
      · rw [if_pos hs]
        obtain ⟨k, hk⟩ := ih i y first hlen' hy hfirst hnd'
        refine ⟨k, ?_⟩
        rw [hk, List.filter_cons_of_neg]
        simp only [decide_eq_true_eq, not_le]
        exact hs
      · rw [if_neg hs]
        have hs' : now - s.start_time_ms ≤ (lifetime : Int) := not_lt.mp hs
        have hy2 : ∀ x ∈ y ++ [s], now - x.start_time_ms ≤ (lifetime : Int) := by
          intro x hx
          simp only [List.mem_append, List.mem_singleton] at hx
          rcases hx with hx | hx
          · exact hy x hx
          · rw [hx]; exact hs'
        have hfilter : y ++ List.filter (fun s => decide (now - s.start_time_ms ≤ (lifetime : Int)))
            (s :: u) = (y ++ [s]) ++
              List.filter (fun s => decide (now - s.start_time_ms ≤ (lifetime : Int))) u := by
          rw [List.filter_cons_of_pos (by simpa using hs')]
          simp
        rw [hfilter, List.append_assoc]
        by_cases hf : first = 0
        · rw [if_pos hf]
          exact ih i (y ++ [s]) s.ptr hlen' hy2 (Or.inr (by simp)) hnd2
        · rw [if_neg hf]
          have hin : first ∈ y.map (fun s => s.ptr) := hfirst.resolve_left hf
          have hp : s.ptr ≠ first := by
            intro hp
            apply hnotin
            rw [hp, List.map_append]
            exact List.mem_append_right _ hin
          rw [if_neg hp]
          refine ih i (y ++ [s]) first hlen' hy2 (Or.inr ?_) hnd2
          rw [List.map_append]
          exact List.mem_append_left _ hin

/-- C27: extra-context cleanup on a pool that holds at most
`BUFFERED_REUSABLE_SESSION_COUNT` entries with distinct addresses, run by one
thread: nothing changes unless `now - last_cleanup >
epoll_group_ctx_refresh_time`; when it runs, `last_cleanup` becomes `now`
and the pool left is a rotation of the entries of age `≤
shared_session_lifetime` in their order, so each of them is there as often
as before and every older entry is gone. -/
theorem extra_ctx_cleanup_spec (refresh lifetime B : Nat) (now : Int) (g : CmtEpoll)
    (hlen : g.extra_ctx_.reusable_sessions.length ≤ B)
    (hnd : (g.extra_ctx_.reusable_sessions.map (fun s => s.ptr)).Nodup) :
    (¬ now - g.last_cleanup_ > (refresh : Int) →
      extra_ctx_cleanup refresh lifetime B now g = g) ∧
    (now - g.last_cleanup_ > (refresh : Int) →
      (extra_ctx_cleanup refresh lifetime B now g).last_cleanup_ = now ∧
      (∃ k, (extra_ctx_cleanup refresh lifetime B now g).extra_ctx_.reusable_sessions =
        (g.extra_ctx_.reusable_sessions.filter
          (fun s => decide (now - s.start_time_ms ≤ (lifetime : Int)))).rotate k) ∧
      (∀ s, List.count s (extra_ctx_cleanup refresh lifetime B now g).extra_ctx_.reusable_sessions =
        if now - s.start_time_ms ≤ (lifetime : Int) then
          List.count s g.extra_ctx_.reusable_sessions
        else 0)) := by
  constructor
  · intro h
    unfold extra_ctx_cleanup
    simp only [if_neg h]
  · intro h
    obtain ⟨k, hk⟩ := cleanup_loop_rotation lifetime now g.extra_ctx_.reusable_sessions B [] 0
      hlen (by simp) (Or.inl rfl) (by simpa using hnd)
    simp only [List.append_nil, List.nil_append] at hk
    unfold extra_ctx_cleanup
    simp only [if_pos h, hk]
    refine ⟨trivial, ⟨k, rfl⟩, ?_⟩
    intro s
    rw [(List.rotate_perm _ k).count_eq]
    split_ifs with hs
    · exact List.count_filter (by simpa using hs)
    · apply List.count_eq_zero.mpr
      intro hm
      have := (List.mem_filter.mp hm).2
      simp only [decide_eq_true_eq] at this
      exact hs this

/-- Witness for `extra_ctx_cleanup_spec`: three sessions created at times 0,
90 and 95, lifetime 20, cleanup at time 100. -/
theorem extra_ctx_cleanup_spec_witness :
    (extra_ctx_cleanup 10 20 16 100
        { extra_ctx_ := { reusable_sessions := [⟨1, 0⟩, ⟨2, 90⟩, ⟨3, 95⟩] } }).last_cleanup_ =
      100 ∧
    (extra_ctx_cleanup 10 20 16 100
        { extra_ctx_ := { reusable_sessions := [⟨1, 0⟩, ⟨2, 90⟩, ⟨3, 95⟩] } }
      ).extra_ctx_.reusable_sessions = [⟨3, 95⟩, ⟨2, 90⟩] :=
  ⟨((extra_ctx_cleanup_spec 10 20 16 100
      { extra_ctx_ := { reusable_sessions := [⟨1, 0⟩, ⟨2, 90⟩, ⟨3, 95⟩] } }
      (by decide) (by decide)).2 (by decide)).1, by decide⟩

end polarx_rpc
